import Mathlib

/-!
# Buddy allocator (`src/buddy/buddy.c`)

A shallow embedding of the allocator and a verification of its specification.

Conventions of the embedding.

* A pointer into the arena `g_memory` is represented by its byte offset from
  `g_memory` (a `Nat`); the arena base `B` of the specification is offset `0`.
  The `void *` returned by `buddy_alloc` is an `Option Nat`, `none` being `NULL`.
* A pointer to a page record `&g_pages[i]` (and to its embedded `list` node) is
  represented by the page number `i`.
* The global variables `free_area` and `g_pages` form the `State`; the C
  functions become state-passing functions.
* An execution that indexes `g_pages` outside `0 .. 255`, uses a list head that
  `buddy_init` never initialised, or dereferences `NULL` has no defined result
  in C: the embedding returns `Res.undef` there.
* The only recursion and the only loops of the source are bounded by
  `MAX_ORDER - MIN_ORDER + 1` rounds; the embedding recurses on a round counter
  and returns `Res.nofuel` if the counter were ever to run out (it never does:
  `buddy_alloc_ne_nofuel`, `buddy_free_ne_nofuel`, `find_order_loop_fuel`).
-/

namespace Buddy

/-! ## Constants and address macros -/

/-- The constant `MIN_ORDER`, defined as 12. -/
def MIN_ORDER : Nat := 12

/-- The constant `MAX_ORDER`, defined as 20. -/
def MAX_ORDER : Nat := 20

/-- The macro `ORDER_SIZE(order)`, defined as `(1 << (order))`. -/
def ORDER_SIZE (order : Nat) : Nat := 1 <<< order

/-- The macro `PAGE_SIZE`, defined as `(1 << MIN_ORDER)`. -/
def PAGE_SIZE : Nat := 1 <<< MIN_ORDER

/-- The length of the array `g_pages`: `(1<<MAX_ORDER)/PAGE_SIZE`. -/
def N_PAGES : Nat := (1 <<< MAX_ORDER) / PAGE_SIZE

/-- The macro `PAGE_TO_ADDR(page_idx)`, defined as
`(void *)((page_idx*PAGE_SIZE) + g_memory)`, as an offset from `g_memory`. -/
def PAGE_TO_ADDR (page_idx : Nat) : Nat := page_idx * PAGE_SIZE

/-- The macro `ADDR_TO_PAGE(addr)`, defined as
`((unsigned long)((void *)addr - (void *)g_memory) / PAGE_SIZE)`, on an offset from
`g_memory`. -/
def ADDR_TO_PAGE (addr : Nat) : Nat := addr / PAGE_SIZE

/-- The macro `BUDDY_ADDR(addr, o)`, defined as
`(void *)((((unsigned long)addr - (unsigned long)g_memory) ^ (1<<o)) + (unsigned long)g_memory)`,
on an offset from `g_memory`. -/
def BUDDY_ADDR (addr o : Nat) : Nat := addr ^^^ (1 <<< o)

/-! ## Data model -/

/-- The record `page_t` without its list node: `char *address` (as an offset from
`g_memory`), `int order`, `int index` (only ever assigned array positions). -/
structure page_t where
  address : Nat
  order : Int
  index : Nat

/-- The global state: `free_area[o]` is the sequence of page records linked on the
list with head `free_area[o]`, first element `free_area[o].next`; `g_pages` is the
array of page records. -/
structure State where
  free_area : Nat → List Nat
  g_pages : Nat → page_t

/-- The outcome of running a function of the source. -/
inductive Res (α : Type) where
  | ok (a : α)
  | undef
  | nofuel

/-- The all-zero contents of the globals before `buddy_init` runs. -/
def zero_state : State :=
  { free_area := fun _ => [],
    g_pages := fun _ => { address := 0, order := 0, index := 0 } }

/-! ## The list library

`list.h` is not among the sources; the three operations the allocator uses are
modelled on sequences of page numbers. -/

/-- Modelled from the spec: `list_empty` of the missing `list.h`; the free list of an
order is an ordered collection of page records. -/
def list_empty (s : State) (o : Nat) : Bool := (s.free_area o).isEmpty

/-- Modelled from the spec: `list_add` of the missing `list.h`; the entry is inserted
as the new list head ("inserted as a new free-list head at that order"). -/
def list_add (entry o : Nat) (s : State) : State :=
  { s with free_area := fun j => if j = o then entry :: s.free_area o else s.free_area j }

/-- Modelled from the spec: `list_del` of the missing `list.h`; the entry is removed
from the list `o` it is linked on. -/
def list_del (entry o : Nat) (s : State) : State :=
  { s with free_area := fun j => if j = o then (s.free_area o).erase entry else s.free_area j }

/-- The assignment `g_pages[idx].order = v`. -/
def set_order (idx : Nat) (v : Int) (s : State) : State :=
  { s with g_pages := fun i => if i = idx then { s.g_pages idx with order := v } else s.g_pages i }

/-! ## `find_order` -/

/-- The loop `while(ORDER_SIZE(order) < size && order <= MAX_ORDER) order = order + 1;`
run for at most `fuel` rounds. -/
def find_order_loop : Nat → Nat → Int → Nat
  | 0, order, _ => order
  | fuel + 1, order, size =>
    if ((ORDER_SIZE order : Nat) : Int) < size ∧ order ≤ MAX_ORDER then
      find_order_loop fuel (order + 1) size
    else order

/-- The function `int find_order(int size)`. The loop condition fails at the latest when `order`
is `MAX_ORDER + 1`, that is after `MAX_ORDER + 1 - MIN_ORDER` rounds. -/
def find_order (size : Int) : Nat :=
  find_order_loop (MAX_ORDER + 1 - MIN_ORDER) MIN_ORDER size

/-! ## `buddy_init` -/

/-- The function `void buddy_init()`, run on the globals `s`: every page record gets its address,
order `-1` and its index; the list heads of the orders `MIN_ORDER .. MAX_ORDER` are
initialised; page 0 gets order `MAX_ORDER` and is added to `free_area[MAX_ORDER]`. -/
def buddy_init (s : State) : State :=
  let n_pages := ORDER_SIZE MAX_ORDER / PAGE_SIZE
  let pages : Nat → page_t := fun i =>
    if i < n_pages then { address := PAGE_TO_ADDR i, order := -1, index := i } else s.g_pages i
  let heads : Nat → List Nat := fun i =>
    if MIN_ORDER ≤ i ∧ i ≤ MAX_ORDER then [] else s.free_area i
  list_add 0 MAX_ORDER (set_order 0 (MAX_ORDER : Nat) { free_area := heads, g_pages := pages })

/-! ## `buddy_alloc` -/

/-- The scan `for(int i = alloc_order; i <= MAX_ORDER; i++) if(!list_empty(&free_area[i]))`:
the first order from `i` on, among the next `n` orders, whose free list is not empty. -/
def scan (s : State) : Nat → Nat → Option Nat
  | 0, _ => none
  | n + 1, i => if !list_empty s i then some i else scan s n (i + 1)

/-- The function `void *buddy_alloc(int size)` with at most `fuel` nested calls. -/
def buddy_alloc_fuel : Nat → State → Int → Res (Option Nat × State)
  | 0, _, _ => Res.nofuel
  | fuel + 1, s, size =>
    if size < 1 then Res.ok (none, s)
    else
      let alloc_order := find_order size
      match scan s (MAX_ORDER + 1 - alloc_order) alloc_order with
      | none => Res.ok (none, s)
      | some i =>
        if i = alloc_order then
          match s.free_area i with
          | [] => Res.undef
          | temp_left :: _ =>
            let s1 := list_del temp_left i s
            let s2 := set_order temp_left (alloc_order : Nat) s1
            Res.ok (some (PAGE_TO_ADDR (s2.g_pages temp_left).index), s2)
        else
          match buddy_alloc_fuel fuel s ((ORDER_SIZE (1 + alloc_order) : Nat) : Int) with
          | Res.ok (some a, s1) =>
            let temp_left := ADDR_TO_PAGE a
            if temp_left < N_PAGES then
              let right_ix := (s1.g_pages temp_left).index + ORDER_SIZE alloc_order / PAGE_SIZE
              if right_ix < N_PAGES then
                let s2 := list_add right_ix alloc_order s1
                let s3 := set_order temp_left (alloc_order : Nat) s2
                Res.ok (some (PAGE_TO_ADDR (s3.g_pages temp_left).index), s3)
              else Res.undef
            else Res.undef
          | Res.ok (none, _) => Res.undef
          | Res.undef => Res.undef
          | Res.nofuel => Res.nofuel

/-- The function `void *buddy_alloc(int size)`: a call for order `o` nests at most down to the call
for order `MAX_ORDER`, so `MAX_ORDER - MIN_ORDER + 1` levels always suffice. -/
def buddy_alloc (s : State) (size : Int) : Res (Option Nat × State) :=
  buddy_alloc_fuel (MAX_ORDER - MIN_ORDER + 1) s size

/-! ## `buddy_free` -/

/-- The search loop of `buddy_free`:
`list_for_each(temp_list, &free_area[order]){ temp_page = list_entry(...); if(temp_page == NULL || temp_page->address == BUDDY_ADDR(addr, order)) break; }`.
The result is the value of `temp_page` after the loop: the first entry whose address
is `target`, else the last entry visited, else the initial value (`NULL`). -/
def search (s : State) (target : Nat) : List Nat → Option Nat → Option Nat
  | [], temp_page => temp_page
  | e :: rest, _ =>
    if (s.g_pages e).address = target then some e else search s target rest (some e)

/-- The test after the search loop,
`if(temp_page == NULL || temp_page->address != BUDDY_ADDR(addr, order))`:
`none` when the test succeeds (no buddy found), else the entry found. -/
def buddy_found (s : State) (target : Nat) (l : List Nat) : Option Nat :=
  match search s target l none with
  | none => none
  | some t => if (s.g_pages t).address ≠ target then none else some t

/-- The `do { ... } while(order <= MAX_ORDER)` loop of `buddy_free`, for at most `fuel`
rounds, started with the local variables `addr`, `index`, `order`. -/
def buddy_free_loop : Nat → State → Nat → Nat → Nat → Res State
  | 0, _, _, _, _ => Res.nofuel
  | fuel + 1, s, addr, index, order =>
    match buddy_found s (BUDDY_ADDR addr order) (s.free_area order) with
    | none =>
      let s1 := set_order order (-1) s
      if index < N_PAGES then Res.ok (list_add index order s1) else Res.undef
    | some temp_page =>
      let addr1 :=
        if addr > (s.g_pages temp_page).address then (s.g_pages temp_page).address else addr
      let index1 :=
        if addr > (s.g_pages temp_page).address then ADDR_TO_PAGE addr1 else index
      let s1 := list_del temp_page order s
      if order + 1 ≤ MAX_ORDER then buddy_free_loop fuel s1 addr1 index1 (order + 1)
      else Res.ok s1

/-- The function `void buddy_free(void *addr)`. Reading `g_pages[index]` needs `index` inside the
array; `free_area[order]` is an initialised list head only for
`MIN_ORDER <= order <= MAX_ORDER`. -/
def buddy_free (s : State) (addr : Nat) : Res State :=
  let index := ADDR_TO_PAGE addr
  if index < N_PAGES then
    let order := (s.g_pages index).order
    if (MIN_ORDER : Int) ≤ order ∧ order ≤ (MAX_ORDER : Int) then
      buddy_free_loop (MAX_ORDER + 1 - order.toNat) s addr index order.toNat
    else Res.undef
  else Res.undef

/-! ## `buddy_dump` -/

/-- The function `void buddy_dump()`: for each order from `MIN_ORDER` to `MAX_ORDER` the pair
printed by `printf("%d:%dK ", cnt, (1<<o)/1024)`. -/
def buddy_dump (s : State) : List (Nat × Nat) :=
  (List.range' MIN_ORDER (MAX_ORDER + 1 - MIN_ORDER)).map
    (fun o => ((s.free_area o).length, (1 <<< o) / 1024))

/-! ## Observers used in the statements -/

/-- The pointer returned by a call of `buddy_alloc`, if the call returns. -/
def ret_of : Res (Option Nat × State) → Option (Option Nat)
  | Res.ok (r, _) => some r
  | _ => none

/-- The state after a call of `buddy_alloc`, if the call returns (else `d`). -/
def state_of (d : State) : Res (Option Nat × State) → State
  | Res.ok (_, s) => s
  | _ => d

/-- The state after a call of `buddy_free`, if the call returns (else `d`). -/
def freed (d : State) : Res State → State
  | Res.ok s => s
  | _ => d

/-- The number of free bytes: the sum over the orders `MIN_ORDER .. MAX_ORDER` of
(length of `free_area[o]`) * `2^o`. -/
def free_bytes (s : State) : Nat :=
  ((List.range' MIN_ORDER (MAX_ORDER + 1 - MIN_ORDER)).map
    (fun o => (s.free_area o).length * 2 ^ o)).sum

/-- The number of bytes in a list of live blocks, each given as (address, order). -/
def live_bytes (live : List (Nat × Nat)) : Nat :=
  (live.map (fun b => 2 ^ b.2)).sum

/-! ## Well-formed states and reachable states -/

/-- The page table is as `buddy_init` wrote it: record `i` has address
`PAGE_TO_ADDR i` and index `i` (no function of the source writes these fields again). -/
def pages_ok (s : State) : Prop :=
  ∀ i, i < N_PAGES → (s.g_pages i).address = PAGE_TO_ADDR i ∧ (s.g_pages i).index = i

/-- Every entry of a free list is a page record, and the head of a block of the order of
its list is a multiple of the number of pages of such a block. -/
def entries_aligned (s : State) : Prop :=
  ∀ o, MIN_ORDER ≤ o → o ≤ MAX_ORDER → ∀ p ∈ s.free_area o,
    p < N_PAGES ∧ 2 ^ (o - MIN_ORDER) ∣ p

/-- A page record that holds a valid order is the head of a block aligned to that
order. -/
def orders_aligned (s : State) : Prop :=
  ∀ i, i < N_PAGES → ∀ o : Nat, MIN_ORDER ≤ o → o ≤ MAX_ORDER →
    (s.g_pages i).order = (o : Int) → 2 ^ (o - MIN_ORDER) ∣ i

/-- No free list of an order below `MAX_ORDER` holds a block together with its buddy. -/
def no_free_buddies (s : State) : Prop :=
  ∀ o, MIN_ORDER ≤ o → o < MAX_ORDER → ∀ p ∈ s.free_area o, ∀ q ∈ s.free_area o,
    (s.g_pages q).address ≠ BUDDY_ADDR (PAGE_TO_ADDR p) o

/-- The invariant of the allocator state that the proofs below maintain. -/
def well_formed (s : State) : Prop :=
  pages_ok s ∧ entries_aligned s ∧ orders_aligned s ∧ no_free_buddies s

/-- Every live block is recorded with the address of a page and a valid order. -/
def live_ok (live : List (Nat × Nat)) : Prop :=
  ∀ b ∈ live, (∃ p, p < N_PAGES ∧ b.1 = PAGE_TO_ADDR p) ∧ MIN_ORDER ≤ b.2 ∧ b.2 ≤ MAX_ORDER

/-- The states reachable from `buddy_init` by calls of `buddy_alloc` and by calls of
`buddy_free` on the address of a live block. The list records the live blocks: the
address each successful `buddy_alloc` returned, with the order it was allocated at. -/
inductive Reachable : State → List (Nat × Nat) → Prop
  | init (s0 : State) : Reachable (buddy_init s0) []
  | alloc {s : State} {live : List (Nat × Nat)} (size : Int) (a : Nat) (s' : State) :
      Reachable s live → buddy_alloc s size = Res.ok (some a, s') →
      Reachable s' ((a, find_order size) :: live)
  | alloc_null {s : State} {live : List (Nat × Nat)} (size : Int) (s' : State) :
      Reachable s live → buddy_alloc s size = Res.ok (none, s') → Reachable s' live
  | free {s : State} {live : List (Nat × Nat)} (a o : Nat) (s' : State) :
      Reachable s live → (a, o) ∈ live → buddy_free s a = Res.ok s' →
      Reachable s' (live.erase (a, o))

/-- The states reachable from `buddy_init` by successful calls of `buddy_alloc` and by
calls of `buddy_free` on the head address of a live block whose page record holds the
order of the block. -/
inductive Reachable_held : State → List (Nat × Nat) → Prop
  | init (s0 : State) : Reachable_held (buddy_init s0) []
  | alloc {s : State} {live : List (Nat × Nat)} (size : Int) (a : Nat) (s' : State) :
      Reachable_held s live → buddy_alloc s size = Res.ok (some a, s') →
      Reachable_held s' ((a, find_order size) :: live)
  | free {s : State} {live : List (Nat × Nat)} (a o : Nat) (s' : State) :
      Reachable_held s live → (a, o) ∈ live →
      (s.g_pages (ADDR_TO_PAGE a)).order = (o : Int) → buddy_free s a = Res.ok s' →
      Reachable_held s' (live.erase (a, o))

/-- The state after one more call `buddy_alloc(1)`. -/
def alloc_one (s : State) : State := state_of s (buddy_alloc s 1)

/-- The state after `buddy_init` and `n` consecutive calls `buddy_alloc(1)`. -/
def after_allocs (n : Nat) (s0 : State) : State := alloc_one^[n] (buddy_init s0)

/-! ## Sequences of calls -/

/-- A call of the interface: `buddy_alloc(size)` or `buddy_free(addr)`. -/
inductive Call where
  | alloc (size : Int)
  | free (addr : Nat)

/-- Runs the calls in order from the state `s`; the result lists the pointers returned
by the calls of `buddy_alloc`, in order, and gives the final state. -/
def run : List Call → State → Res (List (Option Nat) × State)
  | [], s => Res.ok ([], s)
  | Call.alloc size :: rest, s =>
    match buddy_alloc s size with
    | Res.ok (r, s1) =>
      match run rest s1 with
      | Res.ok (rs, s2) => Res.ok (r :: rs, s2)
      | Res.undef => Res.undef
      | Res.nofuel => Res.nofuel
    | Res.undef => Res.undef
    | Res.nofuel => Res.nofuel
  | Call.free addr :: rest, s =>
    match buddy_free s addr with
    | Res.ok s1 => run rest s1
    | Res.undef => Res.undef
    | Res.nofuel => Res.nofuel

/-- What can be observed of a run: the pointers returned and the final `buddy_dump`. -/
def observe : Res (List (Option Nat) × State) → Option (List (Option Nat) × List (Nat × Nat))
  | Res.ok (rs, s) => some (rs, buddy_dump s)
  | _ => none

/-- Two states agree on the objects that exist in the program: the list heads of the
orders `MIN_ORDER .. MAX_ORDER` and the page records `0 .. N_PAGES - 1`. -/
def same_arena (s t : State) : Prop :=
  (∀ o, MIN_ORDER ≤ o → o ≤ MAX_ORDER → s.free_area o = t.free_area o) ∧
  (∀ i, i < N_PAGES → s.g_pages i = t.g_pages i)

/-- Every entry of a free list is a page record of the array. -/
def entries_in_range (s : State) : Prop :=
  ∀ o, MIN_ORDER ≤ o → o ≤ MAX_ORDER → ∀ p ∈ s.free_area o, p < N_PAGES

/-! ## Concrete states used as instances -/

/-- The state after `buddy_init` on the zeroed globals. -/
def init0 : State := buddy_init zero_state

/-- The state after `buddy_init` and one call `buddy_alloc(1)`. -/
def after_one : State := state_of zero_state (buddy_alloc init0 1)

/-- The state of the globals after a run, if the run returns (else `d`). -/
def run_state (d : State) : Res (List (Option Nat) × State) → State
  | Res.ok (_, s) => s
  | _ => d

/-- Whether an execution left the defined behaviour of the source. -/
def is_undef {α : Type} : Res α → Bool
  | Res.undef => true
  | _ => false

/-- The page table of `buddy_init` with page 255, which is no multiple of 2, as the only
entry of the order-13 free list: a state that no sequence of calls reaches. -/
def stray_state : State :=
  { free_area := fun o => if o = 13 then [255] else [],
    g_pages := init0.g_pages }

/-- The live blocks after `buddy_init` and `n` consecutive calls `buddy_alloc(1)`: the
address each call returned, with order `find_order(1)`. -/
def allocs_live : Nat → State → List (Nat × Nat)
  | 0, _ => []
  | n + 1, s0 =>
    ((match ret_of (buddy_alloc (after_allocs n s0) 1) with
      | some (some a) => a
      | _ => 0), find_order 1) :: allocs_live n s0

/-! ## The allocator as the specification words it -/

/-- The split steps of section 4.2 of the specification as an explicit loop: the block
with head `p`, found at order `c`, is split `n` times, and each step inserts the right
half, of the order one below the current step, as the new head of the free list of that
order. -/
def spec_split : Nat → Nat → Nat → State → State
  | 0, _, _, s => s
  | n + 1, p, c, s =>
    spec_split n p (c - 1) (list_add (p + 2 ^ (c - 1 - MIN_ORDER)) (c - 1) s)

/-- The operation `allocate` of section 4.2 of the specification, with the iterative
cascade in place of the recursion: compute the order, scan upward for the first
non-empty free list, fail if there is none, remove its first entry, split down to the
order of the request, mark the block allocated at that order and return its address. -/
def spec_allocate (s : State) (size : Int) : Res (Option Nat × State) :=
  if size < 1 then Res.ok (none, s)
  else
    let order := find_order size
    match scan s (MAX_ORDER + 1 - order) order with
    | none => Res.ok (none, s)
    | some k =>
      match s.free_area k with
      | [] => Res.undef
      | p :: _ =>
        Res.ok (some (PAGE_TO_ADDR p),
          set_order p (order : Nat) (spec_split (k - order) p k (list_del p k s)))

/-! ## Blocks and the pages they hold -/

/-- Page `i` lies in the block of order `o` whose head is page `p`: the block holds the
pages `p .. p + 2^(o-12) - 1`. -/
def in_block (b : Nat × Nat) (i : Nat) : Prop :=
  b.1 ≤ i ∧ i < b.1 + 2 ^ (b.2 - MIN_ORDER)

instance (b : Nat × Nat) (i : Nat) : Decidable (in_block b i) := by
  unfold in_block
  infer_instance

/-- The free blocks of the next `n` orders from `o` on, each as (head page, order). -/
def blocks_from (s : State) : Nat → Nat → List (Nat × Nat)
  | 0, _ => []
  | n + 1, o => (s.free_area o).map (fun p => (p, o)) ++ blocks_from s n (o + 1)

/-- The free blocks of a state: the entries of the free lists of the orders
`MIN_ORDER .. MAX_ORDER`, each as (head page, order). -/
def free_blocks (s : State) : List (Nat × Nat) :=
  blocks_from s (MAX_ORDER + 1 - MIN_ORDER) MIN_ORDER

/-- The live blocks, each as (head page, order). -/
def live_blocks (live : List (Nat × Nat)) : List (Nat × Nat) :=
  live.map (fun b => (ADDR_TO_PAGE b.1, b.2))

/-- All blocks of a state: the free ones followed by the live ones. -/
def all_blocks (s : State) (live : List (Nat × Nat)) : List (Nat × Nat) :=
  free_blocks s ++ live_blocks live

/-- The number of blocks of a list that hold page `i`. -/
def holders (l : List (Nat × Nat)) (i : Nat) : Nat :=
  l.countP (fun b => decide (in_block b i))

/-- Two blocks share no page. -/
def apart (b c : Nat × Nat) : Prop := ∀ i, ¬ (in_block b i ∧ in_block c i)

/-- The state after `buddy_init`, four calls `buddy_alloc(1)`, which return pages 0 to 3,
and the calls `buddy_free` on page 0 and on page 2. -/
def two_freed : State :=
  freed zero_state (buddy_free (freed zero_state
    (buddy_free (after_allocs 4 zero_state) (PAGE_TO_ADDR 0))) (PAGE_TO_ADDR 2))

/-! ## Basic facts -/

@[simp] theorem list_add_free_area (e o : Nat) (s : State) (j : Nat) :
    (list_add e o s).free_area j = if j = o then e :: s.free_area o else s.free_area j := rfl

@[simp] theorem list_add_g_pages (e o : Nat) (s : State) :
    (list_add e o s).g_pages = s.g_pages := rfl

@[simp] theorem list_del_free_area (e o : Nat) (s : State) (j : Nat) :
    (list_del e o s).free_area j =
      if j = o then (s.free_area o).erase e else s.free_area j := rfl

@[simp] theorem list_del_g_pages (e o : Nat) (s : State) :
    (list_del e o s).g_pages = s.g_pages := rfl

@[simp] theorem set_order_free_area (i : Nat) (v : Int) (s : State) :
    (set_order i v s).free_area = s.free_area := rfl

@[simp] theorem set_order_g_pages (i : Nat) (v : Int) (s : State) (j : Nat) :
    (set_order i v s).g_pages j =
      if j = i then { s.g_pages i with order := v } else s.g_pages j := rfl

theorem page_size_eq : PAGE_SIZE = 4096 := by decide

theorem n_pages_eq : N_PAGES = 256 := by decide

theorem addr_to_page_to_addr (i : Nat) : ADDR_TO_PAGE (PAGE_TO_ADDR i) = i := by
  simp [ADDR_TO_PAGE, PAGE_TO_ADDR, page_size_eq]

/-! ## `find_order` -/

/-- More rounds than `MAX_ORDER + 1 - order` never change the result of the loop of
`find_order`: the loop has stopped by then. -/
theorem find_order_loop_fuel (fuel order : Nat) (size : Int)
    (h : MAX_ORDER + 1 - order ≤ fuel) :
    find_order_loop fuel order size =
      find_order_loop (MAX_ORDER + 1 - order) order size := by
  induction fuel generalizing order with
  | zero =>
    have h0 : MAX_ORDER + 1 - order = 0 := by omega
    rw [h0]
  | succ n ih =>
    by_cases hc : ((ORDER_SIZE order : Nat) : Int) < size ∧ order ≤ MAX_ORDER
    · have h1 : MAX_ORDER + 1 - order = (MAX_ORDER + 1 - (order + 1)) + 1 := by omega
      rw [h1]
      simp only [find_order_loop, if_pos hc]
      exact ih (order + 1) (by omega)
    · cases hm : MAX_ORDER + 1 - order with
      | zero => simp [find_order_loop, hc]
      | succ m => simp [find_order_loop, hc]

/-- The value of `find_order` on every size, as a table. -/
theorem find_order_table (size : Int) :
    (size ≤ 4096 ∧ find_order size = 12) ∨
    (4096 < size ∧ size ≤ 8192 ∧ find_order size = 13) ∨
    (8192 < size ∧ size ≤ 16384 ∧ find_order size = 14) ∨
    (16384 < size ∧ size ≤ 32768 ∧ find_order size = 15) ∨
    (32768 < size ∧ size ≤ 65536 ∧ find_order size = 16) ∨
    (65536 < size ∧ size ≤ 131072 ∧ find_order size = 17) ∨
    (131072 < size ∧ size ≤ 262144 ∧ find_order size = 18) ∨
    (262144 < size ∧ size ≤ 524288 ∧ find_order size = 19) ∨
    (524288 < size ∧ size ≤ 1048576 ∧ find_order size = 20) ∨
    (1048576 < size ∧ find_order size = 21) := by
  simp only [find_order, find_order_loop, ORDER_SIZE, MAX_ORDER, MIN_ORDER, Nat.one_shiftLeft]
  norm_num
  split_ifs <;> omega

theorem find_order_ge (size : Int) : MIN_ORDER ≤ find_order size := by
  have h := find_order_table size
  simp only [MIN_ORDER]
  omega

theorem find_order_le (size : Int) : find_order size ≤ MAX_ORDER + 1 := by
  have h := find_order_table size
  simp only [MAX_ORDER]
  omega

theorem find_order_le_max (size : Int) (h : size ≤ 2 ^ 20) : find_order size ≤ MAX_ORDER := by
  have ht := find_order_table size
  norm_num at h
  simp only [MAX_ORDER]
  omega

theorem find_order_big (size : Int) (h : 2 ^ 20 < size) : find_order size = MAX_ORDER + 1 := by
  have ht := find_order_table size
  norm_num at h
  simp only [MAX_ORDER]
  omega

/-- The nested call of `buddy_alloc` asks for the next order. -/
theorem find_order_order_size (o : Nat) (h1 : MIN_ORDER ≤ o) (h2 : o < MAX_ORDER) :
    find_order ((ORDER_SIZE (1 + o) : Nat) : Int) = 1 + o := by
  simp only [MIN_ORDER, MAX_ORDER] at h1 h2
  interval_cases o <;> decide

/-! ## The scan of `buddy_alloc` -/

theorem scan_eq_none (s : State) (n i : Nat) :
    scan s n i = none ↔ ∀ j, i ≤ j → j < i + n → s.free_area j = [] := by
  induction n generalizing i with
  | zero => simp [scan]; intro j h1 h2; omega
  | succ n ih =>
    simp only [scan, list_empty]
    by_cases h : s.free_area i = []
    · simp only [h, List.isEmpty_nil, Bool.not_true, Bool.false_eq_true, if_false, ih]
      constructor
      · intro hh j h1 h2
        by_cases hj : j = i
        · rw [hj]; exact h
        · exact hh j (by omega) (by omega)
      · intro hh j h1 h2
        exact hh j (by omega) (by omega)
    · have : (s.free_area i).isEmpty = false := by
        cases hl : s.free_area i with
        | nil => exact absurd hl h
        | cons a l => rfl
      simp only [this, Bool.not_false, if_true]
      constructor
      · intro hh; cases hh
      · intro hh; exact absurd (hh i (le_refl i) (by omega)) h

theorem scan_eq_some (s : State) (n i k : Nat) :
    scan s n i = some k ↔
      i ≤ k ∧ k < i + n ∧ s.free_area k ≠ [] ∧ ∀ j, i ≤ j → j < k → s.free_area j = [] := by
  induction n generalizing i with
  | zero => simp [scan]; intro h1 h2; omega
  | succ n ih =>
    simp only [scan, list_empty]
    by_cases h : s.free_area i = []
    · simp only [h, List.isEmpty_nil, Bool.not_true, Bool.false_eq_true, if_false, ih]
      constructor
      · rintro ⟨h1, h2, h3, h4⟩
        refine ⟨by omega, by omega, h3, ?_⟩
        intro j hj1 hj2
        by_cases hj : j = i
        · rw [hj]; exact h
        · exact h4 j (by omega) hj2
      · rintro ⟨h1, h2, h3, h4⟩
        have hne : k ≠ i := by
          intro hk; rw [hk] at h3; exact h3 h
        refine ⟨by omega, by omega, h3, ?_⟩
        intro j hj1 hj2
        exact h4 j (by omega) hj2
    · have : (s.free_area i).isEmpty = false := by
        cases hl : s.free_area i with
        | nil => exact absurd hl h
        | cons a l => rfl
      simp only [this, Bool.not_false, if_true, Option.some.injEq]
      constructor
      · intro hh; subst hh
        exact ⟨le_refl _, by omega, h, fun j h1 h2 => by omega⟩
      · rintro ⟨h1, h2, h3, h4⟩
        by_contra hne
        exact h (h4 i (le_refl i) (by omega))

/-- A call of `buddy_alloc` that returns `NULL` found every list empty (or an invalid
size) and changed nothing. -/
theorem buddy_alloc_fuel_null (fuel : Nat) (s s' : State) (size : Int)
    (h : buddy_alloc_fuel fuel s size = Res.ok (none, s')) :
    s' = s ∧ (size < 1 ∨
      scan s (MAX_ORDER + 1 - find_order size) (find_order size) = none) := by
  cases fuel with
  | zero => simp [buddy_alloc_fuel] at h
  | succ n =>
    simp only [buddy_alloc_fuel] at h
    by_cases hs : size < 1
    · simp only [hs, if_true, Res.ok.injEq, Prod.mk.injEq, true_and] at h
      exact ⟨h.symm, Or.inl hs⟩
    · simp only [hs, if_false] at h
      cases hsc : scan s (MAX_ORDER + 1 - find_order size) (find_order size) with
      | none =>
        simp only [hsc, Res.ok.injEq, Prod.mk.injEq, true_and] at h
        exact ⟨h.symm, Or.inr rfl⟩
      | some i =>
        exfalso
        simp only [hsc] at h
        by_cases hi : i = find_order size
        · simp only [hi, if_true] at h
          cases hl : s.free_area (find_order size) with
          | nil => simp [hl] at h
          | cons a l => simp [hl] at h
        · simp only [hi, if_false] at h
          cases hr : buddy_alloc_fuel n s ((ORDER_SIZE (1 + find_order size) : Nat) : Int) with
          | ok p =>
            obtain ⟨r, s1⟩ := p
            cases r with
            | none => simp [hr] at h
            | some a =>
              simp only [hr] at h
              split_ifs at h
              simp at h
          | undef => simp [hr] at h
          | nofuel => simp [hr] at h

theorem buddy_alloc_fuel_of_scan_none (fuel : Nat) (s : State) (size : Int)
    (h : scan s (MAX_ORDER + 1 - find_order size) (find_order size) = none) :
    buddy_alloc_fuel (fuel + 1) s size = Res.ok (none, s) := by
  simp only [buddy_alloc_fuel, h]
  split_ifs <;> rfl


/-! ## Free bytes -/

theorem free_bytes_eq (s : State) :
    free_bytes s =
      (s.free_area 12).length * 2 ^ 12 + ((s.free_area 13).length * 2 ^ 13 +
      ((s.free_area 14).length * 2 ^ 14 + ((s.free_area 15).length * 2 ^ 15 +
      ((s.free_area 16).length * 2 ^ 16 + ((s.free_area 17).length * 2 ^ 17 +
      ((s.free_area 18).length * 2 ^ 18 + ((s.free_area 19).length * 2 ^ 19 +
      ((s.free_area 20).length * 2 ^ 20 + 0)))))))) := rfl

/-- Changing one free list changes the free bytes by the change of its length. -/
theorem free_bytes_update (s t : State) (o : Nat) (h1 : MIN_ORDER ≤ o) (h2 : o ≤ MAX_ORDER)
    (h : ∀ j, j ≠ o → t.free_area j = s.free_area j) :
    free_bytes t + (s.free_area o).length * 2 ^ o =
      free_bytes s + (t.free_area o).length * 2 ^ o := by
  have key : ∀ j, (t.free_area j).length * 2 ^ j +
      (if j = o then (s.free_area o).length * 2 ^ o else 0) =
      (s.free_area j).length * 2 ^ j +
      (if j = o then (t.free_area o).length * 2 ^ o else 0) := by
    intro j
    by_cases hj : j = o
    · subst hj; simp only [if_true]; omega
    · simp only [hj, if_false, h j hj]
  have k12 := key 12
  have k13 := key 13
  have k14 := key 14
  have k15 := key 15
  have k16 := key 16
  have k17 := key 17
  have k18 := key 18
  have k19 := key 19
  have k20 := key 20
  simp only [MIN_ORDER, MAX_ORDER] at h1 h2
  rw [free_bytes_eq, free_bytes_eq]
  interval_cases o <;> simp at k12 k13 k14 k15 k16 k17 k18 k19 k20 <;> omega


/-! ## `buddy_alloc` and the free bytes -/

/-- A successful `buddy_alloc` found a free list at or above its order. -/
theorem buddy_alloc_fuel_some_scan (fuel : Nat) (s s' : State) (size : Int) (a : Nat)
    (h : buddy_alloc_fuel fuel s size = Res.ok (some a, s')) :
    ¬ size < 1 ∧ ∃ i, scan s (MAX_ORDER + 1 - find_order size) (find_order size) = some i := by
  cases fuel with
  | zero => simp [buddy_alloc_fuel] at h
  | succ n =>
    simp only [buddy_alloc_fuel] at h
    by_cases hs : size < 1
    · simp [hs] at h
    · refine ⟨hs, ?_⟩
      simp only [hs, if_false] at h
      cases hsc : scan s (MAX_ORDER + 1 - find_order size) (find_order size) with
      | none => simp [hsc] at h
      | some i => exact ⟨i, rfl⟩

theorem buddy_alloc_fuel_free_bytes (fuel : Nat) (s s' : State) (size : Int) (a : Nat)
    (h : buddy_alloc_fuel fuel s size = Res.ok (some a, s')) :
    free_bytes s' + 2 ^ find_order size = free_bytes s := by
  induction fuel generalizing s s' size a with
  | zero => simp [buddy_alloc_fuel] at h
  | succ n ih =>
    obtain ⟨hs, i, hsc⟩ := buddy_alloc_fuel_some_scan _ _ _ _ _ h
    simp only [buddy_alloc_fuel, hs, if_false, hsc] at h
    obtain ⟨hi1, hi2, hi3, -⟩ := (scan_eq_some s _ _ i).1 hsc
    have hge := find_order_ge size
    have hle : i ≤ MAX_ORDER := by
      have := find_order_le size
      omega
    by_cases hi : i = find_order size
    · simp only [hi, if_true] at h
      cases hl : s.free_area (find_order size) with
      | nil => simp [hl] at h
      | cons p l =>
        simp only [hl, Res.ok.injEq, Prod.mk.injEq] at h
        obtain ⟨-, rfl⟩ := h
        have hu := free_bytes_update s
          (set_order p (find_order size) (list_del p (find_order size) s))
          (find_order size) hge (by omega) (by intro j hj; simp [hj])
        simp [hl] at hu
        rw [Nat.succ_mul] at hu
        omega
    · simp only [hi, if_false] at h
      have hlt : find_order size < MAX_ORDER := by omega
      cases hr : buddy_alloc_fuel n s ((ORDER_SIZE (1 + find_order size) : Nat) : Int) with
      | undef => simp [hr] at h
      | nofuel => simp [hr] at h
      | ok p =>
        obtain ⟨r, s1⟩ := p
        cases r with
        | none => simp [hr] at h
        | some a1 =>
          have h1 := ih s s1 _ a1 hr
          rw [find_order_order_size _ hge hlt] at h1
          simp only [hr] at h
          split_ifs at h
          simp only [Res.ok.injEq, Prod.mk.injEq] at h
          obtain ⟨-, rfl⟩ := h
          have hu := free_bytes_update s1
            (set_order (ADDR_TO_PAGE a1) (find_order size)
              (list_add ((s1.g_pages (ADDR_TO_PAGE a1)).index +
                ORDER_SIZE (find_order size) / PAGE_SIZE) (find_order size) s1))
            (find_order size) hge (by omega) (by intro j hj; simp [hj])
          simp at hu
          rw [Nat.succ_mul] at hu
          rw [Nat.add_comm 1, pow_succ] at h1
          omega

/-! ## The buddy search -/

theorem search_no_match (s : State) (target : Nat) (l : List Nat) (init : Option Nat)
    (h : ∀ e ∈ l, (s.g_pages e).address ≠ target) :
    search s target l init = init ∨
      ∃ e ∈ l, search s target l init = some e := by
  induction l generalizing init with
  | nil => exact Or.inl rfl
  | cons e rest ih =>
    have he : (s.g_pages e).address ≠ target := h e (List.mem_cons_self _ _)
    simp only [search, he, if_false]
    rcases ih (some e) (fun x hx => h x (List.mem_cons_of_mem _ hx)) with h1 | ⟨x, hx, h1⟩
    · exact Or.inr ⟨e, List.mem_cons_self _ _, h1⟩
    · exact Or.inr ⟨x, List.mem_cons_of_mem _ hx, h1⟩

theorem search_first_match (s : State) (target : Nat) (l1 l2 : List Nat) (t : Nat)
    (init : Option Nat) (ht : (s.g_pages t).address = target)
    (h : ∀ e ∈ l1, (s.g_pages e).address ≠ target) :
    search s target (l1 ++ t :: l2) init = some t := by
  induction l1 generalizing init with
  | nil => simp [search, ht]
  | cons e rest ih =>
    have he : (s.g_pages e).address ≠ target := h e (List.mem_cons_self _ _)
    simp only [List.cons_append, search, he, if_false]
    exact ih (some e) (fun x hx => h x (List.mem_cons_of_mem _ hx))

theorem first_match_split (s : State) (target : Nat) (l : List Nat)
    (h : ∃ e ∈ l, (s.g_pages e).address = target) :
    ∃ l1 t l2, l = l1 ++ t :: l2 ∧ (s.g_pages t).address = target ∧
      ∀ e ∈ l1, (s.g_pages e).address ≠ target := by
  induction l with
  | nil => simp at h
  | cons x rest ih =>
    by_cases hx : (s.g_pages x).address = target
    · exact ⟨[], x, rest, rfl, hx, by simp⟩
    · obtain ⟨e, he, hea⟩ := h
      have hmem : e ∈ rest := by
        rcases List.mem_cons.1 he with h1 | h1
        · subst h1; exact absurd hea hx
        · exact h1
      obtain ⟨l1, t, l2, h1, h2, h3⟩ := ih ⟨e, hmem, hea⟩
      refine ⟨x :: l1, t, l2, by simp [h1], h2, ?_⟩
      intro y hy
      rcases List.mem_cons.1 hy with h4 | h4
      · subst h4; exact hx
      · exact h3 y h4

/-- The search finds no buddy exactly when no entry of the list has the buddy
address. -/
theorem buddy_found_eq_none (s : State) (target : Nat) (l : List Nat) :
    buddy_found s target l = none ↔ ∀ e ∈ l, (s.g_pages e).address ≠ target := by
  constructor
  · intro h e he hea
    obtain ⟨l1, t, l2, h1, h2, h3⟩ := first_match_split s target l ⟨e, he, hea⟩
    rw [h1] at h
    simp [buddy_found, search_first_match s target l1 l2 t none h2 h3, h2] at h
  · intro h
    rcases search_no_match s target l none h with h1 | ⟨e, he, h1⟩
    · simp [buddy_found, h1]
    · simp [buddy_found, h1, h e he]

/-- The search finds the first entry of the list that has the buddy address. -/
theorem buddy_found_eq_some (s : State) (target : Nat) (l : List Nat) (t : Nat) :
    buddy_found s target l = some t ↔
      ∃ l1 l2, l = l1 ++ t :: l2 ∧ (s.g_pages t).address = target ∧
        ∀ e ∈ l1, (s.g_pages e).address ≠ target := by
  constructor
  · intro h
    by_cases hex : ∃ e ∈ l, (s.g_pages e).address = target
    · obtain ⟨l1, t1, l2, h1, h2, h3⟩ := first_match_split s target l hex
      rw [h1] at h
      simp [buddy_found, search_first_match s target l1 l2 t1 none h2 h3, h2] at h
      subst h
      exact ⟨l1, l2, h1, h2, h3⟩
    · have hn : buddy_found s target l = none := by
        rw [buddy_found_eq_none]
        intro e he hea
        exact hex ⟨e, he, hea⟩
      rw [hn] at h
      cases h
  · rintro ⟨l1, l2, h1, h2, h3⟩
    rw [h1]
    simp [buddy_found, search_first_match s target l1 l2 t none h2 h3, h2]

theorem buddy_found_mem (s : State) (target : Nat) (l : List Nat) (t : Nat)
    (h : buddy_found s target l = some t) :
    t ∈ l ∧ (s.g_pages t).address = target := by
  obtain ⟨l1, l2, h1, h2, -⟩ := (buddy_found_eq_some s target l t).1 h
  exact ⟨by simp [h1], h2⟩

/-! ## `buddy_free` and the free bytes -/

theorem buddy_addr_top (addr : Nat) (h : addr < 2 ^ 20) : 2 ^ 20 ≤ BUDDY_ADDR addr MAX_ORDER := by
  apply Nat.testBit_implies_ge
  simp only [BUDDY_ADDR, MAX_ORDER, Nat.one_shiftLeft, Nat.testBit_xor, Nat.testBit_two_pow_self,
    Nat.testBit_lt_two_pow h]
  rfl

/-- One run of the loop of `buddy_free` started at `order` raises the free bytes by
`2^order`, when no entry of the top list can be mistaken for a buddy. -/
theorem buddy_free_loop_free_bytes (fuel : Nat) (s s' : State) (addr index order : Nat)
    (h1 : MIN_ORDER ≤ order) (h2 : order ≤ MAX_ORDER) (ha : addr < 2 ^ 20)
    (htop : ∀ e ∈ s.free_area MAX_ORDER, (s.g_pages e).address < 2 ^ 20)
    (h : buddy_free_loop fuel s addr index order = Res.ok s') :
    free_bytes s' = free_bytes s + 2 ^ order := by
  induction fuel generalizing s addr index order with
  | zero => simp [buddy_free_loop] at h
  | succ n ih =>
    simp only [buddy_free_loop] at h
    cases hf : buddy_found s (BUDDY_ADDR addr order) (s.free_area order) with
    | none =>
      simp only [hf] at h
      split_ifs at h
      simp only [Res.ok.injEq] at h
      subst h
      have hu := free_bytes_update s (list_add index order (set_order order (-1) s)) order
        h1 h2 (by intro j hj; simp [hj])
      simp at hu
      rw [Nat.succ_mul] at hu
      omega
    | some t =>
      simp only [hf] at h
      obtain ⟨hm, hta⟩ := buddy_found_mem _ _ _ _ hf
      have hlt : order < MAX_ORDER := by
        by_contra hc
        have heq : order = MAX_ORDER := by omega
        subst heq
        have := htop t hm
        have := buddy_addr_top addr ha
        omega
      simp only [show order + 1 ≤ MAX_ORDER from hlt, if_true] at h
      have hu := free_bytes_update s (list_del t order s) order h1 h2
        (by intro j hj; simp [hj])
      simp [List.length_erase_of_mem hm] at hu
      have hpos : 0 < (s.free_area order).length := List.length_pos_of_mem hm
      have hn : (s.free_area order).length = ((s.free_area order).length - 1) + 1 := by omega
      rw [hn, Nat.succ_mul] at hu
      simp at hu
      have h3 := ih (list_del t order s) _ _ (order + 1) (by omega) hlt
        (by split_ifs <;> omega)
        (by
          intro e he
          have hne : MAX_ORDER ≠ order := by omega
          simp [hne] at he
          simpa using htop e he)
        h
      rw [h3, pow_succ]
      omega

/-! ## Bit arithmetic of buddies -/

theorem xor_two_pow_ne (x o : Nat) : x ≠ x ^^^ 2 ^ o := by
  intro h
  have h1 : x ^^^ x = x ^^^ (x ^^^ 2 ^ o) := congrArg (fun y => x ^^^ y) h
  rw [Nat.xor_cancel_left, Nat.xor_self] at h1
  have : 0 < 2 ^ o := Nat.two_pow_pos o
  omega

theorem page_xor (i k : Nat) : (i * 2 ^ 12) ^^^ 2 ^ (k + 12) = (i ^^^ 2 ^ k) * 2 ^ 12 := by
  apply Nat.eq_of_testBit_eq
  intro j
  rw [pow_add, ← Nat.shiftLeft_eq, ← Nat.shiftLeft_eq, ← Nat.shiftLeft_eq]
  simp only [Nat.testBit_xor, Nat.testBit_shiftLeft]
  cases decide (j ≥ 12) <;> simp

theorem small_xor_facts : ∀ k, k < 8 → ∀ i, i < 256 → 2 ^ k ∣ i →
    (2 ^ (k + 1) ∣ i → i ^^^ 2 ^ k = i + 2 ^ k) ∧ 2 ^ (k + 1) ∣ min i (i ^^^ 2 ^ k) ∧
    i ^^^ 2 ^ k < 256 := by
  decide!

/-! ## The closed form of `buddy_alloc` -/

/-- A block of order `o` has `2^(o-12)` pages. -/
theorem order_pages (o : Nat) (h : MIN_ORDER ≤ o) :
    ORDER_SIZE o / PAGE_SIZE = 2 ^ (o - MIN_ORDER) := by
  simp only [ORDER_SIZE, PAGE_SIZE, Nat.one_shiftLeft]
  exact Nat.pow_div h (by decide)

/-- The right half of an aligned block lies inside the arena. -/
theorem right_half_fits (p k o : Nat) (hp : p < N_PAGES) (hal : 2 ^ (k - MIN_ORDER) ∣ p)
    (ho : MIN_ORDER ≤ o) (hok : o < k) (hk : k ≤ MAX_ORDER) :
    p + 2 ^ (o - MIN_ORDER) < N_PAGES := by
  have h1 : 2 ^ (o - MIN_ORDER) < 2 ^ (k - MIN_ORDER) :=
    Nat.pow_lt_pow_right (by decide) (by omega)
  have h2 : 2 ^ (k - MIN_ORDER) ∣ N_PAGES := by
    rw [n_pages_eq, show (256 : Nat) = 2 ^ 8 from rfl]
    exact Nat.pow_dvd_pow 2 (by simp only [MIN_ORDER, MAX_ORDER] at *; omega)
  obtain ⟨m, hm⟩ := hal
  obtain ⟨c, hc⟩ := h2
  rw [hm, hc] at hp
  have h3 : m < c := Nat.lt_of_mul_lt_mul_left hp
  have h4 : 2 ^ (k - MIN_ORDER) * (m + 1) ≤ 2 ^ (k - MIN_ORDER) * c :=
    Nat.mul_le_mul_left _ h3
  rw [hc, hm]
  rw [Nat.mul_succ] at h4
  omega

/-- The result of a successful `buddy_alloc`, in closed form: the first entry `p` of the
first non-empty list `k` at or above the order `o` of the request is returned, it leaves
its list, the right halves `p + 2^(j-12)` are put on the lists `o <= j < k`, and the
record of page `p` gets order `o`. -/
theorem buddy_alloc_fuel_split (fuel : Nat) (s : State) (size : Int) (k p : Nat)
    (l : List Nat) (hsize : ¬ size < 1)
    (hscan : scan s (MAX_ORDER + 1 - find_order size) (find_order size) = some k)
    (hk : s.free_area k = p :: l) (hfuel : k - find_order size < fuel)
    (hpages : pages_ok s) (hp : p < N_PAGES) (hal : 2 ^ (k - MIN_ORDER) ∣ p) :
    ∃ s', buddy_alloc_fuel fuel s size = Res.ok (some (PAGE_TO_ADDR p), s') ∧
      s'.free_area k = l ∧
      (∀ j, find_order size ≤ j → j < k → s'.free_area j = [p + 2 ^ (j - MIN_ORDER)]) ∧
      (∀ j, (j < find_order size ∨ k < j) → s'.free_area j = s.free_area j) ∧
      (∀ i, s'.g_pages i =
        if i = p then { s.g_pages p with order := (find_order size : Nat) }
        else s.g_pages i) := by
  induction fuel generalizing size with
  | zero => omega
  | succ n ih =>
    obtain ⟨hi1, hi2, hi3, hi4⟩ := (scan_eq_some s _ _ k).1 hscan
    have hge := find_order_ge size
    have hle := find_order_le size
    have hkle : k ≤ MAX_ORDER := by omega
    have hidx : (s.g_pages p).index = p := (hpages p hp).2
    by_cases hk0 : k = find_order size
    · refine ⟨set_order p (find_order size) (list_del p k s), ?_, ?_, ?_, ?_, ?_⟩
      · simp only [buddy_alloc_fuel, hsize, if_false, hscan, hk0, if_true]
        rw [← hk0, hk]
        simp [hidx]
      · simp [hk]
      · intro j h1 h2; omega
      · intro j hj
        have : j ≠ k := by omega
        simp [this]
      · intro i
        by_cases hip : i = p <;> simp [hip]
    · have hlt : find_order size < k := by omega
      have hfo := find_order_order_size (find_order size) hge (by omega)
      have hsize' : ¬ ((ORDER_SIZE (1 + find_order size) : Nat) : Int) < 1 := by
        have : 0 < ORDER_SIZE (1 + find_order size) := by
          simp only [ORDER_SIZE, Nat.one_shiftLeft]
          exact Nat.two_pow_pos _
        omega
      have hscan' : scan s (MAX_ORDER + 1 -
          find_order ((ORDER_SIZE (1 + find_order size) : Nat) : Int))
          (find_order ((ORDER_SIZE (1 + find_order size) : Nat) : Int)) = some k := by
        rw [hfo, scan_eq_some]
        exact ⟨by omega, by omega, hi3, fun j h1 h2 => hi4 j (by omega) h2⟩
      obtain ⟨s1, hr, h1k, h1r, h1o, h1p⟩ :=
        ih _ hsize' hscan' (by rw [hfo]; omega)
      rw [hfo] at h1r h1o h1p
      have hright : p + 2 ^ (find_order size - MIN_ORDER) < N_PAGES :=
        right_half_fits p k _ hp hal hge hlt hkle
      have hidx1 : (s1.g_pages p).index = p := by rw [h1p p]; simpa using hidx
      refine ⟨set_order p (find_order size)
        (list_add (p + 2 ^ (find_order size - MIN_ORDER)) (find_order size) s1),
        ?_, ?_, ?_, ?_, ?_⟩
      · simp only [buddy_alloc_fuel, hsize, if_false, hscan, hk0, hr, addr_to_page_to_addr,
          hp, if_true, order_pages _ hge, hidx1, hright]
        simp [hidx1]
      · simp [hk0, h1k]
      · intro j hj1 hj2
        by_cases hj : j = find_order size
        · subst hj
          have h0 : s.free_area (find_order size) = [] := hi4 _ (le_refl _) hlt
          simp [h1o (find_order size) (Or.inl (by omega)), h0]
        · simp [hj, h1r j (by omega) hj2]
      · intro j hj
        have hne : j ≠ find_order size := by omega
        simp [hne, h1o j (by omega)]
      · intro i
        by_cases hip : i = p
        · subst hip; simp [h1p]
        · simp [hip, h1p]

/-! ## The invariant -/

theorem well_formed_init (s0 : State) : well_formed (buddy_init s0) := by
  refine ⟨?_, ?_, ?_, ?_⟩
  · intro i hi
    have hi' : i < ORDER_SIZE MAX_ORDER / PAGE_SIZE := hi
    by_cases h0 : i = 0
    · subst h0; simp [buddy_init, hi']
    · simp [buddy_init, h0, hi']
  · intro o h1 h2 p hp
    by_cases h : o = MAX_ORDER
    · subst h
      simp [buddy_init, MIN_ORDER, MAX_ORDER] at hp
      subst hp
      exact ⟨by decide, by simp⟩
    · simp [buddy_init, h, h1, h2] at hp
  · intro i hi o h1 h2 ho
    have hi' : i < ORDER_SIZE MAX_ORDER / PAGE_SIZE := hi
    by_cases h0 : i = 0
    · subst h0; simp
    · simp [buddy_init, h0, hi'] at ho
  · intro o h1 h2 p hp
    have h : o ≠ MAX_ORDER := by omega
    simp [buddy_init, h, h1, Nat.le_of_lt h2] at hp

theorem well_formed_list_del (s : State) (t o : Nat) (h : well_formed s) :
    well_formed (list_del t o s) := by
  obtain ⟨h1, h2, h3, h4⟩ := h
  refine ⟨h1, ?_, h3, ?_⟩
  · intro j hj1 hj2 p hp
    by_cases hjo : j = o
    · subst hjo
      simp at hp
      exact h2 j hj1 hj2 p (List.mem_of_mem_erase hp)
    · simp [hjo] at hp
      exact h2 j hj1 hj2 p hp
  · intro j hj1 hj2 p hp q hq
    by_cases hjo : j = o
    · subst hjo
      simp at hp hq
      exact h4 j hj1 hj2 p (List.mem_of_mem_erase hp) q (List.mem_of_mem_erase hq)
    · simp [hjo] at hp hq
      exact h4 j hj1 hj2 p hp q hq

theorem pow_sub_dvd (o k : Nat) (p : Nat) (hok : o ≤ k) (h : 2 ^ (k - MIN_ORDER) ∣ p) :
    2 ^ (o - MIN_ORDER) ∣ p :=
  Nat.dvd_trans (Nat.pow_dvd_pow 2 (by omega)) h

/-- A call of `buddy_alloc` keeps the invariant, and the block it returns is a page of
the arena aligned to the order of the request. -/
theorem buddy_alloc_well_formed (s s' : State) (size : Int) (r : Option Nat)
    (hw : well_formed s) (h : buddy_alloc s size = Res.ok (r, s')) :
    well_formed s' ∧ ∀ a, r = some a →
      ∃ p, p < N_PAGES ∧ a = PAGE_TO_ADDR p ∧ 2 ^ (find_order size - MIN_ORDER) ∣ p ∧
        (s'.g_pages p).order = (find_order size : Nat) := by
  cases r with
  | none =>
    have := (buddy_alloc_fuel_null _ s s' size h).1
    subst this
    exact ⟨hw, by intro a ha; cases ha⟩
  | some a =>
    obtain ⟨hsize, k, hscan⟩ := buddy_alloc_fuel_some_scan _ _ _ _ _ h
    obtain ⟨hi1, hi2, hi3, hi4⟩ := (scan_eq_some s _ _ k).1 hscan
    have hge := find_order_ge size
    have hle := find_order_le size
    have hkle : k ≤ MAX_ORDER := by omega
    obtain ⟨hpg, hen, hor, hnb⟩ := hw
    cases hl : s.free_area k with
    | nil => exact absurd hl hi3
    | cons p l =>
      have hpm : p ∈ s.free_area k := by rw [hl]; exact List.mem_cons_self _ _
      obtain ⟨hp, hal⟩ := hen k (by omega) hkle p hpm
      obtain ⟨s2, hr, h2k, h2r, h2o, h2p⟩ :=
        buddy_alloc_fuel_split (MAX_ORDER - MIN_ORDER + 1) s size k p l hsize hscan hl
          (by simp only [MIN_ORDER, MAX_ORDER] at *; omega) hpg hp hal
      have heq : Res.ok (some a, s') = Res.ok (some (PAGE_TO_ADDR p), s2) := by
        rw [← h, ← hr]; rfl
      simp only [Res.ok.injEq, Prod.mk.injEq, Option.some.injEq] at heq
      obtain ⟨rfl, rfl⟩ := heq
      have haddr : ∀ y, (s'.g_pages y).address = (s.g_pages y).address := by
        intro y
        rw [h2p y]
        by_cases hy : y = p
        · subst hy; simp
        · simp [hy]
      have hpg' : pages_ok s' := by
        intro i hi
        rw [h2p i]
        by_cases hip : i = p
        · subst hip; simpa using hpg i hi
        · simpa [hip] using hpg i hi
      refine ⟨⟨hpg', ?_, ?_, ?_⟩, ?_⟩
      · intro j hj1 hj2 x hx
        by_cases hjk : j = k
        · subst hjk
          rw [h2k] at hx
          exact hen j hj1 hj2 x (by rw [hl]; exact List.mem_cons_of_mem _ hx)
        · by_cases hjr : find_order size ≤ j ∧ j < k
          · rw [h2r j hjr.1 hjr.2] at hx
            simp at hx
            subst hx
            exact ⟨right_half_fits p k j hp hal hj1 hjr.2 hkle,
              Nat.dvd_add (pow_sub_dvd j k p (by omega) hal) (Nat.dvd_refl _)⟩
          · rw [h2o j (by omega)] at hx
            exact hen j hj1 hj2 x hx
      · intro i hi o ho1 ho2 hord
        rw [h2p i] at hord
        by_cases hip : i = p
        · subst hip
          simp at hord
          have : o = find_order size := by omega
          subst this
          exact pow_sub_dvd _ k i hi1 hal
        · simp [hip] at hord
          exact hor i hi o ho1 ho2 hord
      · intro j hj1 hj2 x hx y hy
        rw [haddr y]
        by_cases hjk : j = k
        · subst hjk
          rw [h2k] at hx hy
          exact hnb j hj1 hj2 x (by rw [hl]; exact List.mem_cons_of_mem _ hx)
            y (by rw [hl]; exact List.mem_cons_of_mem _ hy)
        · by_cases hjr : find_order size ≤ j ∧ j < k
          · rw [h2r j hjr.1 hjr.2] at hx hy
            simp at hx hy
            subst hx hy
            rw [(hpg _ (right_half_fits p k j hp hal hj1 hjr.2 hkle)).1]
            simp only [BUDDY_ADDR, Nat.one_shiftLeft]
            exact xor_two_pow_ne _ _
          · rw [h2o j (by omega)] at hx hy
            exact hnb j hj1 hj2 x hx y hy
      · intro a' ha'
        simp only [Option.some.injEq] at ha'
        subst ha'
        refine ⟨p, hp, rfl, pow_sub_dvd _ k p hi1 hal, ?_⟩
        rw [h2p p]
        simp

theorem page_to_addr_lt (p : Nat) (h : p < N_PAGES) : PAGE_TO_ADDR p < 2 ^ 20 := by
  simp only [PAGE_TO_ADDR, page_size_eq]
  rw [n_pages_eq] at h
  omega

theorem page_to_addr_inj (p q : Nat) (h : PAGE_TO_ADDR p = PAGE_TO_ADDR q) : p = q := by
  simp only [PAGE_TO_ADDR, page_size_eq] at h
  omega

/-- The buddy of a page address at an order `MIN_ORDER <= o`, as a page number. -/
theorem buddy_addr_page (p o : Nat) (h : MIN_ORDER ≤ o) :
    BUDDY_ADDR (PAGE_TO_ADDR p) o = PAGE_TO_ADDR (p ^^^ 2 ^ (o - MIN_ORDER)) := by
  simp only [BUDDY_ADDR, PAGE_TO_ADDR, PAGE_SIZE, Nat.one_shiftLeft, MIN_ORDER] at *
  have ho : o = (o - 12) + 12 := by omega
  rw [ho, page_xor]
  simp

/-- The last round of the loop of `buddy_free`: inserting the block when its buddy is
not on the list keeps the invariant. -/
theorem well_formed_insert (s : State) (index order : Nat) (hw : well_formed s)
    (hi : index < N_PAGES) (hal : 2 ^ (order - MIN_ORDER) ∣ index)
    (h1 : MIN_ORDER ≤ order)
    (hf : buddy_found s (BUDDY_ADDR (PAGE_TO_ADDR index) order) (s.free_area order) = none) :
    well_formed (list_add index order (set_order order (-1) s)) := by
  obtain ⟨hpg, hen, hor, hnb⟩ := hw
  rw [buddy_found_eq_none] at hf
  have haddr : ∀ y, ((list_add index order (set_order order (-1) s)).g_pages y).address =
      (s.g_pages y).address := by
    intro y
    by_cases hy : y = order
    · subst hy; simp
    · simp [hy]
  refine ⟨?_, ?_, ?_, ?_⟩
  · intro i hi'
    by_cases hy : i = order
    · subst hy; simpa using hpg i hi'
    · simpa [hy] using hpg i hi'
  · intro j hj1 hj2 x hx
    by_cases hjo : j = order
    · subst hjo
      simp at hx
      rcases hx with hx | hx
      · subst hx; exact ⟨hi, hal⟩
      · exact hen j hj1 hj2 x hx
    · simp [hjo] at hx
      exact hen j hj1 hj2 x hx
  · intro i hi' o ho1 ho2 hord
    by_cases hy : i = order
    · subst hy
      simp at hord
    · simp [hy] at hord
      exact hor i hi' o ho1 ho2 hord
  · intro j hj1 hj2 x hx y hy
    rw [haddr y]
    by_cases hjo : j = order
    · subst hjo
      simp at hx hy
      rcases hx with hx | hx <;> rcases hy with hy | hy
      · subst hx hy
        rw [(hpg _ hi).1]
        simp only [BUDDY_ADDR, Nat.one_shiftLeft]
        exact xor_two_pow_ne _ _
      · subst hx
        exact hf y hy
      · subst hy
        rw [(hpg _ hi).1]
        intro hc
        have hxlt := (hen j hj1 (Nat.le_of_lt hj2) x hx).1
        apply hf x hx
        rw [(hpg x hxlt).1]
        simp only [BUDDY_ADDR] at hc ⊢
        rw [hc, Nat.xor_cancel_right]
      · exact hnb j hj1 hj2 x hx y hy
    · simp [hjo] at hx hy
      exact hnb j hj1 hj2 x hx y hy

/-- The loop of `buddy_free`, started on an aligned block of a well-formed state with
enough rounds, returns and keeps the invariant. -/
theorem buddy_free_loop_well_formed (fuel : Nat) (s : State) (index order : Nat)
    (hw : well_formed s) (hi : index < N_PAGES) (hal : 2 ^ (order - MIN_ORDER) ∣ index)
    (h1 : MIN_ORDER ≤ order) (h2 : order ≤ MAX_ORDER) (hfuel : MAX_ORDER + 1 - order ≤ fuel) :
    ∃ s', buddy_free_loop fuel s (PAGE_TO_ADDR index) index order = Res.ok s' ∧
      well_formed s' := by
  induction fuel generalizing s index order with
  | zero => omega
  | succ n ih =>
    simp only [buddy_free_loop]
    cases hf : buddy_found s (BUDDY_ADDR (PAGE_TO_ADDR index) order) (s.free_area order) with
    | none =>
      simp only [hi, if_true]
      exact ⟨_, rfl, well_formed_insert s index order hw hi hal h1 hf⟩
    | some t =>
      obtain ⟨hm, hta⟩ := buddy_found_mem _ _ _ _ hf
      obtain ⟨ht, htal⟩ := hw.2.1 order h1 h2 t hm
      have htaddr := (hw.1 t ht).1
      have hlt : order < MAX_ORDER := by
        by_contra hc
        have heq : order = MAX_ORDER := by omega
        subst heq
        have := buddy_addr_top _ (page_to_addr_lt index hi)
        have := page_to_addr_lt t ht
        omega
      rw [htaddr, buddy_addr_page _ _ h1] at hta
      have htx := page_to_addr_inj _ _ hta
      have hk : order - MIN_ORDER < 8 := by simp only [MIN_ORDER, MAX_ORDER] at *; omega
      have hfacts := small_xor_facts (order - MIN_ORDER) hk index (by rwa [n_pages_eq] at hi) hal
      have hsucc : order + 1 - MIN_ORDER = order - MIN_ORDER + 1 := by omega
      have hw1 := well_formed_list_del s t order hw
      simp only [show order + 1 ≤ MAX_ORDER from hlt, if_true, htaddr]
      by_cases hgt : PAGE_TO_ADDR index > PAGE_TO_ADDR t
      · simp only [hgt, if_true, addr_to_page_to_addr]
        have hmin : min index (index ^^^ 2 ^ (order - MIN_ORDER)) = t := by
          rw [← htx]
          simp only [PAGE_TO_ADDR, page_size_eq] at hgt
          omega
        exact ih (list_del t order s) t (order + 1) hw1 ht
          (by rw [hsucc, ← hmin]; exact hfacts.2.1) (by omega) hlt (by omega)
      · simp only [hgt, if_false]
        have hmin : min index (index ^^^ 2 ^ (order - MIN_ORDER)) = index := by
          rw [← htx]
          simp only [PAGE_TO_ADDR, page_size_eq] at hgt
          omega
        exact ih (list_del t order s) index (order + 1) hw1 hi
          (by rw [hsucc]; rw [hmin] at hfacts; exact hfacts.2.1) (by omega) hlt (by omega)

/-! ## `buddy_free` on well-formed states -/

/-- A call of `buddy_free` that returns read a valid order from the record of a page
of the arena and ran the loop from there. -/
theorem buddy_free_ok_inv (s s' : State) (a : Nat) (h : buddy_free s a = Res.ok s') :
    ADDR_TO_PAGE a < N_PAGES ∧ ∃ o : Nat, MIN_ORDER ≤ o ∧ o ≤ MAX_ORDER ∧
      (s.g_pages (ADDR_TO_PAGE a)).order = (o : Int) ∧
      buddy_free_loop (MAX_ORDER + 1 - o) s a (ADDR_TO_PAGE a) o = Res.ok s' := by
  simp only [buddy_free] at h
  split_ifs at h with h1 h2
  refine ⟨h1, ((s.g_pages (ADDR_TO_PAGE a)).order).toNat, ?_, ?_, ?_, h⟩
  · omega
  · omega
  · omega

theorem buddy_free_of_order (s : State) (a o : Nat) (h1 : ADDR_TO_PAGE a < N_PAGES)
    (h2 : MIN_ORDER ≤ o) (h3 : o ≤ MAX_ORDER)
    (h4 : (s.g_pages (ADDR_TO_PAGE a)).order = (o : Int)) :
    buddy_free s a = buddy_free_loop (MAX_ORDER + 1 - o) s a (ADDR_TO_PAGE a) o := by
  simp only [buddy_free, h1, if_true, h4]
  have : (MIN_ORDER : Int) ≤ (o : Int) ∧ (o : Int) ≤ (MAX_ORDER : Int) := by omega
  simp [this]

/-- On a well-formed state, `buddy_free` of the address of a page whose record holds the
order `o` returns, keeps the invariant and raises the free bytes by `2^o`. -/
theorem buddy_free_well_formed (s : State) (p o : Nat) (hw : well_formed s)
    (hp : p < N_PAGES) (h2 : MIN_ORDER ≤ o) (h3 : o ≤ MAX_ORDER)
    (h4 : (s.g_pages p).order = (o : Int)) :
    ∃ s', buddy_free s (PAGE_TO_ADDR p) = Res.ok s' ∧ well_formed s' ∧
      free_bytes s' = free_bytes s + 2 ^ o := by
  have hal := hw.2.2.1 p hp o h2 h3 h4
  obtain ⟨s', hr, hw'⟩ := buddy_free_loop_well_formed (MAX_ORDER + 1 - o) s p o hw hp hal
    h2 h3 (le_refl _)
  refine ⟨s', ?_, hw', ?_⟩
  · rw [buddy_free_of_order s _ o (by rwa [addr_to_page_to_addr]) h2 h3
      (by rwa [addr_to_page_to_addr]), addr_to_page_to_addr]
    exact hr
  · apply buddy_free_loop_free_bytes _ s s' _ _ o h2 h3 (page_to_addr_lt p hp) _ hr
    intro e he
    have hlt := (hw.2.1 MAX_ORDER (by decide) (le_refl _) e he).1
    rw [(hw.1 e hlt).1]
    exact page_to_addr_lt e hlt

/-! ## Reachable states -/

theorem reachable_well_formed (s : State) (live : List (Nat × Nat)) (h : Reachable s live) :
    well_formed s ∧ live_ok live := by
  induction h with
  | init s0 => exact ⟨well_formed_init s0, by intro b hb; cases hb⟩
  | alloc size a s' _ hr ih =>
    obtain ⟨hw, hl⟩ := ih
    obtain ⟨hw', hret⟩ := buddy_alloc_well_formed _ s' size (some a) hw hr
    obtain ⟨p, hp, hap, -, -⟩ := hret a rfl
    refine ⟨hw', ?_⟩
    intro b hb
    rcases List.mem_cons.1 hb with hb | hb
    · subst hb
      obtain ⟨hs, k, hscan⟩ := buddy_alloc_fuel_some_scan _ _ _ _ _ hr
      obtain ⟨hi1, hi2, -, -⟩ := (scan_eq_some _ _ _ k).1 hscan
      have := find_order_le size
      exact ⟨⟨p, hp, hap⟩, find_order_ge size, by simp only [] ; omega⟩
    · exact hl b hb
  | alloc_null size s' _ hr ih =>
    obtain ⟨hw, hl⟩ := ih
    exact ⟨(buddy_alloc_well_formed _ s' size none hw hr).1, hl⟩
  | free a o s' _ hm hr ih =>
    obtain ⟨hw, hl⟩ := ih
    obtain ⟨⟨p, hp, hap⟩, -, -⟩ := hl (a, o) hm
    simp only at hap
    subst hap
    obtain ⟨-, o', ho1, ho2, ho3, -⟩ := buddy_free_ok_inv _ _ _ hr
    rw [addr_to_page_to_addr] at ho3
    obtain ⟨s2, hr2, hw2, -⟩ := buddy_free_well_formed _ p o' hw hp ho1 ho2 ho3
    rw [hr] at hr2
    simp only [Res.ok.injEq] at hr2
    subst hr2
    exact ⟨hw2, fun b hb => hl b (List.mem_of_mem_erase hb)⟩

theorem reachable_of_held (s : State) (live : List (Nat × Nat)) (h : Reachable_held s live) :
    Reachable s live := by
  induction h with
  | init s0 => exact Reachable.init s0
  | alloc size a s' _ hr ih => exact Reachable.alloc size a s' ih hr
  | free a o s' _ hm _ hr ih => exact Reachable.free a o s' ih hm hr

theorem live_bytes_erase (live : List (Nat × Nat)) (b : Nat × Nat) (h : b ∈ live) :
    live_bytes (live.erase b) + 2 ^ b.2 = live_bytes live := by
  induction live with
  | nil => cases h
  | cons x rest ih =>
    by_cases hx : x = b
    · subst hx
      simp [live_bytes]
      omega
    · have hmem : b ∈ rest := by
        rcases List.mem_cons.1 h with h1 | h1
        · exact absurd h1.symm hx
        · exact h1
      have := ih hmem
      rw [List.erase_cons_tail (by simpa using hx)]
      simp only [live_bytes, List.map_cons, List.sum_cons] at this ⊢
      omega

theorem free_bytes_init (s0 : State) : free_bytes (buddy_init s0) = 2 ^ 20 := by
  rw [free_bytes_eq]
  simp [buddy_init, MIN_ORDER, MAX_ORDER]

/-! ## The round counters never run out -/

theorem buddy_alloc_fuel_ne_nofuel (fuel : Nat) (s : State) (size : Int) (h1 : 0 < fuel)
    (h2 : MAX_ORDER + 1 ≤ fuel + find_order size) :
    buddy_alloc_fuel fuel s size ≠ Res.nofuel := by
  induction fuel generalizing size with
  | zero => omega
  | succ n ih =>
    simp only [buddy_alloc_fuel]
    split_ifs with hs
    · simp
    · cases hsc : scan s (MAX_ORDER + 1 - find_order size) (find_order size) with
      | none => simp
      | some i =>
        obtain ⟨hi1, hi2, -, -⟩ := (scan_eq_some _ _ _ i).1 hsc
        have hge := find_order_ge size
        have hle := find_order_le size
        simp only
        split_ifs with hi
        · cases s.free_area i <;> simp
        · have hfo := find_order_order_size (find_order size) hge (by omega)
          have hn := ih ((ORDER_SIZE (1 + find_order size) : Nat) : Int) (by omega)
            (by rw [hfo]; omega)
          cases hr : buddy_alloc_fuel n s ((ORDER_SIZE (1 + find_order size) : Nat) : Int) with
          | nofuel => exact absurd hr hn
          | undef => simp
          | ok v =>
            obtain ⟨r, s1⟩ := v
            cases r with
            | none => simp
            | some a =>
              simp only
              split_ifs <;> simp

/-- The rounds given to `buddy_alloc` always suffice. -/
theorem buddy_alloc_ne_nofuel (s : State) (size : Int) : buddy_alloc s size ≠ Res.nofuel := by
  apply buddy_alloc_fuel_ne_nofuel
  · decide
  · have := find_order_ge size
    simp only [MIN_ORDER, MAX_ORDER] at *
    omega

theorem buddy_free_loop_ne_nofuel (fuel : Nat) (s : State) (addr index order : Nat)
    (h1 : 0 < fuel) (h2 : MAX_ORDER + 1 ≤ fuel + order) :
    buddy_free_loop fuel s addr index order ≠ Res.nofuel := by
  induction fuel generalizing s addr index order with
  | zero => omega
  | succ n ih =>
    simp only [buddy_free_loop]
    cases buddy_found s (BUDDY_ADDR addr order) (s.free_area order) with
    | none => simp only; split_ifs <;> simp
    | some t =>
      simp only
      by_cases h3 : order + 1 ≤ MAX_ORDER
      · simp only [h3, if_true]
        exact ih _ _ _ _ (by omega) (by omega)
      · simp [h3]

/-- The rounds given to the loop of `buddy_free` always suffice. -/
theorem buddy_free_ne_nofuel (s : State) (addr : Nat) : buddy_free s addr ≠ Res.nofuel := by
  simp only [buddy_free]
  split_ifs with h1 h2
  · apply buddy_free_loop_ne_nofuel <;> omega
  · simp
  · simp

/-! ## Allocation followed by release -/

/-- What a successful `buddy_alloc` did to a well-formed state. -/
theorem buddy_alloc_some_split (s s' : State) (size : Int) (a : Nat)
    (hw : well_formed s) (h : buddy_alloc s size = Res.ok (some a, s')) :
    ∃ k p l, find_order size ≤ k ∧ k ≤ MAX_ORDER ∧
      (∀ j, find_order size ≤ j → j < k → s.free_area j = []) ∧
      s.free_area k = p :: l ∧ p < N_PAGES ∧ 2 ^ (k - MIN_ORDER) ∣ p ∧
      a = PAGE_TO_ADDR p ∧ s'.free_area k = l ∧
      (∀ j, find_order size ≤ j → j < k → s'.free_area j = [p + 2 ^ (j - MIN_ORDER)]) ∧
      (∀ j, (j < find_order size ∨ k < j) → s'.free_area j = s.free_area j) ∧
      (∀ i, s'.g_pages i =
        if i = p then { s.g_pages p with order := (find_order size : Nat) }
        else s.g_pages i) := by
  obtain ⟨hsize, k, hscan⟩ := buddy_alloc_fuel_some_scan _ _ _ _ _ h
  obtain ⟨hi1, hi2, hi3, hi4⟩ := (scan_eq_some s _ _ k).1 hscan
  have hge := find_order_ge size
  have hle := find_order_le size
  have hkle : k ≤ MAX_ORDER := by omega
  cases hl : s.free_area k with
  | nil => exact absurd hl hi3
  | cons p l =>
    have hpm : p ∈ s.free_area k := by rw [hl]; exact List.mem_cons_self _ _
    obtain ⟨hp, hal⟩ := hw.2.1 k (by omega) hkle p hpm
    obtain ⟨s2, hr, h2k, h2r, h2o, h2p⟩ :=
      buddy_alloc_fuel_split (MAX_ORDER - MIN_ORDER + 1) s size k p l hsize hscan hl
        (by simp only [MIN_ORDER, MAX_ORDER] at *; omega) hw.1 hp hal
    have heq : Res.ok (some a, s') = Res.ok (some (PAGE_TO_ADDR p), s2) := by
      rw [← h, ← hr]; rfl
    simp only [Res.ok.injEq, Prod.mk.injEq, Option.some.injEq] at heq
    obtain ⟨rfl, rfl⟩ := heq
    exact ⟨k, p, l, hi1, hkle, hi4, hl, hp, hal, rfl, h2k, h2r, h2o, h2p⟩

/-- Releasing the left-most piece of a block that was just split merges the pieces
back: the right halves leave their lists and the block returns to its list. -/
theorem buddy_free_loop_merge_back (fuel : Nat) (u : State) (p o k : Nat)
    (hpg : pages_ok u) (hp : p < N_PAGES) (hal : 2 ^ (k - MIN_ORDER) ∣ p)
    (ho : MIN_ORDER ≤ o) (hok : o ≤ k) (hk : k ≤ MAX_ORDER)
    (hr : ∀ j, o ≤ j → j < k → u.free_area j = [p + 2 ^ (j - MIN_ORDER)])
    (hnb : ∀ e ∈ u.free_area k, (u.g_pages e).address ≠ BUDDY_ADDR (PAGE_TO_ADDR p) k)
    (hfuel : k - o < fuel) :
    ∃ u', buddy_free_loop fuel u (PAGE_TO_ADDR p) p o = Res.ok u' ∧
      (∀ j, o ≤ j → j < k → u'.free_area j = []) ∧
      u'.free_area k = p :: u.free_area k ∧
      ∀ j, (j < o ∨ k < j) → u'.free_area j = u.free_area j := by
  induction fuel generalizing u o with
  | zero => omega
  | succ n ih =>
    simp only [buddy_free_loop]
    by_cases hek : o = k
    · subst hek
      rw [(buddy_found_eq_none u _ _).2 hnb]
      simp only [hp, if_true]
      refine ⟨_, rfl, ?_, ?_, ?_⟩
      · intro j h1 h2; omega
      · simp
      · intro j hj
        have : j ≠ o := by omega
        simp [this]
    · have hlt : o < k := by omega
      have hq := right_half_fits p k o hp hal ho hlt hk
      have hko : o - MIN_ORDER < 8 := by simp only [MIN_ORDER, MAX_ORDER] at *; omega
      have hfacts := small_xor_facts (o - MIN_ORDER) hko p (by rwa [n_pages_eq] at hp)
        (pow_sub_dvd o k p hok hal)
      have hsucc : o + 1 - MIN_ORDER = o - MIN_ORDER + 1 := by omega
      have hx : p ^^^ 2 ^ (o - MIN_ORDER) = p + 2 ^ (o - MIN_ORDER) :=
        hfacts.1 (by rw [← hsucc]; exact pow_sub_dvd (o + 1) k p hlt hal)
      have htarget : BUDDY_ADDR (PAGE_TO_ADDR p) o =
          PAGE_TO_ADDR (p + 2 ^ (o - MIN_ORDER)) := by
        rw [buddy_addr_page _ _ ho, hx]
      have hqa := (hpg _ hq).1
      have hfound : buddy_found u (BUDDY_ADDR (PAGE_TO_ADDR p) o) (u.free_area o) =
          some (p + 2 ^ (o - MIN_ORDER)) := by
        rw [buddy_found_eq_some]
        exact ⟨[], [], by simp [hr o (le_refl _) hlt], by rw [hqa, htarget], by simp⟩
      have hngt : ¬ PAGE_TO_ADDR p > PAGE_TO_ADDR (p + 2 ^ (o - MIN_ORDER)) := by
        simp only [PAGE_TO_ADDR, page_size_eq]
        omega
      simp only [hfound, hqa, hngt, if_false, show o + 1 ≤ MAX_ORDER by omega, if_true]
      obtain ⟨u', h1, h2, h3, h4⟩ := ih (list_del (p + 2 ^ (o - MIN_ORDER)) o u) (o + 1)
        hpg (by omega) hlt
        (by
          intro j hj1 hj2
          have : j ≠ o := by omega
          simp [this, hr j (by omega) hj2])
        (by
          intro e he
          have : k ≠ o := by omega
          simp [this] at he
          simpa using hnb e he)
        (by omega)
      refine ⟨u', h1, ?_, ?_, ?_⟩
      · intro j hj1 hj2
        by_cases hjo : j = o
        · subst hjo
          rw [h4 j (Or.inl (by omega))]
          simp [hr j (le_refl _) hlt]
        · exact h2 j (by omega) hj2
      · rw [h3]
        have : k ≠ o := by omega
        simp [this]
      · intro j hj
        rw [h4 j (by omega)]
        have : j ≠ o := by omega
        simp [this]

/-- On a well-formed state, `buddy_free` of the address a successful `buddy_alloc` just
returned gives every free list the length it had before the two calls. -/
theorem round_trip_well_formed (s s1 : State) (size : Int) (a : Nat)
    (hw : well_formed s) (h : buddy_alloc s size = Res.ok (some a, s1)) :
    ∃ s2, buddy_free s1 a = Res.ok s2 ∧
      ∀ o, (s2.free_area o).length = (s.free_area o).length := by
  obtain ⟨k, p, l, hk1, hk2, hemp, hl, hp, hal, ha, h1k, h1r, h1o, h1p⟩ :=
    buddy_alloc_some_split s s1 size a hw h
  have hw1 := (buddy_alloc_well_formed s s1 size (some a) hw h).1
  have hge := find_order_ge size
  subst ha
  have hord : (s1.g_pages p).order = (find_order size : Nat) := by rw [h1p p]; simp
  have haddr : ∀ y, (s1.g_pages y).address = (s.g_pages y).address := by
    intro y
    rw [h1p y]
    by_cases hy : y = p
    · subst hy; simp
    · simp [hy]
  obtain ⟨s2, hr, h2r, h2k, h2o⟩ := buddy_free_loop_merge_back
    (MAX_ORDER + 1 - find_order size) s1 p (find_order size) k hw1.1 hp hal hge hk1 hk2 h1r
    (by
      intro e he
      rw [h1k] at he
      have hem : e ∈ s.free_area k := by rw [hl]; exact List.mem_cons_of_mem _ he
      rw [haddr e]
      by_cases hk20 : k = MAX_ORDER
      · subst hk20
        have helt := (hw.2.1 MAX_ORDER (by decide) (le_refl _) e hem).1
        rw [(hw.1 e helt).1]
        have := buddy_addr_top _ (page_to_addr_lt p hp)
        have := page_to_addr_lt e helt
        omega
      · exact hw.2.2.2 k (by omega) (by omega) p (by rw [hl]; exact List.mem_cons_self _ _)
          e hem)
    (by omega)
  refine ⟨s2, ?_, ?_⟩
  · rw [buddy_free_of_order s1 _ (find_order size) (by rwa [addr_to_page_to_addr]) hge
      (by omega) (by rwa [addr_to_page_to_addr]), addr_to_page_to_addr]
    exact hr
  · intro o
    by_cases hok : o = k
    · subst hok
      rw [h2k, h1k, hl]
    · by_cases hor : find_order size ≤ o ∧ o < k
      · rw [h2r o hor.1 hor.2, hemp o hor.1 hor.2]
      · rw [h2o o (by omega), h1o o (by omega)]

/-! ## Exhausting the arena page by page -/

theorem free_bytes_pos (s : State) (h : 0 < free_bytes s) :
    ∃ j, MIN_ORDER ≤ j ∧ j ≤ MAX_ORDER ∧ s.free_area j ≠ [] := by
  by_contra hc
  push_neg at hc
  rw [free_bytes_eq] at h
  simp [hc 12 (by decide) (by decide), hc 13 (by decide) (by decide),
    hc 14 (by decide) (by decide), hc 15 (by decide) (by decide),
    hc 16 (by decide) (by decide), hc 17 (by decide) (by decide),
    hc 18 (by decide) (by decide), hc 19 (by decide) (by decide),
    hc 20 (by decide) (by decide)] at h

theorem free_bytes_zero (s : State) (h : free_bytes s = 0) :
    ∀ j, MIN_ORDER ≤ j → j ≤ MAX_ORDER → s.free_area j = [] := by
  intro j h1 h2
  rw [free_bytes_eq] at h
  simp only [MIN_ORDER, MAX_ORDER] at h1 h2
  simp at h
  interval_cases j <;> simp [h]

theorem find_order_one : find_order 1 = 12 := by decide

/-- While bytes are free, `buddy_alloc(1)` succeeds and takes exactly one page. -/
theorem alloc_one_step (s : State) (hw : well_formed s) (h : 0 < free_bytes s) :
    ∃ a s', buddy_alloc s 1 = Res.ok (some a, s') ∧ well_formed s' ∧
      free_bytes s' + 4096 = free_bytes s := by
  obtain ⟨j, hj1, hj2, hj3⟩ := free_bytes_pos s h
  cases hsc : scan s (MAX_ORDER + 1 - find_order 1) (find_order 1) with
  | none =>
    rw [scan_eq_none, find_order_one] at hsc
    exact absurd (hsc j hj1 (by simp only [MAX_ORDER] at *; omega)) hj3
  | some k =>
    obtain ⟨hi1, hi2, hi3, hi4⟩ := (scan_eq_some s _ _ k).1 hsc
    rw [find_order_one] at hi1 hi2
    have hkle : k ≤ MAX_ORDER := by simp only [MAX_ORDER] at *; omega
    cases hl : s.free_area k with
    | nil => exact absurd hl hi3
    | cons p l =>
      have hpm : p ∈ s.free_area k := by rw [hl]; exact List.mem_cons_self _ _
      obtain ⟨hp, hal⟩ := hw.2.1 k hi1 hkle p hpm
      obtain ⟨s2, hr, -⟩ :=
        buddy_alloc_fuel_split (MAX_ORDER - MIN_ORDER + 1) s 1 k p l (by decide) hsc hl
          (by rw [find_order_one]; simp only [MIN_ORDER, MAX_ORDER] at *; omega) hw.1 hp hal
      have hr' : buddy_alloc s 1 = Res.ok (some (PAGE_TO_ADDR p), s2) := hr
      refine ⟨PAGE_TO_ADDR p, s2, hr', (buddy_alloc_well_formed s s2 1 _ hw hr').1, ?_⟩
      have := buddy_alloc_fuel_free_bytes _ s s2 1 _ hr
      rw [find_order_one] at this
      omega

theorem after_allocs_succ (n : Nat) (s0 : State) :
    after_allocs (n + 1) s0 = alloc_one (after_allocs n s0) := by
  simp only [after_allocs, Function.iterate_succ_apply']

theorem after_allocs_inv (s0 : State) (n : Nat) (hn : n ≤ 256) :
    well_formed (after_allocs n s0) ∧ free_bytes (after_allocs n s0) + n * 4096 = 2 ^ 20 := by
  induction n with
  | zero => exact ⟨well_formed_init s0, by simp [after_allocs, free_bytes_init]⟩
  | succ n ih =>
    obtain ⟨hw, hb⟩ := ih (by omega)
    obtain ⟨a, s', hr, hw', hb'⟩ := alloc_one_step _ hw (by omega)
    rw [after_allocs_succ]
    simp only [alloc_one, hr, state_of]
    exact ⟨hw', by omega⟩

/-! ## The state before `buddy_init` does not matter -/

theorem scan_same (s t : State) (h : same_arena s t) (n i : Nat) (h1 : MIN_ORDER ≤ i)
    (h2 : i + n ≤ MAX_ORDER + 1) : scan s n i = scan t n i := by
  induction n generalizing i with
  | zero => rfl
  | succ n ih =>
    have e1 := h.1 i h1 (by omega)
    have e2 := ih (i + 1) (by omega) (by omega)
    simp only [scan, list_empty, e1, e2]

theorem search_same (s t : State) (target : Nat) (l : List Nat) (init : Option Nat)
    (h : ∀ e ∈ l, s.g_pages e = t.g_pages e) :
    search s target l init = search t target l init := by
  induction l generalizing init with
  | nil => rfl
  | cons e rest ih =>
    simp only [search]
    rw [h e (List.mem_cons_self _ _), ih _ (fun x hx => h x (List.mem_cons_of_mem _ hx))]

theorem search_mem (s : State) (target : Nat) (l : List Nat) (init : Option Nat) (x : Nat)
    (h : search s target l init = some x) : x ∈ l ∨ init = some x := by
  induction l generalizing init with
  | nil => exact Or.inr h
  | cons e rest ih =>
    simp only [search] at h
    split_ifs at h
    · simp only [Option.some.injEq] at h
      subst h
      exact Or.inl (List.mem_cons_self _ _)
    · rcases ih _ h with h1 | h1
      · exact Or.inl (List.mem_cons_of_mem _ h1)
      · simp only [Option.some.injEq] at h1
        subst h1
        exact Or.inl (List.mem_cons_self _ _)

theorem buddy_found_same (s t : State) (target : Nat) (l : List Nat)
    (h : ∀ e ∈ l, s.g_pages e = t.g_pages e) :
    buddy_found s target l = buddy_found t target l := by
  simp only [buddy_found]
  rw [← search_same s t target l none h]
  cases hs : search s target l none with
  | none => rfl
  | some x =>
    rcases search_mem s target l none x hs with h1 | h1
    · simp only [h x h1]
    · cases h1

theorem entries_in_range_list_del (s : State) (t o : Nat) (h : entries_in_range s) :
    entries_in_range (list_del t o s) := by
  intro j hj1 hj2 p hp
  by_cases hjo : j = o
  · subst hjo
    simp at hp
    exact h j hj1 hj2 p (List.mem_of_mem_erase hp)
  · simp [hjo] at hp
    exact h j hj1 hj2 p hp

theorem entries_in_range_list_add (s : State) (e o : Nat) (h : entries_in_range s)
    (he : e < N_PAGES) : entries_in_range (list_add e o s) := by
  intro j hj1 hj2 p hp
  by_cases hjo : j = o
  · subst hjo
    simp at hp
    rcases hp with hp | hp
    · subst hp; exact he
    · exact h j hj1 hj2 p hp
  · simp [hjo] at hp
    exact h j hj1 hj2 p hp

theorem same_arena_list_del (s t : State) (e o : Nat) (h : same_arena s t)
    (ho1 : MIN_ORDER ≤ o) (ho2 : o ≤ MAX_ORDER) :
    same_arena (list_del e o s) (list_del e o t) := by
  refine ⟨?_, h.2⟩
  intro j hj1 hj2
  by_cases hjo : j = o
  · subst hjo; simp [h.1 j hj1 hj2]
  · simp [hjo, h.1 j hj1 hj2]

theorem same_arena_list_add (s t : State) (e o : Nat) (h : same_arena s t)
    (ho1 : MIN_ORDER ≤ o) (ho2 : o ≤ MAX_ORDER) :
    same_arena (list_add e o s) (list_add e o t) := by
  refine ⟨?_, h.2⟩
  intro j hj1 hj2
  by_cases hjo : j = o
  · subst hjo; simp [h.1 j hj1 hj2]
  · simp [hjo, h.1 j hj1 hj2]

theorem same_arena_set_order (s t : State) (i : Nat) (v : Int) (h : same_arena s t)
    (hi : i < N_PAGES) : same_arena (set_order i v s) (set_order i v t) := by
  refine ⟨h.1, ?_⟩
  intro j hj
  by_cases hji : j = i
  · subst hji; simp [h.2 j hj]
  · simp [hji, h.2 j hj]

/-- Two states that agree on the objects of the program give `buddy_alloc` the same
result. -/
theorem buddy_alloc_fuel_same (fuel : Nat) (s t s' : State) (size : Int) (r : Option Nat)
    (h : same_arena s t) (he : entries_in_range s)
    (hr : buddy_alloc_fuel fuel s size = Res.ok (r, s')) :
    ∃ t', buddy_alloc_fuel fuel t size = Res.ok (r, t') ∧ same_arena s' t' ∧
      entries_in_range s' := by
  induction fuel generalizing size r s' with
  | zero => simp [buddy_alloc_fuel] at hr
  | succ n ih =>
    have hge := find_order_ge size
    have hle := find_order_le size
    simp only [buddy_alloc_fuel] at hr ⊢
    rw [← scan_same s t h _ _ hge (by omega)]
    by_cases hs : size < 1
    · simp only [hs, if_true, Res.ok.injEq, Prod.mk.injEq] at hr ⊢
      obtain ⟨rfl, rfl⟩ := hr
      exact ⟨t, ⟨rfl, rfl⟩, h, he⟩
    · simp only [hs, if_false] at hr ⊢
      cases hsc : scan s (MAX_ORDER + 1 - find_order size) (find_order size) with
      | none =>
        simp only [hsc, Res.ok.injEq, Prod.mk.injEq] at hr ⊢
        obtain ⟨rfl, rfl⟩ := hr
        exact ⟨t, ⟨rfl, rfl⟩, h, he⟩
      | some i =>
        obtain ⟨hi1, hi2, -, -⟩ := (scan_eq_some s _ _ i).1 hsc
        have hile : i ≤ MAX_ORDER := by omega
        simp only [hsc] at hr ⊢
        by_cases hi : i = find_order size
        · simp only [hi, if_true] at hr ⊢
          rw [← h.1 (find_order size) hge (by omega)]
          cases hl : s.free_area (find_order size) with
          | nil => simp [hl] at hr
          | cons p l =>
            have hp : p < N_PAGES := he _ hge (by omega) p (by rw [hl]; exact List.mem_cons_self _ _)
            simp only [hl, Res.ok.injEq, Prod.mk.injEq] at hr ⊢
            obtain ⟨rfl, rfl⟩ := hr
            refine ⟨_, ⟨?_, rfl⟩, ?_, ?_⟩
            · simp [h.2 p hp]
            · exact same_arena_set_order _ _ _ _
                (same_arena_list_del _ _ _ _ h hge (by omega)) hp
            · exact entries_in_range_list_del _ _ _ he
        · simp only [hi, if_false] at hr ⊢
          cases hn : buddy_alloc_fuel n s ((ORDER_SIZE (1 + find_order size) : Nat) : Int) with
          | undef => simp [hn] at hr
          | nofuel => simp [hn] at hr
          | ok v =>
            obtain ⟨r1, s1⟩ := v
            obtain ⟨t1, ht1, hsa, he1⟩ := ih s1 _ r1 hn
            cases r1 with
            | none => simp [hn] at hr
            | some a1 =>
              simp only [hn, ht1] at hr ⊢
              by_cases hl : ADDR_TO_PAGE a1 < N_PAGES
              · simp only [hl, if_true] at hr ⊢
                rw [← hsa.2 _ hl]
                by_cases hx : (s1.g_pages (ADDR_TO_PAGE a1)).index +
                    ORDER_SIZE (find_order size) / PAGE_SIZE < N_PAGES
                · simp only [hx, if_true, Res.ok.injEq, Prod.mk.injEq] at hr ⊢
                  obtain ⟨rfl, rfl⟩ := hr
                  refine ⟨_, ⟨?_, rfl⟩, ?_, ?_⟩
                  · simp [hsa.2 _ hl]
                  · exact same_arena_set_order _ _ _ _
                      (same_arena_list_add _ _ _ _ hsa hge (by omega)) hl
                  · exact entries_in_range_list_add _ _ _ he1 hx
                · simp [hx] at hr
              · simp [hl] at hr

/-- Two states that agree on the objects of the program give the loop of `buddy_free`
the same result. -/
theorem buddy_free_loop_same (fuel : Nat) (s t s' : State) (addr index order : Nat)
    (h : same_arena s t) (he : entries_in_range s) (h1 : MIN_ORDER ≤ order)
    (h2 : order ≤ MAX_ORDER) (hr : buddy_free_loop fuel s addr index order = Res.ok s') :
    ∃ t', buddy_free_loop fuel t addr index order = Res.ok t' ∧ same_arena s' t' ∧
      entries_in_range s' := by
  induction fuel generalizing s t addr index order with
  | zero => simp [buddy_free_loop] at hr
  | succ n ih =>
    simp only [buddy_free_loop] at hr ⊢
    have hfs := buddy_found_same s t (BUDDY_ADDR addr order) (s.free_area order)
      (fun e hm => h.2 e (he order h1 h2 e hm))
    rw [← h.1 order h1 h2, ← hfs]
    cases hf : buddy_found s (BUDDY_ADDR addr order) (s.free_area order) with
    | none =>
      simp only [hf] at hr ⊢
      by_cases hi : index < N_PAGES
      · simp only [hi, if_true, Res.ok.injEq] at hr ⊢
        subst hr
        have ho : order < N_PAGES := by
          rw [n_pages_eq]; simp only [MAX_ORDER] at h2; omega
        exact ⟨_, rfl, same_arena_list_add _ _ _ _ (same_arena_set_order _ _ _ _ h ho) h1 h2,
          entries_in_range_list_add _ _ _ he hi⟩
      · simp [hi] at hr
    | some x =>
      obtain ⟨hm, -⟩ := buddy_found_mem _ _ _ _ hf
      have hx := he order h1 h2 x hm
      simp only [hf] at hr ⊢
      rw [← h.2 x hx]
      by_cases ho : order + 1 ≤ MAX_ORDER
      · simp only [ho, if_true] at hr ⊢
        exact ih _ _ _ _ _ (same_arena_list_del _ _ _ _ h h1 h2)
          (entries_in_range_list_del _ _ _ he) (by omega) ho hr
      · simp only [ho, if_false, Res.ok.injEq] at hr ⊢
        subst hr
        exact ⟨_, rfl, same_arena_list_del _ _ _ _ h h1 h2,
          entries_in_range_list_del _ _ _ he⟩

theorem buddy_free_same (s t s' : State) (addr : Nat) (h : same_arena s t)
    (he : entries_in_range s) (hr : buddy_free s addr = Res.ok s') :
    ∃ t', buddy_free t addr = Res.ok t' ∧ same_arena s' t' ∧ entries_in_range s' := by
  obtain ⟨h1, o, h2, h3, h4, h5⟩ := buddy_free_ok_inv s s' addr hr
  rw [buddy_free_of_order t addr o h1 h2 h3 (by rw [← h.2 _ h1]; exact h4)]
  exact buddy_free_loop_same _ s t s' addr _ o h he h2 h3 h5

/-- Two states that agree on the objects of the program give every sequence of calls the
same results. -/
theorem run_same (calls : List Call) (s t s' : State) (rs : List (Option Nat))
    (h : same_arena s t) (he : entries_in_range s) (hr : run calls s = Res.ok (rs, s')) :
    ∃ t', run calls t = Res.ok (rs, t') ∧ same_arena s' t' := by
  induction calls generalizing s t rs s' with
  | nil =>
    simp only [run, Res.ok.injEq, Prod.mk.injEq] at hr ⊢
    obtain ⟨rfl, rfl⟩ := hr
    exact ⟨t, ⟨rfl, rfl⟩, h⟩
  | cons c rest ih =>
    cases c with
    | alloc size =>
      simp only [run] at hr ⊢
      cases ha : buddy_alloc s size with
      | undef => simp [ha] at hr
      | nofuel => simp [ha] at hr
      | ok v =>
        obtain ⟨r, s1⟩ := v
        obtain ⟨t1, ht1, hsa, he1⟩ := buddy_alloc_fuel_same _ s t s1 size r h he ha
        have ht1' : buddy_alloc t size = Res.ok (r, t1) := ht1
        simp only [ha, ht1'] at hr ⊢
        cases hrest : run rest s1 with
        | undef => simp [hrest] at hr
        | nofuel => simp [hrest] at hr
        | ok w =>
          obtain ⟨rs1, s2⟩ := w
          obtain ⟨t2, ht2, hsa2⟩ := ih s1 t1 s2 rs1 hsa he1 hrest
          simp only [hrest, ht2, Res.ok.injEq, Prod.mk.injEq] at hr ⊢
          obtain ⟨rfl, rfl⟩ := hr
          exact ⟨t2, ⟨rfl, rfl⟩, hsa2⟩
    | free addr =>
      simp only [run] at hr ⊢
      cases hf : buddy_free s addr with
      | undef => simp [hf] at hr
      | nofuel => simp [hf] at hr
      | ok s1 =>
        obtain ⟨t1, ht1, hsa, he1⟩ := buddy_free_same s t s1 addr h he hf
        simp only [hf, ht1] at hr ⊢
        exact ih s1 t1 s' rs hsa he1 hr

theorem same_arena_init (s0 s1 : State) : same_arena (buddy_init s0) (buddy_init s1) := by
  constructor
  · intro o h1 h2
    by_cases h : o = MAX_ORDER
    · subst h; simp [buddy_init, MIN_ORDER, MAX_ORDER]
    · simp [buddy_init, h, h1, h2]
  · intro i hi
    have hi' : i < ORDER_SIZE MAX_ORDER / PAGE_SIZE := hi
    by_cases h0 : i = 0
    · subst h0; simp [buddy_init, hi']
    · simp [buddy_init, h0, hi']

theorem buddy_dump_eq (s : State) :
    buddy_dump s = [((s.free_area 12).length, 4), ((s.free_area 13).length, 8),
      ((s.free_area 14).length, 16), ((s.free_area 15).length, 32),
      ((s.free_area 16).length, 64), ((s.free_area 17).length, 128),
      ((s.free_area 18).length, 256), ((s.free_area 19).length, 512),
      ((s.free_area 20).length, 1024)] := rfl

theorem buddy_dump_same (s t : State) (h : same_arena s t) : buddy_dump s = buddy_dump t := by
  rw [buddy_dump_eq, buddy_dump_eq]
  simp only [h.1 12 (by decide) (by decide), h.1 13 (by decide) (by decide),
    h.1 14 (by decide) (by decide), h.1 15 (by decide) (by decide),
    h.1 16 (by decide) (by decide), h.1 17 (by decide) (by decide),
    h.1 18 (by decide) (by decide), h.1 19 (by decide) (by decide),
    h.1 20 (by decide) (by decide)]

/-- What is observed of a run started right after `buddy_init` does not depend on the
state `buddy_init` was called in. -/
theorem observe_init (calls : List Call) (s0 : State) (rs : List (Option Nat))
    (d : List (Nat × Nat))
    (h : observe (run calls (buddy_init zero_state)) = some (rs, d)) :
    ∃ s', run calls (buddy_init s0) = Res.ok (rs, s') ∧ buddy_dump s' = d := by
  cases hr : run calls (buddy_init zero_state) with
  | undef => simp [hr, observe] at h
  | nofuel => simp [hr, observe] at h
  | ok v =>
    obtain ⟨rs1, s1⟩ := v
    simp only [hr, observe, Option.some.injEq, Prod.mk.injEq] at h
    obtain ⟨rfl, rfl⟩ := h
    obtain ⟨t', ht, hsa⟩ := run_same calls _ (buddy_init s0) s1 rs1
      (same_arena_init zero_state s0)
      (fun o h1 h2 p hp => ((well_formed_init zero_state).2.1 o h1 h2 p hp).1) hr
    exact ⟨t', ht, (buddy_dump_same _ _ hsa).symm⟩

/-! ## Reading results -/

theorem res_eta (r : Res (Option Nat × State)) (d : State) (x : Option Nat)
    (h : ret_of r = some x) : r = Res.ok (x, state_of d r) := by
  cases r with
  | ok v =>
    obtain ⟨y, s⟩ := v
    simp only [ret_of, Option.some.injEq] at h
    subst h
    rfl
  | undef => simp [ret_of] at h
  | nofuel => simp [ret_of] at h

theorem run_alloc_inv (size : Int) (rest : List Call) (s s' : State)
    (rs : List (Option Nat)) (h : run (Call.alloc size :: rest) s = Res.ok (rs, s')) :
    ∃ r s1 rs1, buddy_alloc s size = Res.ok (r, s1) ∧ run rest s1 = Res.ok (rs1, s') ∧
      rs = r :: rs1 := by
  simp only [run] at h
  cases ha : buddy_alloc s size with
  | undef => simp [ha] at h
  | nofuel => simp [ha] at h
  | ok v =>
    obtain ⟨r, s1⟩ := v
    simp only [ha] at h
    cases hrest : run rest s1 with
    | undef => simp [hrest] at h
    | nofuel => simp [hrest] at h
    | ok w =>
      obtain ⟨rs1, s2⟩ := w
      simp only [hrest, Res.ok.injEq, Prod.mk.injEq] at h
      obtain ⟨rfl, rfl⟩ := h
      exact ⟨r, s1, rs1, rfl, hrest, rfl⟩

theorem run_free_inv (addr : Nat) (rest : List Call) (s s' : State)
    (rs : List (Option Nat)) (h : run (Call.free addr :: rest) s = Res.ok (rs, s')) :
    ∃ s1, buddy_free s addr = Res.ok s1 ∧ run rest s1 = Res.ok (rs, s') := by
  simp only [run] at h
  cases hf : buddy_free s addr with
  | undef => simp [hf] at h
  | nofuel => simp [hf] at h
  | ok s1 =>
    simp only [hf] at h
    exact ⟨s1, rfl, h⟩

theorem run_nil_inv (s s' : State) (rs : List (Option Nat))
    (h : run [] s = Res.ok (rs, s')) : rs = [] ∧ s' = s := by
  simp only [run, Res.ok.injEq, Prod.mk.injEq] at h
  exact ⟨h.1.symm, h.2.symm⟩

/-! ## Releasing two buddies of order 12 -/

/-- A round of the loop of `buddy_free` that finds no buddy inserts the block. -/
theorem buddy_free_loop_insert (fuel : Nat) (s : State) (addr index order : Nat)
    (hi : index < N_PAGES)
    (hf : buddy_found s (BUDDY_ADDR addr order) (s.free_area order) = none) :
    buddy_free_loop (fuel + 1) s addr index order =
      Res.ok (list_add index order (set_order order (-1) s)) := by
  simp only [buddy_free_loop, hf, hi, if_true]

/-- A round of the loop of `buddy_free` that finds the buddy `b` removes it and goes
on one order higher with the lower of the two blocks. -/
theorem buddy_free_loop_merge (fuel : Nat) (s : State) (index order b : Nat)
    (hb : (s.g_pages b).address = PAGE_TO_ADDR b) (ho : order < MAX_ORDER)
    (hf : buddy_found s (BUDDY_ADDR (PAGE_TO_ADDR index) order) (s.free_area order) = some b) :
    buddy_free_loop (fuel + 1) s (PAGE_TO_ADDR index) index order =
      buddy_free_loop fuel (list_del b order s) (PAGE_TO_ADDR (min index b)) (min index b)
        (order + 1) := by
  simp only [buddy_free_loop, hf, hb, show order + 1 ≤ MAX_ORDER from ho, if_true]
  by_cases hgt : PAGE_TO_ADDR index > PAGE_TO_ADDR b
  · have hm : min index b = b := by
      simp only [PAGE_TO_ADDR, page_size_eq] at hgt
      omega
    simp only [hgt, if_true, addr_to_page_to_addr, hm]
  · have hm : min index b = index := by
      simp only [PAGE_TO_ADDR, page_size_eq] at hgt
      omega
    simp only [hgt, if_false, hm]

/-- Releasing the order-12 block `x` and then its buddy `y`, in a well-formed state where
neither is free and the buddy of the merged block `m = min x y` is not free: the
order-12 list is as before and `m` is the new head of the order-13 list. -/
theorem free_two_buddies (s : State) (x y : Nat) (hw : well_formed s)
    (hx : x < N_PAGES) (hy : y < N_PAGES) (hxy : x ^^^ 1 = y) (hy12 : y ≠ 12)
    (ho1 : (s.g_pages x).order = 12) (ho2 : (s.g_pages y).order = 12)
    (hf2 : y ∉ s.free_area 12)
    (hb : (min x y) ^^^ 2 ∉ s.free_area 13) :
    ∃ s1 s2, buddy_free s (PAGE_TO_ADDR x) = Res.ok s1 ∧
      buddy_free s1 (PAGE_TO_ADDR y) = Res.ok s2 ∧
      s2.free_area 12 = s.free_area 12 ∧
      s2.free_area 13 = min x y :: s.free_area 13 ∧
      ∀ o, o ≠ 12 → o ≠ 13 → s2.free_area o = s.free_area o := by
  obtain ⟨hpg, hen, -, -⟩ := hw
  have hyx : y ^^^ 1 = x := by rw [← hxy, Nat.xor_cancel_right]
  have hmlt : min x y < N_PAGES := by omega
  -- the first call inserts `x` at order 12
  have hfound1 : buddy_found s (BUDDY_ADDR (PAGE_TO_ADDR x) 12) (s.free_area 12) = none := by
    rw [buddy_found_eq_none]
    intro e he hea
    have helt := (hen 12 (by decide) (by decide) e he).1
    rw [(hpg e helt).1, buddy_addr_page x 12 (by decide)] at hea
    have := page_to_addr_inj _ _ hea
    simp only [MIN_ORDER] at this
    rw [show 2 ^ (12 - 12) = 1 from rfl, hxy] at this
    exact hf2 (this ▸ he)
  have h1 : buddy_free s (PAGE_TO_ADDR x) =
      Res.ok (list_add x 12 (set_order 12 (-1) s)) := by
    rw [buddy_free_of_order s _ 12 (by rwa [addr_to_page_to_addr]) (by decide) (by decide)
      (by rw [addr_to_page_to_addr]; exact ho1), addr_to_page_to_addr]
    exact buddy_free_loop_insert _ s _ x 12 hx hfound1
  -- the second call finds `x`, merges, and inserts the merged block at order 13
  have hord : ((list_add x 12 (set_order 12 (-1) s)).g_pages y).order = 12 := by
    simp [hy12, ho2]
  have haddr : ∀ e, ((list_add x 12 (set_order 12 (-1) s)).g_pages e).address =
      (s.g_pages e).address := by
    intro e
    by_cases he : e = 12
    · subst he; simp
    · simp [he]
  have hfound2 : buddy_found (list_add x 12 (set_order 12 (-1) s))
      (BUDDY_ADDR (PAGE_TO_ADDR y) 12)
      ((list_add x 12 (set_order 12 (-1) s)).free_area 12) = some x := by
    rw [buddy_found_eq_some]
    refine ⟨[], s.free_area 12, by simp, ?_, by simp⟩
    rw [haddr, (hpg x hx).1, buddy_addr_page y 12 (by decide)]
    simp only [MIN_ORDER]
    rw [show 2 ^ (12 - 12) = 1 from rfl, hyx]
  have hfound3 : buddy_found (list_del x 12 (list_add x 12 (set_order 12 (-1) s)))
      (BUDDY_ADDR (PAGE_TO_ADDR (min y x)) (12 + 1))
      ((list_del x 12 (list_add x 12 (set_order 12 (-1) s))).free_area (12 + 1)) = none := by
    rw [buddy_found_eq_none]
    intro e he hea
    simp at he
    have helt := (hen 13 (by decide) (by decide) e he).1
    simp only [list_del_g_pages] at hea
    rw [haddr, (hpg e helt).1, buddy_addr_page _ (12 + 1) (by decide)] at hea
    have := page_to_addr_inj _ _ hea
    simp only [MIN_ORDER] at this
    rw [show 2 ^ (12 + 1 - 12) = 2 from rfl, Nat.min_comm] at this
    exact hb (this ▸ he)
  have h2 : buddy_free (list_add x 12 (set_order 12 (-1) s)) (PAGE_TO_ADDR y) =
      Res.ok (list_add (min y x) (12 + 1) (set_order (12 + 1) (-1)
        (list_del x 12 (list_add x 12 (set_order 12 (-1) s))))) := by
    rw [buddy_free_of_order _ _ 12 (by rwa [addr_to_page_to_addr]) (by decide) (by decide)
      (by rw [addr_to_page_to_addr]; exact hord), addr_to_page_to_addr]
    rw [show MAX_ORDER + 1 - 12 = 7 + 1 + 1 from rfl,
      buddy_free_loop_merge _ _ y 12 x (by rw [haddr]; exact (hpg x hx).1) (by decide) hfound2]
    exact buddy_free_loop_insert _ _ _ _ _ (by rw [Nat.min_comm]; exact hmlt) hfound3
  refine ⟨_, _, h1, h2, ?_, ?_, ?_⟩
  · simp
  · simp [Nat.min_comm]
  · intro o h12 h13
    simp [h12, h13]

/-! ## The recursion of `buddy_alloc` and the cascade of the specification -/

theorem state_ext (s t : State) (h1 : ∀ j, s.free_area j = t.free_area j)
    (h2 : ∀ i, s.g_pages i = t.g_pages i) : s = t := by
  cases s with
  | mk f g =>
    cases t with
    | mk f' g' =>
      have e1 : f = f' := funext h1
      have e2 : g = g' := funext h2
      subst e1 e2
      rfl

theorem spec_split_g_pages (n p c : Nat) (s : State) :
    (spec_split n p c s).g_pages = s.g_pages := by
  induction n generalizing c s with
  | zero => rfl
  | succ n ih => simp only [spec_split, ih, list_add_g_pages]

/-- The free lists after the split loop of the specification. -/
theorem spec_split_free_area (n p c : Nat) (s : State) (hn : n ≤ c) (j : Nat) :
    (spec_split n p c s).free_area j =
      if c - n ≤ j ∧ j < c then (p + 2 ^ (j - MIN_ORDER)) :: s.free_area j
      else s.free_area j := by
  induction n generalizing c s with
  | zero =>
    have : ¬ (c - 0 ≤ j ∧ j < c) := by omega
    simp only [spec_split, this, if_false]
  | succ n ih =>
    simp only [spec_split]
    rw [ih (c - 1) _ (by omega)]
    by_cases hj : j = c - 1
    · subst hj
      have h1 : ¬ (c - 1 - n ≤ c - 1 ∧ c - 1 < c - 1) := by omega
      have h2 : c - (n + 1) ≤ c - 1 ∧ c - 1 < c := by omega
      simp only [h1, if_false, h2, and_self, if_true, list_add_free_area]
    · by_cases hr : c - 1 - n ≤ j ∧ j < c - 1
      · have h2 : c - (n + 1) ≤ j ∧ j < c := by omega
        simp only [hr, and_self, if_true, h2, list_add_free_area, hj, if_false]
      · have h2 : ¬ (c - (n + 1) ≤ j ∧ j < c) := by omega
        simp only [hr, if_false, h2, list_add_free_area, hj]

/-- With no more rounds than the distance from the order of the request to the order
of the block found, the recursion of `buddy_alloc` is still nesting when the rounds
end. -/
theorem buddy_alloc_fuel_short (fuel : Nat) (s : State) (size : Int) (k : Nat)
    (hsize : ¬ size < 1)
    (hscan : scan s (MAX_ORDER + 1 - find_order size) (find_order size) = some k)
    (hfuel : fuel ≤ k - find_order size) :
    buddy_alloc_fuel fuel s size = Res.nofuel := by
  induction fuel generalizing size with
  | zero => rfl
  | succ n ih =>
    obtain ⟨hi1, hi2, hi3, hi4⟩ := (scan_eq_some s _ _ k).1 hscan
    have hge := find_order_ge size
    have hle := find_order_le size
    have hk0 : k ≠ find_order size := by omega
    have hfo := find_order_order_size (find_order size) hge (by omega)
    have hsize' : ¬ ((ORDER_SIZE (1 + find_order size) : Nat) : Int) < 1 := by
      have : 0 < ORDER_SIZE (1 + find_order size) := by
        simp only [ORDER_SIZE, Nat.one_shiftLeft]
        exact Nat.two_pow_pos _
      omega
    have hscan' : scan s (MAX_ORDER + 1 -
        find_order ((ORDER_SIZE (1 + find_order size) : Nat) : Int))
        (find_order ((ORDER_SIZE (1 + find_order size) : Nat) : Int)) = some k := by
      rw [hfo, scan_eq_some]
      exact ⟨by omega, by omega, hi3, fun j h1 h2 => hi4 j (by omega) h2⟩
    have hn := ih _ hsize' hscan' (by rw [hfo]; omega)
    simp only [buddy_alloc_fuel, hsize, if_false, hscan, hk0, hn]

/-- The recursive `buddy_alloc` and the iterative `spec_allocate` agree on a state whose
page records hold their own index, when the block found is an aligned page of the
arena. -/
theorem buddy_alloc_eq_spec (s : State) (size : Int) (k p : Nat) (l : List Nat)
    (hsize : ¬ size < 1)
    (hscan : scan s (MAX_ORDER + 1 - find_order size) (find_order size) = some k)
    (hk : s.free_area k = p :: l)
    (hpages : pages_ok s) (hp : p < N_PAGES) (hal : 2 ^ (k - MIN_ORDER) ∣ p) :
    buddy_alloc s size = spec_allocate s size := by
  obtain ⟨hi1, hi2, hi3, hi4⟩ := (scan_eq_some s _ _ k).1 hscan
  have hge := find_order_ge size
  have hle := find_order_le size
  obtain ⟨s', hr, h2k, h2r, h2o, h2p⟩ :=
    buddy_alloc_fuel_split (MAX_ORDER - MIN_ORDER + 1) s size k p l hsize hscan hk
      (by simp only [MIN_ORDER, MAX_ORDER] at *; omega) hpages hp hal
  have hr' : buddy_alloc s size = Res.ok (some (PAGE_TO_ADDR p), s') := hr
  rw [hr']
  simp only [spec_allocate, hsize, if_false, hscan, hk]
  congr 2
  apply state_ext
  · intro j
    simp only [set_order_free_area]
    rw [spec_split_free_area _ _ _ _ (by omega)]
    have hkk : k - (k - find_order size) = find_order size := by omega
    rw [hkk]
    by_cases hjk : j = k
    · subst hjk
      have : ¬ (find_order size ≤ j ∧ j < j) := by omega
      simp [this, h2k, hk]
    · by_cases hjr : find_order size ≤ j ∧ j < k
      · simp only [hjr, and_self, if_true, list_del_free_area, hjk, if_false]
        rw [h2r j hjr.1 hjr.2, hi4 j hjr.1 hjr.2]
      · simp only [hjr, if_false, list_del_free_area, hjk]
        exact h2o j (by omega)
  · intro i
    rw [h2p i]
    simp only [set_order_g_pages, spec_split_g_pages, list_del_g_pages]

/-! ## The record of a live page overwritten by `buddy_free` -/

theorem allocs_live_reachable (s0 : State) (n : Nat) (hn : n ≤ 256) :
    Reachable (after_allocs n s0) (allocs_live n s0) := by
  induction n with
  | zero => exact Reachable.init s0
  | succ n ih =>
    obtain ⟨hw, hb⟩ := after_allocs_inv s0 n (by omega)
    obtain ⟨a, s', hr, -, -⟩ := alloc_one_step _ hw (by omega)
    have hs : after_allocs (n + 1) s0 = s' := by
      rw [after_allocs_succ]
      simp only [alloc_one, hr, state_of]
    have hl : allocs_live (n + 1) s0 = (a, find_order 1) :: allocs_live n s0 := by
      simp only [allocs_live, hr, ret_of]
    rw [hs, hl]
    exact Reachable.alloc 1 a s' (ih (by omega)) hr

theorem run_eta (r : Res (List (Option Nat) × State)) (d : State) (rs : List (Option Nat))
    (dump : List (Nat × Nat)) (h : observe r = some (rs, dump)) :
    r = Res.ok (rs, run_state d r) := by
  cases r with
  | ok v =>
    obtain ⟨x, s⟩ := v
    simp only [observe, Option.some.injEq, Prod.mk.injEq] at h
    obtain ⟨rfl, -⟩ := h
    rfl
  | undef => simp [observe] at h
  | nofuel => simp [observe] at h


/-! ## Counting the blocks that hold a page -/

theorem holders_nil (i : Nat) : holders [] i = 0 := rfl

theorem holders_cons (b : Nat × Nat) (l : List (Nat × Nat)) (i : Nat) :
    holders (b :: l) i = holders l i + if in_block b i then 1 else 0 := by
  simp only [holders, List.countP_cons, decide_eq_true_eq]

theorem holders_append (l1 l2 : List (Nat × Nat)) (i : Nat) :
    holders (l1 ++ l2) i = holders l1 i + holders l2 i := by
  simp only [holders, List.countP_append]

theorem holders_erase (l : List (Nat × Nat)) (b : Nat × Nat) (i : Nat) (h : b ∈ l) :
    holders (l.erase b) i + (if in_block b i then 1 else 0) = holders l i := by
  induction l with
  | nil => cases h
  | cons x rest ih =>
    by_cases hx : x = b
    · subst hx
      rw [List.erase_cons_head, holders_cons]
    · have hmem : b ∈ rest := by
        rcases List.mem_cons.1 h with h1 | h1
        · exact absurd h1.symm hx
        · exact h1
      rw [List.erase_cons_tail (by simpa using hx), holders_cons, holders_cons]
      have := ih hmem
      omega

theorem holders_map_erase (l : List Nat) (t o i : Nat) (h : t ∈ l) :
    holders ((l.erase t).map (fun p => (p, o))) i + (if in_block (t, o) i then 1 else 0) =
      holders (l.map (fun p => (p, o))) i := by
  induction l with
  | nil => cases h
  | cons x rest ih =>
    by_cases hx : x = t
    · subst hx
      rw [List.erase_cons_head, List.map_cons, holders_cons]
    · have hmem : t ∈ rest := by
        rcases List.mem_cons.1 h with h1 | h1
        · exact absurd h1.symm hx
        · exact h1
      rw [List.erase_cons_tail (by simpa using hx), List.map_cons, List.map_cons,
        holders_cons, holders_cons]
      have := ih hmem
      omega

theorem free_holders_eq (s : State) (i : Nat) :
    holders (free_blocks s) i =
      holders ((s.free_area 12).map (fun p => (p, 12))) i +
      (holders ((s.free_area 13).map (fun p => (p, 13))) i +
      (holders ((s.free_area 14).map (fun p => (p, 14))) i +
      (holders ((s.free_area 15).map (fun p => (p, 15))) i +
      (holders ((s.free_area 16).map (fun p => (p, 16))) i +
      (holders ((s.free_area 17).map (fun p => (p, 17))) i +
      (holders ((s.free_area 18).map (fun p => (p, 18))) i +
      (holders ((s.free_area 19).map (fun p => (p, 19))) i +
      (holders ((s.free_area 20).map (fun p => (p, 20))) i + 0)))))))) := by
  simp only [free_blocks, MAX_ORDER, MIN_ORDER, blocks_from, holders_append, holders_nil]

/-- Changing one free list changes the number of free blocks that hold a page by the
change within that list. -/
theorem free_holders_update (s t : State) (o i : Nat) (h1 : MIN_ORDER ≤ o)
    (h2 : o ≤ MAX_ORDER) (h : ∀ j, j ≠ o → t.free_area j = s.free_area j) :
    holders (free_blocks t) i + holders ((s.free_area o).map (fun p => (p, o))) i =
      holders (free_blocks s) i + holders ((t.free_area o).map (fun p => (p, o))) i := by
  have key : ∀ j, holders ((t.free_area j).map (fun p => (p, j))) i +
      (if j = o then holders ((s.free_area o).map (fun p => (p, o))) i else 0) =
      holders ((s.free_area j).map (fun p => (p, j))) i +
      (if j = o then holders ((t.free_area o).map (fun p => (p, o))) i else 0) := by
    intro j
    by_cases hj : j = o
    · subst hj; simp only [if_true]; omega
    · simp only [hj, if_false, h j hj]
  have k12 := key 12
  have k13 := key 13
  have k14 := key 14
  have k15 := key 15
  have k16 := key 16
  have k17 := key 17
  have k18 := key 18
  have k19 := key 19
  have k20 := key 20
  simp only [MIN_ORDER, MAX_ORDER] at h1 h2
  rw [free_holders_eq, free_holders_eq]
  interval_cases o <;> simp at k12 k13 k14 k15 k16 k17 k18 k19 k20 <;> omega

/-- A block of order `o + 1` is its two halves of order `o`. -/
theorem in_block_halves (t o i : Nat) (h : MIN_ORDER ≤ o) :
    (if in_block (t, o + 1) i then 1 else 0) =
      (if in_block (t, o) i then 1 else 0) +
      (if in_block (t + 2 ^ (o - MIN_ORDER), o) i then 1 else 0) := by
  have hp : 2 ^ (o + 1 - MIN_ORDER) = 2 ^ (o - MIN_ORDER) + 2 ^ (o - MIN_ORDER) := by
    rw [show o + 1 - MIN_ORDER = (o - MIN_ORDER) + 1 by omega, pow_succ]
    omega
  simp only [in_block, hp]
  split_ifs <;> omega

/-- The fields `address` and `index` of the page records are never written by
`buddy_alloc`. -/
theorem buddy_alloc_fuel_fields (fuel : Nat) (s s' : State) (size : Int) (r : Option Nat)
    (h : buddy_alloc_fuel fuel s size = Res.ok (r, s')) (i : Nat) :
    (s'.g_pages i).address = (s.g_pages i).address ∧
      (s'.g_pages i).index = (s.g_pages i).index := by
  induction fuel generalizing size r s' with
  | zero => simp [buddy_alloc_fuel] at h
  | succ n ih =>
    simp only [buddy_alloc_fuel] at h
    by_cases hs : size < 1
    · simp only [hs, if_true, Res.ok.injEq, Prod.mk.injEq] at h
      obtain ⟨-, rfl⟩ := h
      exact ⟨rfl, rfl⟩
    · simp only [hs, if_false] at h
      cases hsc : scan s (MAX_ORDER + 1 - find_order size) (find_order size) with
      | none =>
        simp only [hsc, Res.ok.injEq, Prod.mk.injEq] at h
        obtain ⟨-, rfl⟩ := h
        exact ⟨rfl, rfl⟩
      | some k =>
        simp only [hsc] at h
        by_cases hk : k = find_order size
        · simp only [hk, if_true] at h
          cases hl : s.free_area (find_order size) with
          | nil => simp [hl] at h
          | cons p l =>
            simp only [hl, Res.ok.injEq, Prod.mk.injEq] at h
            obtain ⟨-, rfl⟩ := h
            by_cases hip : i = p
            · subst hip; simp
            · simp [hip]
        · simp only [hk, if_false] at h
          cases hn : buddy_alloc_fuel n s ((ORDER_SIZE (1 + find_order size) : Nat) : Int) with
          | undef => simp [hn] at h
          | nofuel => simp [hn] at h
          | ok v =>
            obtain ⟨r1, s1⟩ := v
            have h1 := ih s1 _ r1 hn
            cases r1 with
            | none => simp [hn] at h
            | some a1 =>
              simp only [hn] at h
              split_ifs at h
              simp only [Res.ok.injEq, Prod.mk.injEq] at h
              obtain ⟨-, rfl⟩ := h
              by_cases hip : i = ADDR_TO_PAGE a1
              · subst hip; simpa using h1
              · simpa [hip] using h1

/-- A successful `buddy_alloc` takes the pages of the block it returns, and no other
page, out of the free blocks. -/
theorem buddy_alloc_fuel_holders (fuel : Nat) (s s' : State) (size : Int) (a : Nat)
    (hpg : pages_ok s) (he : entries_in_range s)
    (h : buddy_alloc_fuel fuel s size = Res.ok (some a, s')) (i : Nat) :
    holders (free_blocks s') i +
      (if in_block (ADDR_TO_PAGE a, find_order size) i then 1 else 0) =
      holders (free_blocks s) i := by
  induction fuel generalizing s' size a with
  | zero => simp [buddy_alloc_fuel] at h
  | succ n ih =>
    obtain ⟨hs, k, hsc⟩ := buddy_alloc_fuel_some_scan _ _ _ _ _ h
    simp only [buddy_alloc_fuel, hs, if_false, hsc] at h
    obtain ⟨hi1, hi2, hi3, -⟩ := (scan_eq_some s _ _ k).1 hsc
    have hge := find_order_ge size
    have hle : k ≤ MAX_ORDER := by
      have := find_order_le size
      omega
    by_cases hk : k = find_order size
    · simp only [hk, if_true] at h
      cases hl : s.free_area (find_order size) with
      | nil => simp [hl] at h
      | cons p l =>
        have hp : p < N_PAGES :=
          he _ hge (by omega) p (by rw [hl]; exact List.mem_cons_self _ _)
        simp only [hl, Res.ok.injEq, Prod.mk.injEq, Option.some.injEq] at h
        obtain ⟨ha, rfl⟩ := h
        have hidx : (s.g_pages p).index = p := (hpg p hp).2
        have hap : ADDR_TO_PAGE a = p := by
          rw [← ha]
          simp [addr_to_page_to_addr, hidx]
        have hu := free_holders_update s
          (set_order p (find_order size) (list_del p (find_order size) s))
          (find_order size) i hge (by omega) (by intro j hj; simp [hj])
        simp only [set_order_free_area, list_del_free_area, if_true, hl,
          List.erase_cons_head, List.map_cons, holders_cons] at hu
        rw [hap]
        omega
    · simp only [hk, if_false] at h
      have hlt : find_order size < MAX_ORDER := by omega
      cases hr : buddy_alloc_fuel n s ((ORDER_SIZE (1 + find_order size) : Nat) : Int) with
      | undef => simp [hr] at h
      | nofuel => simp [hr] at h
      | ok v =>
        obtain ⟨r1, s1⟩ := v
        cases r1 with
        | none => simp [hr] at h
        | some a1 =>
          have h1 := ih s1 _ a1 hr
          rw [find_order_order_size _ hge hlt] at h1
          have hf := buddy_alloc_fuel_fields n s s1 _ _ hr (ADDR_TO_PAGE a1)
          simp only [hr] at h
          by_cases hl : ADDR_TO_PAGE a1 < N_PAGES
          · simp only [hl, if_true] at h
            have hidx : (s1.g_pages (ADDR_TO_PAGE a1)).index = ADDR_TO_PAGE a1 := by
              rw [hf.2]; exact (hpg _ hl).2
            split_ifs at h
            simp only [Res.ok.injEq, Prod.mk.injEq, Option.some.injEq] at h
            obtain ⟨ha, rfl⟩ := h
            have hap : ADDR_TO_PAGE a = ADDR_TO_PAGE a1 := by
              rw [← ha]
              simp [addr_to_page_to_addr, hidx]
            have hu := free_holders_update s1
              (set_order (ADDR_TO_PAGE a1) (find_order size)
                (list_add ((s1.g_pages (ADDR_TO_PAGE a1)).index +
                  ORDER_SIZE (find_order size) / PAGE_SIZE) (find_order size) s1))
              (find_order size) i hge (by omega) (by intro j hj; simp [hj])
            simp only [set_order_free_area, list_add_free_area, if_true, List.map_cons,
              holders_cons, hidx, order_pages _ hge] at hu
            have hh := in_block_halves (ADDR_TO_PAGE a1) (find_order size) i hge
            rw [Nat.add_comm 1] at h1
            rw [hap]
            simp only [hidx, order_pages _ hge]
            omega
          · simp [hl] at h

theorem small_xor_cases : ∀ k, k < 8 → ∀ i, i < 256 → 2 ^ k ∣ i →
    (i ^^^ 2 ^ k = i + 2 ^ k ∨ (i ^^^ 2 ^ k) + 2 ^ k = i) := by
  decide!

/-- A block and its buddy are the two halves of the block merged from them. -/
theorem in_block_merged (idx o i : Nat) (h1 : MIN_ORDER ≤ o) (h2 : o < MAX_ORDER)
    (hi : idx < N_PAGES) (hal : 2 ^ (o - MIN_ORDER) ∣ idx) :
    (if in_block (min idx (idx ^^^ 2 ^ (o - MIN_ORDER)), o + 1) i then 1 else 0) =
      (if in_block (idx, o) i then 1 else 0) +
      (if in_block (idx ^^^ 2 ^ (o - MIN_ORDER), o) i then 1 else 0) := by
  have hk : o - MIN_ORDER < 8 := by simp only [MIN_ORDER, MAX_ORDER] at *; omega
  have hc := small_xor_cases (o - MIN_ORDER) hk idx (by rwa [n_pages_eq] at hi) hal
  have hpos : 0 < 2 ^ (o - MIN_ORDER) := Nat.two_pow_pos _
  rcases hc with hc | hc
  · have hm : min idx (idx ^^^ 2 ^ (o - MIN_ORDER)) = idx := by omega
    rw [hm, hc]
    exact in_block_halves idx o i h1
  · have hm : min idx (idx ^^^ 2 ^ (o - MIN_ORDER)) = idx ^^^ 2 ^ (o - MIN_ORDER) := by omega
    rw [hm]
    have := in_block_halves (idx ^^^ 2 ^ (o - MIN_ORDER)) o i h1
    rw [hc] at this
    omega

/-- The loop of `buddy_free` adds the pages of the block released, and no other page,
to the free blocks. -/
theorem buddy_free_loop_holders (fuel : Nat) (s s' : State) (index order : Nat)
    (hw : well_formed s) (hi : index < N_PAGES) (hal : 2 ^ (order - MIN_ORDER) ∣ index)
    (h1 : MIN_ORDER ≤ order) (h2 : order ≤ MAX_ORDER)
    (h : buddy_free_loop fuel s (PAGE_TO_ADDR index) index order = Res.ok s') (i : Nat) :
    holders (free_blocks s') i =
      holders (free_blocks s) i + if in_block (index, order) i then 1 else 0 := by
  induction fuel generalizing s index order with
  | zero => simp [buddy_free_loop] at h
  | succ n ih =>
    simp only [buddy_free_loop] at h
    cases hf : buddy_found s (BUDDY_ADDR (PAGE_TO_ADDR index) order) (s.free_area order) with
    | none =>
      simp only [hf, hi, if_true, Res.ok.injEq] at h
      subst h
      have hu := free_holders_update s (list_add index order (set_order order (-1) s)) order i
        h1 h2 (by intro j hj; simp [hj])
      simp only [list_add_free_area, set_order_free_area, if_true, List.map_cons,
        holders_cons] at hu
      omega
    | some t =>
      obtain ⟨hm, hta⟩ := buddy_found_mem _ _ _ _ hf
      obtain ⟨ht, htal⟩ := hw.2.1 order h1 h2 t hm
      have htaddr := (hw.1 t ht).1
      have hlt : order < MAX_ORDER := by
        by_contra hc
        have heq : order = MAX_ORDER := by omega
        subst heq
        have := buddy_addr_top _ (page_to_addr_lt index hi)
        have := page_to_addr_lt t ht
        omega
      rw [htaddr, buddy_addr_page _ _ h1] at hta
      have htx := page_to_addr_inj _ _ hta
      have hk : order - MIN_ORDER < 8 := by simp only [MIN_ORDER, MAX_ORDER] at *; omega
      have hfacts := small_xor_facts (order - MIN_ORDER) hk index (by rwa [n_pages_eq] at hi) hal
      have hsucc : order + 1 - MIN_ORDER = order - MIN_ORDER + 1 := by omega
      have hw1 := well_formed_list_del s t order hw
      have hu := free_holders_update s (list_del t order s) order i h1 h2
        (by intro j hj; simp [hj])
      simp only [list_del_free_area, if_true] at hu
      have he := holders_map_erase (s.free_area order) t order i hm
      have hmrg := in_block_merged index order i h1 hlt hi hal
      rw [← htx] at hmrg
      simp only [hf, show order + 1 ≤ MAX_ORDER from hlt, if_true, htaddr] at h
      by_cases hgt : PAGE_TO_ADDR index > PAGE_TO_ADDR t
      · simp only [hgt, if_true, addr_to_page_to_addr] at h
        have hmin : min index t = t := by
          simp only [PAGE_TO_ADDR, page_size_eq] at hgt
          omega
        have h3 := ih (list_del t order s) t (order + 1) hw1 ht
          (by rw [hsucc, ← hmin, htx]; exact hfacts.2.1) (by omega) hlt h
        rw [hmin] at hmrg
        omega
      · simp only [hgt, if_false] at h
        have hmin : min index t = index := by
          simp only [PAGE_TO_ADDR, page_size_eq] at hgt
          omega
        have h3 := ih (list_del t order s) index (order + 1) hw1 hi
          (by rw [hsucc]; rw [← htx, hmin] at hfacts; exact hfacts.2.1) (by omega) hlt h
        rw [hmin] at hmrg
        omega

/-! ## Every page is in exactly one block -/

theorem holders_init (s0 : State) (i : Nat) :
    holders (free_blocks (buddy_init s0)) i = if i < N_PAGES then 1 else 0 := by
  have hlow : ∀ o, MIN_ORDER ≤ o → o < MAX_ORDER → (buddy_init s0).free_area o = [] := by
    intro o h1 h2
    have hne : o ≠ MAX_ORDER := by omega
    simp [buddy_init, hne, h1, Nat.le_of_lt h2]
  have h20 : (buddy_init s0).free_area 20 = [0] := by
    simp [buddy_init, MIN_ORDER, MAX_ORDER]
  rw [free_holders_eq]
  simp only [hlow 12 (by decide) (by decide), hlow 13 (by decide) (by decide),
    hlow 14 (by decide) (by decide), hlow 15 (by decide) (by decide),
    hlow 16 (by decide) (by decide), hlow 17 (by decide) (by decide),
    hlow 18 (by decide) (by decide), hlow 19 (by decide) (by decide), h20,
    List.map_nil, List.map_cons, holders_nil, holders_cons, in_block, MIN_ORDER, n_pages_eq]
  norm_num

theorem live_holders_erase (live : List (Nat × Nat)) (b : Nat × Nat) (i : Nat)
    (h : b ∈ live) :
    holders (live_blocks (live.erase b)) i +
      (if in_block (ADDR_TO_PAGE b.1, b.2) i then 1 else 0) =
      holders (live_blocks live) i := by
  induction live with
  | nil => cases h
  | cons x rest ih =>
    by_cases hx : x = b
    · subst hx
      simp only [List.erase_cons_head, live_blocks, List.map_cons, holders_cons]
    · have hmem : b ∈ rest := by
        rcases List.mem_cons.1 h with h1 | h1
        · exact absurd h1.symm hx
        · exact h1
      have := ih hmem
      rw [List.erase_cons_tail (by simpa using hx)]
      simp only [live_blocks, List.map_cons, holders_cons] at this ⊢
      omega

/-- In every state reached by successful calls of `buddy_alloc` and calls of `buddy_free`
on live blocks whose record holds their order, every page of the arena is held by
exactly one block, free or live, and no other page is held by any block. -/
theorem reachable_held_holders (s : State) (live : List (Nat × Nat))
    (h : Reachable_held s live) (i : Nat) :
    holders (all_blocks s live) i = if i < N_PAGES then 1 else 0 := by
  induction h with
  | init s0 =>
    simp only [all_blocks, live_blocks, List.map_nil, List.append_nil]
    exact holders_init s0 i
  | alloc size a s' hr ha ih =>
    obtain ⟨hw, -⟩ := reachable_well_formed _ _ (reachable_of_held _ _ hr)
    have h1 := buddy_alloc_fuel_holders _ _ s' size a hw.1
      (fun o h1 h2 p hp => (hw.2.1 o h1 h2 p hp).1) ha i
    simp only [all_blocks, live_blocks, List.map_cons, holders_append, holders_cons] at ih ⊢
    omega
  | @free s1 live1 a o s' hr hm ho hf ih =>
    obtain ⟨hw, hl⟩ := reachable_well_formed _ _ (reachable_of_held _ _ hr)
    have h4 := live_holders_erase live1 (a, o) i hm
    obtain ⟨⟨p, hp, hap⟩, h1, h2⟩ := hl (a, o) hm
    simp only at hap h1 h2 h4
    subst hap
    rw [addr_to_page_to_addr] at ho h4
    have hal := hw.2.2.1 p hp o h1 h2 ho
    rw [buddy_free_of_order _ _ o (by rwa [addr_to_page_to_addr]) h1 h2
      (by rwa [addr_to_page_to_addr]), addr_to_page_to_addr] at hf
    have h3 := buddy_free_loop_holders _ _ s' p o hw hp hal h1 h2 hf i
    simp only [all_blocks, holders_append] at ih ⊢
    omega

/-! ## From the count to disjointness -/

theorem holders_pos_of_mem (l : List (Nat × Nat)) (b : Nat × Nat) (i : Nat) (hb : b ∈ l)
    (hi : in_block b i) : 0 < holders l i := by
  simp only [holders]
  exact List.countP_pos_iff.2 ⟨b, hb, by simpa using hi⟩

theorem mem_of_holders_pos (l : List (Nat × Nat)) (i : Nat) (h : 0 < holders l i) :
    ∃ b ∈ l, in_block b i := by
  simp only [holders] at h
  obtain ⟨b, hb, hp⟩ := List.countP_pos_iff.1 h
  exact ⟨b, hb, by simpa using hp⟩

/-- Blocks of which no two hold a common page: a list in which every page has at most
one holder. -/
theorem pairwise_apart (l : List (Nat × Nat)) (h : ∀ i, holders l i ≤ 1) :
    l.Pairwise apart := by
  induction l with
  | nil => exact List.Pairwise.nil
  | cons b rest ih =>
    refine List.Pairwise.cons ?_ (ih ?_)
    · intro c hc i hbc
      have h1 := h i
      have h2 := holders_pos_of_mem rest c i hc hbc.2
      rw [holders_cons] at h1
      simp only [hbc.1, if_true] at h1
      omega
    · intro i
      have h1 := h i
      rw [holders_cons] at h1
      omega

theorem in_block_head (b : Nat × Nat) : in_block b b.1 := by
  have : 0 < 2 ^ (b.2 - MIN_ORDER) := Nat.two_pow_pos _
  simp only [in_block]
  omega

theorem mem_free_blocks (s : State) (p o : Nat) (h1 : MIN_ORDER ≤ o) (h2 : o ≤ MAX_ORDER)
    (hp : p ∈ s.free_area o) : (p, o) ∈ free_blocks s := by
  simp only [MIN_ORDER, MAX_ORDER] at h1 h2
  simp only [free_blocks, MIN_ORDER, MAX_ORDER, blocks_from, List.mem_append, List.mem_map,
    Prod.mk.injEq]
  interval_cases o <;> simp [hp]

theorem row_holders_le (s : State) (o i : Nat) (h1 : MIN_ORDER ≤ o) (h2 : o ≤ MAX_ORDER) :
    holders ((s.free_area o).map (fun p => (p, o))) i ≤ holders (free_blocks s) i := by
  simp only [MIN_ORDER, MAX_ORDER] at h1 h2
  rw [free_holders_eq]
  interval_cases o <;> omega

theorem count_le_row_holders (l : List Nat) (o p : Nat) :
    l.count p ≤ holders (l.map (fun q => (q, o))) p := by
  induction l with
  | nil => simp [holders_nil]
  | cons x rest ih =>
    rw [List.map_cons, holders_cons, List.count_cons]
    by_cases hx : x = p
    · subst hx
      have := in_block_head (x, o)
      simp only at this
      simp only [this, if_true, beq_self_eq_true]
      omega
    · have : (x == p) = false := by simpa using hx
      simp only [this, Bool.false_eq_true, if_false, Nat.add_zero]
      split_ifs <;> omega

theorem apart_symm : Symmetric apart := by
  intro b c h i hi
  exact h i ⟨hi.2, hi.1⟩


/-! ## When no block is live, the arena is one free block -/

theorem mem_free_blocks_inv (s : State) (b : Nat × Nat) (h : b ∈ free_blocks s) :
    MIN_ORDER ≤ b.2 ∧ b.2 ≤ MAX_ORDER ∧ b.1 ∈ s.free_area b.2 := by
  simp only [free_blocks, MIN_ORDER, MAX_ORDER, blocks_from, List.mem_append, List.mem_map,
    List.not_mem_nil, or_false] at h ⊢
  rcases h with h | h | h | h | h | h | h | h | h <;>
  · obtain ⟨p, hp, rfl⟩ := h
    exact ⟨by simp, by simp, hp⟩

/-- An aligned block holds the pages with its own quotient by the block size. -/
theorem in_block_iff_div (r o i : Nat) (hal : 2 ^ (o - MIN_ORDER) ∣ r) :
    in_block (r, o) i ↔ i / 2 ^ (o - MIN_ORDER) = r / 2 ^ (o - MIN_ORDER) := by
  have hpos : 0 < 2 ^ (o - MIN_ORDER) := Nat.two_pow_pos _
  obtain ⟨m, hm⟩ := hal
  have hdiv : r / 2 ^ (o - MIN_ORDER) = m := by
    rw [hm]; exact Nat.mul_div_cancel_left m hpos
  rw [hdiv]
  simp only [in_block]
  constructor
  · rintro ⟨h1, h2⟩
    apply Nat.le_antisymm
    · apply Nat.le_of_lt_succ
      rw [Nat.div_lt_iff_lt_mul hpos, Nat.succ_mul]
      rw [hm, Nat.mul_comm] at h2
      exact h2
    · rw [Nat.le_div_iff_mul_le hpos]
      rw [hm, Nat.mul_comm] at h1
      exact h1
  · intro h
    have h1 : m ≤ i / 2 ^ (o - MIN_ORDER) := by omega
    have h2 : i / 2 ^ (o - MIN_ORDER) < m + 1 := by omega
    rw [Nat.le_div_iff_mul_le hpos] at h1
    rw [Nat.div_lt_iff_lt_mul hpos, Nat.succ_mul] at h2
    rw [hm, Nat.mul_comm]
    exact ⟨h1, h2⟩

theorem small_xor_div : ∀ c, c < 9 → ∀ k, k < c → ∀ p, p < 256 →
    (p ^^^ 2 ^ k) / 2 ^ c = p / 2 ^ c := by
  decide!

theorem aligned_eq_of_in_block (r q o : Nat) (hr : 2 ^ (o - MIN_ORDER) ∣ r)
    (hq : 2 ^ (o - MIN_ORDER) ∣ q) (h : in_block (r, o) q) : r = q := by
  have h1 := (in_block_iff_div r o q hr).1 h
  obtain ⟨m, hm⟩ := hr
  obtain ⟨n, hn⟩ := hq
  have hpos : 0 < 2 ^ (o - MIN_ORDER) := Nat.two_pow_pos _
  rw [hm, hn, Nat.mul_div_cancel_left _ hpos, Nat.mul_div_cancel_left _ hpos] at h1
  rw [hm, hn, h1]

/-- In a state reached by successful calls of `buddy_alloc` and calls of `buddy_free` on
live blocks whose record holds their order, when no block is live the arena is a single
free block of order `MAX_ORDER`. -/
theorem all_free_is_whole (s : State) (h : Reachable_held s []) :
    s.free_area MAX_ORDER = [0] ∧
      ∀ o, MIN_ORDER ≤ o → o < MAX_ORDER → s.free_area o = [] := by
  obtain ⟨hw, -⟩ := reachable_well_formed _ _ (reachable_of_held _ _ h)
  have hc := reachable_held_holders s [] h
  have hall : all_blocks s [] = free_blocks s := by
    simp only [all_blocks, live_blocks, List.map_nil, List.append_nil]
  rw [hall] at hc
  have hle : ∀ i, holders (free_blocks s) i ≤ 1 := by
    intro i
    rw [hc i]
    split_ifs <;> omega
  have hpw := pairwise_apart _ hle
  have hcover : ∀ i, i < N_PAGES → ∃ b ∈ free_blocks s, in_block b i := by
    intro i hi
    apply mem_of_holders_pos
    rw [hc i]
    simp [hi]
  -- the lowest order with a free block
  have hlow : ∀ o, MIN_ORDER ≤ o → o < MAX_ORDER → s.free_area o = [] := by
    cases hsc : scan s (MAX_ORDER + 1 - MIN_ORDER) MIN_ORDER with
    | none =>
      intro o h1 h2
      exact (scan_eq_none s _ _).1 hsc o h1 (by simp only [MIN_ORDER, MAX_ORDER] at *; omega)
    | some k =>
      obtain ⟨hk1, hk2, hk3, hk4⟩ := (scan_eq_some s _ _ k).1 hsc
      have hk20 : k ≤ MAX_ORDER := by simp only [MIN_ORDER, MAX_ORDER] at *; omega
      by_cases hk : k = MAX_ORDER
      · intro o h1 h2
        exact hk4 o h1 (by omega)
      · exfalso
        have hklt : k < MAX_ORDER := by omega
        cases hl : s.free_area k with
        | nil => exact hk3 hl
        | cons p l =>
          have hpm : p ∈ s.free_area k := by rw [hl]; exact List.mem_cons_self _ _
          obtain ⟨hp, hal⟩ := hw.2.1 k hk1 hk20 p hpm
          have hk8 : k - MIN_ORDER < 8 := by simp only [MIN_ORDER, MAX_ORDER] at *; omega
          have hp256 : p < 256 := by rwa [n_pages_eq] at hp
          have hfacts := small_xor_facts (k - MIN_ORDER) hk8 p hp256 hal
          have hcases := small_xor_cases (k - MIN_ORDER) hk8 p hp256 hal
          have hq : p ^^^ 2 ^ (k - MIN_ORDER) < N_PAGES := by
            rw [n_pages_eq]; exact hfacts.2.2
          obtain ⟨b, hb, hbq⟩ := hcover _ hq
          obtain ⟨ho1, ho2, hr⟩ := mem_free_blocks_inv s b hb
          obtain ⟨r, o'⟩ := b
          simp only at ho1 ho2 hr
          obtain ⟨hrlt, hral⟩ := hw.2.1 o' ho1 ho2 r hr
          have hge : k ≤ o' := by
            by_contra hlt
            have := hk4 o' ho1 (by omega)
            rw [this] at hr
            cases hr
          by_cases hko : o' = k
          · subst hko
            have hqal : 2 ^ (o' - MIN_ORDER) ∣ p ^^^ 2 ^ (o' - MIN_ORDER) := by
              rcases hcases with hx | hx
              · rw [hx]; exact Nat.dvd_add hal (Nat.dvd_refl _)
              · have : p ^^^ 2 ^ (o' - MIN_ORDER) = p - 2 ^ (o' - MIN_ORDER) := by omega
                rw [this]
                exact Nat.dvd_sub' hal (Nat.dvd_refl _)
            have hrq := aligned_eq_of_in_block r _ o' hral hqal hbq
            have hnb := hw.2.2.2 o' hk1 hklt p hpm r hr
            rw [(hw.1 r hrlt).1, buddy_addr_page p o' hk1, hrq] at hnb
            exact hnb rfl
          · have hc9 : o' - MIN_ORDER < 9 := by simp only [MIN_ORDER, MAX_ORDER] at *; omega
            have hd := small_xor_div (o' - MIN_ORDER) hc9 (k - MIN_ORDER) (by omega) p hp256
            have hbp : in_block (r, o') p := by
              rw [in_block_iff_div r o' _ hral] at hbq ⊢
              rw [← hd]; exact hbq
            have hm1 : (p, k) ∈ free_blocks s := mem_free_blocks s p k hk1 hk20 hpm
            have hne : (r, o') ≠ (p, k) := by
              intro he
              simp only [Prod.mk.injEq] at he
              exact hko he.2
            exact hpw.forall apart_symm hb hm1 hne p ⟨hbp, in_block_head (p, k)⟩
  refine ⟨?_, hlow⟩
  -- the order-20 list holds page 0 and nothing else
  have hzero : ∀ e ∈ s.free_area MAX_ORDER, e = 0 := by
    intro e he
    obtain ⟨h1, h2⟩ := hw.2.1 MAX_ORDER (by decide) (le_refl _) e he
    rw [n_pages_eq] at h1
    rw [show 2 ^ (MAX_ORDER - MIN_ORDER) = 256 from rfl] at h2
    omega
  have hnd : (s.free_area MAX_ORDER).count 0 ≤ 1 := by
    have h3 := count_le_row_holders (s.free_area MAX_ORDER) MAX_ORDER 0
    have h4 := row_holders_le s MAX_ORDER 0 (by decide) (le_refl _)
    have h5 := hle 0
    omega
  obtain ⟨b, hb, hb0⟩ := hcover 0 (by decide)
  obtain ⟨ho1, ho2, hr⟩ := mem_free_blocks_inv s b hb
  have hb20 : b.2 = MAX_ORDER := by
    by_contra hne
    have := hlow b.2 ho1 (by omega)
    rw [this] at hr
    cases hr
  rw [hb20] at hr
  cases hl : s.free_area MAX_ORDER with
  | nil => rw [hl] at hr; cases hr
  | cons x rest =>
    have hx : x = 0 := hzero x (by rw [hl]; exact List.mem_cons_self _ _)
    subst hx
    cases rest with
    | nil => rfl
    | cons y rest2 =>
      have hy : y = 0 := hzero y (by rw [hl]; simp)
      subst hy
      rw [hl] at hnd
      simp at hnd

/-! ## The claims of the specification -/

theorem init0_alloc_one : buddy_alloc init0 1 = Res.ok (some 0, after_one) :=
  res_eta _ zero_state _ (by decide)

theorem reachable_held_after_one : Reachable_held after_one [(0, find_order 1)] :=
  Reachable_held.alloc 1 0 after_one (Reachable_held.init zero_state) init0_alloc_one

theorem reachable_after_one : Reachable after_one [(0, find_order 1)] :=
  reachable_of_held _ _ reachable_held_after_one

theorem freed_eta (r : Res State) (d : State) (h : is_undef r = false)
    (h2 : r ≠ Res.nofuel) : r = Res.ok (freed d r) := by
  cases r with
  | ok s => rfl
  | undef => simp [is_undef] at h
  | nofuel => exact absurd rfl h2

theorem reachable_held_two_freed :
    Reachable_held two_freed
      [(PAGE_TO_ADDR 3, find_order 1), (PAGE_TO_ADDR 1, find_order 1)] := by
  have h0 := Reachable_held.init zero_state
  have h1 := Reachable_held.alloc 1 (PAGE_TO_ADDR 0) _ h0 (res_eta _ zero_state _ (by decide))
  have h2 := Reachable_held.alloc 1 (PAGE_TO_ADDR 1) _ h1 (res_eta _ zero_state _ (by decide))
  have h3 := Reachable_held.alloc 1 (PAGE_TO_ADDR 2) _ h2 (res_eta _ zero_state _ (by decide))
  have h4 := Reachable_held.alloc 1 (PAGE_TO_ADDR 3) _ h3 (res_eta _ zero_state _ (by decide))
  have h5 := Reachable_held.free (PAGE_TO_ADDR 0) (find_order 1) _ h4 (by decide) (by decide)
    (freed_eta _ zero_state (by decide) (buddy_free_ne_nofuel _ _))
  have h6 := Reachable_held.free (PAGE_TO_ADDR 2) (find_order 1) _ h5 (by decide) (by decide)
    (freed_eta _ zero_state (by decide) (buddy_free_ne_nofuel _ _))
  exact h6

/-- C1. Conservation of free bytes, step by step: after `buddy_init` the sum over the
orders 12..20 of (length of `free_area[o]`) * `2^o` is `2^20`; every successful
`buddy_alloc(size)` lowers that sum by exactly `2^find_order(size)`; every `buddy_free`
of the head address of a live block whose page record holds the order `o` returns and
raises that sum by exactly `2^o`; so the free bytes plus the bytes of the live blocks
are `2^MAX_ORDER` in every state reached by such calls. -/
theorem free_bytes_conservation :
    (∀ s0, free_bytes (buddy_init s0) = 2 ^ 20) ∧
    (∀ s size a s', buddy_alloc s size = Res.ok (some a, s') →
      free_bytes s' + 2 ^ find_order size = free_bytes s) ∧
    (∀ s live a o, Reachable s live → (a, o) ∈ live →
      (s.g_pages (ADDR_TO_PAGE a)).order = (o : Int) →
      ∃ s', buddy_free s a = Res.ok s' ∧ free_bytes s' = free_bytes s + 2 ^ o) ∧
    (∀ s live, Reachable_held s live → free_bytes s + live_bytes live = 2 ^ MAX_ORDER) := by
  have part3 : ∀ s live a o, Reachable s live → (a, o) ∈ live →
      (s.g_pages (ADDR_TO_PAGE a)).order = (o : Int) →
      ∃ s', buddy_free s a = Res.ok s' ∧ free_bytes s' = free_bytes s + 2 ^ o := by
    intro s live a o hr hm ho
    obtain ⟨hw, hl⟩ := reachable_well_formed s live hr
    obtain ⟨⟨p, hp, hap⟩, h1, h2⟩ := hl (a, o) hm
    simp only at hap h1 h2
    subst hap
    rw [addr_to_page_to_addr] at ho
    obtain ⟨s', h3, -, h4⟩ := buddy_free_well_formed s p o hw hp h1 h2 ho
    exact ⟨s', h3, h4⟩
  refine ⟨free_bytes_init, ?_, part3, ?_⟩
  · intro s size a s' h
    exact buddy_alloc_fuel_free_bytes _ s s' size a h
  · intro s live hr
    induction hr with
    | init s0 => simp [free_bytes_init, live_bytes, MAX_ORDER]
    | alloc size a s' _ h ih =>
      have := buddy_alloc_fuel_free_bytes _ _ s' size a h
      simp only [live_bytes, List.map_cons, List.sum_cons] at ih ⊢
      omega
    | free a o s' hr hm ho h ih =>
      obtain ⟨s2, h2, h3⟩ := part3 _ _ a o (reachable_of_held _ _ hr) hm ho
      rw [h] at h2
      simp only [Res.ok.injEq] at h2
      subst h2
      have := live_bytes_erase _ (a, o) hm
      simp only at this
      omega

/-- An instance of C1: the first `buddy_alloc(1)` after `buddy_init` takes `2^12` bytes
from the free lists, and freeing its block gives them back. -/
theorem free_bytes_conservation_witness :
    free_bytes after_one + 2 ^ find_order 1 = free_bytes init0 ∧
    (∃ s', buddy_free after_one 0 = Res.ok s' ∧
      free_bytes s' = free_bytes after_one + 2 ^ 12) ∧
    free_bytes after_one + live_bytes [(0, find_order 1)] = 2 ^ MAX_ORDER :=
  ⟨free_bytes_conservation.2.1 init0 1 0 after_one init0_alloc_one,
   free_bytes_conservation.2.2.1 after_one [(0, find_order 1)] 0 12
     reachable_after_one (by decide) (by decide),
   free_bytes_conservation.2.2.2 after_one [(0, find_order 1)] reachable_held_after_one⟩

/-- C2. Round trip: in every state reachable from `buddy_init` by calls of `buddy_alloc`
and calls of `buddy_free` on live block addresses, a successful `buddy_alloc(size)`
followed at once by `buddy_free` of the returned address leaves every free list of the
orders 12..20 with the number of entries it had before the two calls. -/
theorem alloc_free_round_trip (s : State) (live : List (Nat × Nat)) (size : Int) (a : Nat)
    (s1 : State) (hr : Reachable s live) (h : buddy_alloc s size = Res.ok (some a, s1)) :
    ∃ s2, buddy_free s1 a = Res.ok s2 ∧
      ∀ o, MIN_ORDER ≤ o → o ≤ MAX_ORDER →
        (s2.free_area o).length = (s.free_area o).length := by
  obtain ⟨s2, h1, h2⟩ :=
    round_trip_well_formed s s1 size a (reachable_well_formed s live hr).1 h
  exact ⟨s2, h1, fun o _ _ => h2 o⟩

/-- An instance of C2: `buddy_alloc(1)` right after `buddy_init`, then `buddy_free`. -/
theorem alloc_free_round_trip_witness :
    ∃ s2, buddy_free after_one 0 = Res.ok s2 ∧
      ∀ o, MIN_ORDER ≤ o → o ≤ MAX_ORDER →
        (s2.free_area o).length = (init0.free_area o).length :=
  alloc_free_round_trip init0 [] 1 0 after_one (Reachable.init zero_state) init0_alloc_one

/-- C3. Exhaustion boundary: starting from `buddy_init`, each of the first 256
consecutive calls `buddy_alloc(1)` returns a non-NULL address, and the 257th call
returns `NULL` and changes nothing. -/
theorem exhaustion_boundary (s0 : State) :
    (∀ n, n < 256 → ∃ a s', buddy_alloc (after_allocs n s0) 1 = Res.ok (some a, s')) ∧
    buddy_alloc (after_allocs 256 s0) 1 = Res.ok (none, after_allocs 256 s0) := by
  constructor
  · intro n hn
    obtain ⟨hw, hb⟩ := after_allocs_inv s0 n (by omega)
    obtain ⟨a, s', h, -⟩ := alloc_one_step _ hw (by omega)
    exact ⟨a, s', h⟩
  · obtain ⟨-, hb⟩ := after_allocs_inv s0 256 (le_refl _)
    have hz := free_bytes_zero (after_allocs 256 s0) (by omega)
    apply buddy_alloc_fuel_of_scan_none
    rw [scan_eq_none, find_order_one]
    intro j h1 h2
    exact hz j h1 (by simp only [MAX_ORDER] at *; omega)

/-- An instance of C3: the fourth call of `buddy_alloc(1)` succeeds. -/
theorem exhaustion_boundary_witness :
    ∃ a s', buddy_alloc (after_allocs 3 zero_state) 1 = Res.ok (some a, s') :=
  (exhaustion_boundary zero_state).1 3 (by decide)

/-- C4. Freed block is reused before further splitting: after `buddy_init`,
`buddy_alloc(4000)` returns the arena base (offset 0, page 0), a second
`buddy_alloc(4000)` returns base + 4096 (page 1), and after `buddy_free(base)` a third
`buddy_alloc(4000)` returns the base again. -/
theorem freed_block_reused (s0 : State) :
    ∃ s1 s2 s3 s4, buddy_alloc (buddy_init s0) 4000 = Res.ok (some 0, s1) ∧
      buddy_alloc s1 4000 = Res.ok (some 4096, s2) ∧
      buddy_free s2 0 = Res.ok s3 ∧
      buddy_alloc s3 4000 = Res.ok (some 0, s4) := by
  obtain ⟨s', h, -⟩ := observe_init
    [Call.alloc 4000, Call.alloc 4000, Call.free 0, Call.alloc 4000] s0
    [some 0, some 4096, some 0]
    [(0, 4), (1, 8), (1, 16), (1, 32), (1, 64), (1, 128), (1, 256), (1, 512), (0, 1024)]
    (by decide)
  obtain ⟨r1, s1, rs1, h1, h, e1⟩ := run_alloc_inv _ _ _ _ _ h
  obtain ⟨r2, s2, rs2, h2, h, e2⟩ := run_alloc_inv _ _ _ _ _ h
  obtain ⟨s3, h3, h⟩ := run_free_inv _ _ _ _ _ h
  obtain ⟨r4, s4, rs4, h4, h, e4⟩ := run_alloc_inv _ _ _ _ _ h
  subst e2 e4
  simp only [List.cons.injEq] at e1
  obtain ⟨rfl, rfl, rfl, -⟩ := e1
  exact ⟨s1, s2, s3, s4, h1, h2, h3, h4⟩

/-- C5, as the specification states it, fails: after `buddy_init` the call
`buddy_alloc(1)` returns page 0 and leaves one free block at order 12 and none at
order 20, not none at order 12 and one at order 20. -/
theorem split_shape_counterexample :
    ret_of (buddy_alloc init0 1) = some (some 0) ∧
    ¬ ((after_one.free_area 12).length = 0 ∧
      ∀ o, 13 ≤ o → o ≤ 20 → (after_one.free_area o).length = 1) := by
  refine ⟨by decide, ?_⟩
  intro h
  exact absurd h.1 (by decide)

/-- C5, amended. Split shape: right after `buddy_init`, the call `buddy_alloc(1)` returns
the arena base and leaves exactly one free block in the free list of each order from 12
through 19 and no free block in the free list of order 20. -/
theorem split_shape (s0 : State) :
    ∃ s', buddy_alloc (buddy_init s0) 1 = Res.ok (some 0, s') ∧
      (∀ o, 12 ≤ o → o ≤ 19 → (s'.free_area o).length = 1) ∧
      (s'.free_area 20).length = 0 := by
  obtain ⟨s', h, hd⟩ := observe_init [Call.alloc 1] s0 [some 0]
    [(1, 4), (1, 8), (1, 16), (1, 32), (1, 64), (1, 128), (1, 256), (1, 512), (0, 1024)]
    (by decide)
  obtain ⟨r1, s1, rs1, h1, h, e1⟩ := run_alloc_inv _ _ _ _ _ h
  obtain ⟨-, rfl⟩ := run_nil_inv _ _ _ h
  simp only [List.cons.injEq] at e1
  obtain ⟨rfl, -⟩ := e1
  rw [buddy_dump_eq] at hd
  simp only [List.cons.injEq, Prod.mk.injEq, and_true] at hd
  refine ⟨s', h1, ?_, by omega⟩
  intro o ho1 ho2
  interval_cases o <;> omega

/-- C6, as the specification states it, fails: after `buddy_init` and two calls
`buddy_alloc(1)`, which return pages 0 and 1, freeing both pages (in either order)
leaves a dump with no free block at order 13: the merged block merges on with its free
buddies up to order 20. -/
theorem merge_counterexample :
    observe (run [Call.alloc 1, Call.alloc 1, Call.free 0, Call.free 4096] init0) =
      some ([some 0, some 4096],
        [(0, 4), (0, 8), (0, 16), (0, 32), (0, 64), (0, 128), (0, 256), (0, 512),
          (1, 1024)]) ∧
    observe (run [Call.alloc 1, Call.alloc 1, Call.free 4096, Call.free 0] init0) =
      some ([some 0, some 4096],
        [(0, 4), (0, 8), (0, 16), (0, 32), (0, 64), (0, 128), (0, 256), (0, 512),
          (1, 1024)]) ∧
    ¬ ∃ rs s', run [Call.alloc 1, Call.alloc 1, Call.free 0, Call.free 4096] init0 =
        Res.ok (rs, s') ∧
      (s'.free_area 13).length = 1 ∧ (s'.free_area 12).length = 0 := by
  have h1 : observe (run [Call.alloc 1, Call.alloc 1, Call.free 0, Call.free 4096] init0) =
      some ([some 0, some 4096],
        [(0, 4), (0, 8), (0, 16), (0, 32), (0, 64), (0, 128), (0, 256), (0, 512),
          (1, 1024)]) := by decide
  refine ⟨h1, by decide, ?_⟩
  rintro ⟨rs, s', hrun, h13, -⟩
  rw [hrun] at h1
  simp only [observe, Option.some.injEq, Prod.mk.injEq] at h1
  have hd := h1.2
  rw [buddy_dump_eq] at hd
  simp only [List.cons.injEq, Prod.mk.injEq, and_true] at hd
  omega

/-- C6, amended. Merge correctness: let `x` and `y` be two order-12 blocks whose page
indices are buddies (`x XOR 1 = y`), both records holding order 12, `y` not on the
order-12 free list, in a well-formed state (every reachable state is one). When the
buddy of the merged block (page `min x y XOR 2`) is not on the order-13 free list and
`y` is not page 12, `buddy_free` of `x` and then of `y` returns, leaves the order-12 free
list as it was, puts the merged block at the head of the order-13 free list and leaves
every other free list unchanged. Instances after `buddy_init`: after four calls
`buddy_alloc(1)` (pages 0..3), freeing pages 0 and 1 in either order leaves a dump with
one free block at order 13 and none at order 12; after only two calls (pages 0 and 1)
the buddy of the merged block is free at every order, the merge goes on, and the dump
shows one free block at order 20 and none at the orders 12..19. -/
theorem merge_correctness :
    (∀ (s : State) (x y : Nat), well_formed s → x < N_PAGES → y < N_PAGES →
      x ^^^ 1 = y → y ≠ 12 →
      (s.g_pages x).order = 12 → (s.g_pages y).order = 12 →
      y ∉ s.free_area 12 → (min x y) ^^^ 2 ∉ s.free_area 13 →
      ∃ s1 s2, buddy_free s (PAGE_TO_ADDR x) = Res.ok s1 ∧
        buddy_free s1 (PAGE_TO_ADDR y) = Res.ok s2 ∧
        s2.free_area 12 = s.free_area 12 ∧
        s2.free_area 13 = min x y :: s.free_area 13 ∧
        ∀ o, o ≠ 12 → o ≠ 13 → s2.free_area o = s.free_area o) ∧
    (∀ s0 : State,
      (∃ s', run [Call.alloc 1, Call.alloc 1, Call.alloc 1, Call.alloc 1, Call.free 0,
            Call.free 4096] (buddy_init s0) =
          Res.ok ([some 0, some 4096, some 8192, some 12288], s') ∧
        buddy_dump s' = [(0, 4), (1, 8), (1, 16), (1, 32), (1, 64), (1, 128), (1, 256),
          (1, 512), (0, 1024)]) ∧
      (∃ s', run [Call.alloc 1, Call.alloc 1, Call.alloc 1, Call.alloc 1, Call.free 4096,
            Call.free 0] (buddy_init s0) =
          Res.ok ([some 0, some 4096, some 8192, some 12288], s') ∧
        buddy_dump s' = [(0, 4), (1, 8), (1, 16), (1, 32), (1, 64), (1, 128), (1, 256),
          (1, 512), (0, 1024)]) ∧
      (∃ s', run [Call.alloc 1, Call.alloc 1, Call.free 0, Call.free 4096]
            (buddy_init s0) = Res.ok ([some 0, some 4096], s') ∧
        buddy_dump s' = [(0, 4), (0, 8), (0, 16), (0, 32), (0, 64), (0, 128), (0, 256),
          (0, 512), (1, 1024)]) ∧
      (∃ s', run [Call.alloc 1, Call.alloc 1, Call.free 4096, Call.free 0]
            (buddy_init s0) = Res.ok ([some 0, some 4096], s') ∧
        buddy_dump s' = [(0, 4), (0, 8), (0, 16), (0, 32), (0, 64), (0, 128), (0, 256),
          (0, 512), (1, 1024)])) := by
  constructor
  · intro s x y hw hx hy hxy hy12 ho1 ho2 hf2 hb
    exact free_two_buddies s x y hw hx hy hxy hy12 ho1 ho2 hf2 hb
  · intro s0
    exact ⟨observe_init _ s0 _ _ (by decide), observe_init _ s0 _ _ (by decide),
      observe_init _ s0 _ _ (by decide), observe_init _ s0 _ _ (by decide)⟩

/-- An instance of C6, amended: after four calls `buddy_alloc(1)`, pages 1 and 0 are
freed in this order. -/
theorem merge_correctness_witness :
    ∃ s1 s2, buddy_free (after_allocs 4 zero_state) (PAGE_TO_ADDR 1) = Res.ok s1 ∧
      buddy_free s1 (PAGE_TO_ADDR 0) = Res.ok s2 ∧
      s2.free_area 12 = (after_allocs 4 zero_state).free_area 12 ∧
      s2.free_area 13 = min 1 0 :: (after_allocs 4 zero_state).free_area 13 ∧
      ∀ o, o ≠ 12 → o ≠ 13 → s2.free_area o = (after_allocs 4 zero_state).free_area o :=
  merge_correctness.1 (after_allocs 4 zero_state) 1 0
    (after_allocs_inv zero_state 4 (by decide)).1 (by decide) (by decide) (by decide)
    (by decide) (by decide) (by decide) (by decide) (by decide)

/-- C7. Order calculation: for every size with `1 <= size <= 2^20`, `find_order(size)`
is the smallest order `o` in `[MIN_ORDER, MAX_ORDER]` with `2^o >= size`. -/
theorem find_order_smallest (size : Int) (h1 : 1 ≤ size) (h2 : size ≤ 2 ^ 20) :
    MIN_ORDER ≤ find_order size ∧ find_order size ≤ MAX_ORDER ∧
    size ≤ 2 ^ find_order size ∧
    ∀ o, MIN_ORDER ≤ o → o ≤ MAX_ORDER → size ≤ 2 ^ o → find_order size ≤ o := by
  have ht := find_order_table size
  norm_num at h2
  simp only [MIN_ORDER, MAX_ORDER]
  rcases ht with h | h | h | h | h | h | h | h | h | h
  case inr.inr.inr.inr.inr.inr.inr.inr.inr => omega
  all_goals
    have hb := h.2
    try have hb := hb.2
    rw [hb]
    refine ⟨by omega, by omega, by norm_num; omega, ?_⟩
    intro o ho1 ho2 ho3
    by_contra hlt
    push_neg at hlt
    interval_cases o <;> norm_num at ho3 <;> omega

/-- An instance of C7: the order of a request of 5000 bytes. -/
theorem find_order_smallest_witness :
    MIN_ORDER ≤ find_order 5000 ∧ find_order 5000 ≤ MAX_ORDER ∧
    (5000 : Int) ≤ 2 ^ find_order 5000 ∧
    ∀ o, MIN_ORDER ≤ o → o ≤ MAX_ORDER → (5000 : Int) ≤ 2 ^ o → find_order 5000 ≤ o :=
  find_order_smallest 5000 (by decide) (by decide)

/-- C8. Invalid size is rejected atomically: for every state and every size with
`size <= 0` or `size > 2^20`, `buddy_alloc(size)` returns `NULL` and leaves every free
list and every page record unchanged. -/
theorem buddy_alloc_invalid_size (s : State) (size : Int) (h : size ≤ 0 ∨ 2 ^ 20 < size) :
    buddy_alloc s size = Res.ok (none, s) := by
  rcases h with h | h
  · have : size < 1 := by omega
    simp [buddy_alloc, buddy_alloc_fuel, this]
  · apply buddy_alloc_fuel_of_scan_none
    rw [find_order_big size h]
    simp [scan]

/-- An instance of C8: sizes 0 and `2^20 + 1` right after `buddy_init`. -/
theorem buddy_alloc_invalid_size_witness :
    buddy_alloc init0 0 = Res.ok (none, init0) ∧
    buddy_alloc init0 (2 ^ 20 + 1) = Res.ok (none, init0) :=
  ⟨buddy_alloc_invalid_size init0 0 (Or.inl (by decide)),
   buddy_alloc_invalid_size init0 (2 ^ 20 + 1) (Or.inr (by decide))⟩

/-- C9. Out of memory exactly when nothing fits: for every state and every size with
`1 <= size <= 2^20`, `buddy_alloc(size)` returns `NULL` if and only if the free lists of
all orders from `find_order(size)` through `MAX_ORDER` are empty, and when it returns
`NULL` the free lists and page records are unchanged. -/
theorem buddy_alloc_null_iff (s : State) (size : Int) (h1 : 1 ≤ size) (h2 : size ≤ 2 ^ 20) :
    ((∃ s', buddy_alloc s size = Res.ok (none, s')) ↔
      ∀ i, find_order size ≤ i → i ≤ MAX_ORDER → s.free_area i = []) ∧
    (∀ s', buddy_alloc s size = Res.ok (none, s') → s' = s) := by
  have hle := find_order_le size
  have hmax := find_order_le_max size h2
  constructor
  · constructor
    · rintro ⟨s', h⟩
      rcases (buddy_alloc_fuel_null _ s s' size h).2 with hs | hs
      · omega
      · intro i hi1 hi2
        exact (scan_eq_none s _ _).1 hs i hi1 (by omega)
    · intro h
      refine ⟨s, buddy_alloc_fuel_of_scan_none _ s size ?_⟩
      rw [scan_eq_none]
      intro j hj1 hj2
      exact h j hj1 (by omega)
  · intro s' h
    exact (buddy_alloc_fuel_null _ s s' size h).1

/-- An instance of C9: a request of one byte right after `buddy_init`. -/
theorem buddy_alloc_null_iff_witness :
    ((∃ s', buddy_alloc init0 1 = Res.ok (none, s')) ↔
      ∀ i, find_order 1 ≤ i → i ≤ MAX_ORDER → init0.free_area i = []) ∧
    (∀ s', buddy_alloc init0 1 = Res.ok (none, s') → s' = init0) :=
  buddy_alloc_null_iff init0 1 (by decide) (by decide)

/-- C10. Alignment: in every state reachable from `buddy_init` by calls of `buddy_alloc`
and calls of `buddy_free` on live block addresses, every non-NULL address returned by
`buddy_alloc` is arena base + `i * 4096` for a page index `i < 256`: its offset from the
base is a multiple of `2^MIN_ORDER` and lies inside the arena. -/
theorem buddy_alloc_aligned (s : State) (live : List (Nat × Nat)) (size : Int) (a : Nat)
    (s' : State) (hr : Reachable s live) (h : buddy_alloc s size = Res.ok (some a, s')) :
    (∃ i, i < 256 ∧ a = i * 4096) ∧ a % 2 ^ MIN_ORDER = 0 ∧ a < 2 ^ MAX_ORDER := by
  obtain ⟨-, hret⟩ :=
    buddy_alloc_well_formed s s' size (some a) (reachable_well_formed s live hr).1 h
  obtain ⟨p, hp, hap, -, -⟩ := hret a rfl
  rw [n_pages_eq] at hp
  simp only [PAGE_TO_ADDR, page_size_eq] at hap
  subst hap
  refine ⟨⟨p, hp, rfl⟩, ?_, ?_⟩
  · simp [MIN_ORDER]
  · simp only [MAX_ORDER]; omega

/-- An instance of C10: the first `buddy_alloc(1)` after `buddy_init`. -/
theorem buddy_alloc_aligned_witness :
    (∃ i, i < 256 ∧ 0 = i * 4096) ∧ 0 % 2 ^ MIN_ORDER = 0 ∧ 0 < 2 ^ MAX_ORDER :=
  buddy_alloc_aligned init0 [] 1 0 after_one (Reachable.init zero_state) init0_alloc_one

/-- C11. Initial state: after `buddy_init`, from any prior state, the free list of order
`MAX_ORDER` holds exactly the record of page 0, the free lists of the orders 12..19 are
empty, every page record `i` in 0..255 has index `i` and address base + `i * 4096`, and
`buddy_dump` reports count 0 for the sizes 4K..512K and count 1 for 1024K, in ascending
order. -/
theorem initial_state (s0 : State) :
    (buddy_init s0).free_area MAX_ORDER = [0] ∧
    (∀ o, MIN_ORDER ≤ o → o < MAX_ORDER → (buddy_init s0).free_area o = []) ∧
    (∀ i, i < 256 → ((buddy_init s0).g_pages i).index = i ∧
      ((buddy_init s0).g_pages i).address = i * 4096) ∧
    buddy_dump (buddy_init s0) =
      [(0, 4), (0, 8), (0, 16), (0, 32), (0, 64), (0, 128), (0, 256), (0, 512), (1, 1024)] := by
  have hw := well_formed_init s0
  have h20 : (buddy_init s0).free_area MAX_ORDER = [0] := by
    simp [buddy_init, MIN_ORDER, MAX_ORDER]
  have hlow : ∀ o, MIN_ORDER ≤ o → o < MAX_ORDER → (buddy_init s0).free_area o = [] := by
    intro o h1 h2
    have hne : o ≠ MAX_ORDER := by omega
    simp [buddy_init, hne, h1, Nat.le_of_lt h2]
  refine ⟨h20, hlow, ?_, ?_⟩
  · intro i hi
    have h := hw.1 i (by rw [n_pages_eq]; exact hi)
    simp only [PAGE_TO_ADDR, page_size_eq] at h
    exact ⟨h.2, h.1⟩
  · rw [buddy_dump_eq]
    have e20 : (buddy_init s0).free_area 20 = [0] := h20
    simp [hlow 12 (by decide) (by decide), hlow 13 (by decide) (by decide),
      hlow 14 (by decide) (by decide), hlow 15 (by decide) (by decide),
      hlow 16 (by decide) (by decide), hlow 17 (by decide) (by decide),
      hlow 18 (by decide) (by decide), hlow 19 (by decide) (by decide), e20]


/-- C12, as the specification states it, fails. With size 0 the order is
`find_order(0) = 12 <= 20`, order 20 is the first order with a non-empty free list right
after `buddy_init` and page 0 is its first entry, yet `buddy_alloc(0)` returns `NULL`.
And in the state `stray_state`, where page 255 is the first entry of the order-13 list,
`buddy_alloc(1)` leaves the defined behaviour: the right half would be page 256. -/
theorem split_is_cascade_counterexample :
    (find_order 0 ≤ MAX_ORDER ∧
      (∀ j, j < 20 → find_order 0 ≤ j → init0.free_area j = []) ∧
      init0.free_area 20 = [0] ∧
      ret_of (buddy_alloc init0 0) = some none) ∧
    (find_order 1 ≤ MAX_ORDER ∧ stray_state.free_area 12 = [] ∧
      stray_state.free_area 13 = [255] ∧
      is_undef (buddy_alloc stray_state 1) = true) := by
  refine ⟨⟨by decide, by decide, by decide, by decide⟩, by decide, by decide, by decide,
    by decide⟩

/-- C12, amended. The recursive split equals the iterative cascade: in every state whose
page records hold their own index and address, for every size `>= 1` with
`o = find_order(size) <= 20`, when `k` is the smallest order `>= o` with a non-empty free
list and the first entry `p` of `free_area[k]` is a page index below 256 that is a
multiple of `2^(k-12)` (as in every reachable state), `buddy_alloc(size)` returns the
address of page `p`, removes `p` from `free_area[k]`, inserts page `p + 2^(j-12)` at the
front of `free_area[j]` for each `j` with `o <= j < k`, sets the order field of page `p`
to `o` and changes nothing else; this is the result of `spec_allocate`. -/
theorem split_is_cascade (s : State) (size : Int) (k p : Nat) (l : List Nat)
    (hsize : 1 ≤ size) (hk1 : find_order size ≤ k) (hk2 : k ≤ MAX_ORDER)
    (hempty : ∀ j, find_order size ≤ j → j < k → s.free_area j = [])
    (hk : s.free_area k = p :: l)
    (hpages : pages_ok s) (hp : p < N_PAGES) (hal : 2 ^ (k - MIN_ORDER) ∣ p) :
    ∃ s', buddy_alloc s size = Res.ok (some (PAGE_TO_ADDR p), s') ∧
      spec_allocate s size = Res.ok (some (PAGE_TO_ADDR p), s') ∧
      s'.free_area k = l ∧
      (∀ j, find_order size ≤ j → j < k →
        s'.free_area j = (p + 2 ^ (j - MIN_ORDER)) :: s.free_area j) ∧
      (∀ j, (j < find_order size ∨ k < j) → s'.free_area j = s.free_area j) ∧
      (s'.g_pages p).order = (find_order size : Nat) ∧
      (s'.g_pages p).address = (s.g_pages p).address ∧
      (s'.g_pages p).index = (s.g_pages p).index ∧
      (∀ i, i ≠ p → s'.g_pages i = s.g_pages i) := by
  have hs : ¬ size < 1 := by omega
  have hscan : scan s (MAX_ORDER + 1 - find_order size) (find_order size) = some k := by
    rw [scan_eq_some]
    exact ⟨hk1, by omega, by rw [hk]; simp, hempty⟩
  obtain ⟨s', hr, h2k, h2r, h2o, h2p⟩ :=
    buddy_alloc_fuel_split (MAX_ORDER - MIN_ORDER + 1) s size k p l hs hscan hk
      (by have := find_order_ge size; simp only [MIN_ORDER, MAX_ORDER] at *; omega)
      hpages hp hal
  have hr' : buddy_alloc s size = Res.ok (some (PAGE_TO_ADDR p), s') := hr
  refine ⟨s', hr', ?_, h2k, ?_, h2o, ?_, ?_, ?_, ?_⟩
  · rw [← buddy_alloc_eq_spec s size k p l hs hscan hk hpages hp hal]
    exact hr'
  · intro j h1 h2
    rw [h2r j h1 h2, hempty j h1 h2]
  · rw [h2p p]; simp
  · rw [h2p p]; simp
  · rw [h2p p]; simp
  · intro i hi
    rw [h2p i]; simp [hi]

/-- An instance of C12, amended: a request of one byte right after `buddy_init`, where
`k = 20` and `p = 0`. -/
theorem split_is_cascade_witness :
    ∃ s', buddy_alloc init0 1 = Res.ok (some (PAGE_TO_ADDR 0), s') ∧
      spec_allocate init0 1 = Res.ok (some (PAGE_TO_ADDR 0), s') ∧
      s'.free_area 20 = [] ∧
      (∀ j, find_order 1 ≤ j → j < 20 →
        s'.free_area j = (0 + 2 ^ (j - MIN_ORDER)) :: init0.free_area j) ∧
      (∀ j, (j < find_order 1 ∨ 20 < j) → s'.free_area j = init0.free_area j) ∧
      (s'.g_pages 0).order = (find_order 1 : Nat) ∧
      (s'.g_pages 0).address = (init0.g_pages 0).address ∧
      (s'.g_pages 0).index = (init0.g_pages 0).index ∧
      (∀ i, i ≠ 0 → s'.g_pages i = init0.g_pages i) :=
  split_is_cascade init0 1 20 0 [] (by decide) (by decide) (by decide)
    (by
      intro j h1 h2
      have h1' : 12 ≤ j := h1
      interval_cases j <;> decide)
    (by decide) (well_formed_init zero_state).1 (by decide) (by decide)


/-- C13 fails on the code. After `buddy_init` and 13 calls `buddy_alloc(1)` the pages
0..12 are live, each with order 12 in its record. `buddy_free` of page 0 finds no buddy
at order 12 and executes `g_pages[order].order = -1` with `order = 12`: the record of the
live page 12 now holds -1, and a later `buddy_free` of page 12 indexes `free_area[-1]`.
So a reachable state has a live block whose record does not hold its order. -/
theorem order_record_overwritten :
    ret_of (buddy_alloc (after_allocs 12 zero_state) 1) = some (some (PAGE_TO_ADDR 12)) ∧
    ((after_allocs 13 zero_state).g_pages 12).order = 12 ∧
    ((freed zero_state (buddy_free (after_allocs 13 zero_state) 0)).g_pages 12).order = -1 ∧
    is_undef (buddy_free (freed zero_state (buddy_free (after_allocs 13 zero_state) 0))
      (PAGE_TO_ADDR 12)) = true ∧
    ∃ s live, Reachable s live ∧
      ∃ b ∈ live, (s.g_pages (ADDR_TO_PAGE b.1)).order ≠ (b.2 : Int) := by
  refine ⟨by decide, by decide, by decide, by decide, ?_⟩
  have hreach := allocs_live_reachable zero_state 13 (by decide)
  obtain ⟨s', hfree, -, -⟩ := buddy_free_well_formed (after_allocs 13 zero_state) 0 12
    (after_allocs_inv zero_state 13 (by decide)).1 (by decide) (by decide) (by decide)
    (by decide)
  have hfree' : buddy_free (after_allocs 13 zero_state) 0 = Res.ok s' := hfree
  have hs' : s' = freed zero_state (buddy_free (after_allocs 13 zero_state) 0) := by
    rw [hfree']; rfl
  refine ⟨s', (allocs_live 13 zero_state).erase (0, 12),
    Reachable.free 0 12 s' hreach (by decide) hfree', (PAGE_TO_ADDR 12, 12), by decide, ?_⟩
  rw [hs']
  decide


/-- C14 fails on the code, by the line `g_pages[order].order = -1` of `buddy_free`.
After `buddy_init`, 13 calls `buddy_alloc(1)` return the pages 0..12; freeing page 0
first overwrites the order in the record of page 12, and the `buddy_free` of page 12
that follows leaves the defined behaviour, whatever the order of the remaining frees. So
not every order of freeing all returned addresses ends with a single free block of
order `MAX_ORDER`. (When every `buddy_free` finds the order of its block in the record,
the arena does end as one block: `all_free_is_whole`.) -/
theorem full_coalescing_fails :
    observe (run (List.replicate 13 (Call.alloc 1)) init0) =
      some ([some 0, some 4096, some 8192, some 12288, some 16384, some 20480, some 24576,
          some 28672, some 32768, some 36864, some 40960, some 45056, some 49152],
        [(1, 4), (1, 8), (0, 16), (0, 32), (1, 64), (1, 128), (1, 256), (1, 512),
          (0, 1024)]) ∧
    is_undef (run ([0, 49152, 4096, 8192, 12288, 16384, 20480, 24576, 28672, 32768, 36864,
        40960, 45056].map Call.free)
      (run_state zero_state (run (List.replicate 13 (Call.alloc 1)) init0))) = true ∧
    ¬ ∀ (s0 : State) (sizes : List Int) (rs : List (Option Nat)) (s1 : State)
        (frees : List Nat),
      run (sizes.map Call.alloc) (buddy_init s0) = Res.ok (rs, s1) →
      (∀ r ∈ rs, r ≠ none) → frees.Perm (rs.filterMap id) →
      ∃ s2, run (frees.map Call.free) s1 = Res.ok ([], s2) ∧
        s2.free_area MAX_ORDER = [0] ∧
        ∀ o, MIN_ORDER ≤ o → o < MAX_ORDER → s2.free_area o = [] := by
  have hobs : observe (run (List.replicate 13 (Call.alloc 1)) init0) =
      some ([some 0, some 4096, some 8192, some 12288, some 16384, some 20480, some 24576,
          some 28672, some 32768, some 36864, some 40960, some 45056, some 49152],
        [(1, 4), (1, 8), (0, 16), (0, 32), (1, 64), (1, 128), (1, 256), (1, 512),
          (0, 1024)]) := by decide
  have hund : is_undef (run ([0, 49152, 4096, 8192, 12288, 16384, 20480, 24576, 28672,
        32768, 36864, 40960, 45056].map Call.free)
      (run_state zero_state (run (List.replicate 13 (Call.alloc 1)) init0))) = true := by
    decide
  refine ⟨hobs, hund, ?_⟩
  intro h
  obtain ⟨s2, hrun, -⟩ := h zero_state (List.replicate 13 1) _ _
    [0, 49152, 4096, 8192, 12288, 16384, 20480, 24576, 28672, 32768, 36864, 40960, 45056]
    (run_eta _ zero_state _ _ hobs) (by decide) (by decide)
  have h2 : is_undef (run ([0, 49152, 4096, 8192, 12288, 16384, 20480, 24576, 28672,
        32768, 36864, 40960, 45056].map Call.free)
      (run_state zero_state (run ((List.replicate 13 1).map Call.alloc)
        (buddy_init zero_state)))) = true := hund
  rw [hrun] at h2
  simp [is_undef] at h2

/-- C15. The buddy search is exact: in a round of the loop of `buddy_free` at order `o`
the test after the search finds a buddy if and only if `free_area[o]` holds an entry
whose address is `BUDDY_ADDR(addr, o)`, wherever that entry stands in the list and
whatever else the list holds. Then the first such entry is removed from `free_area[o]`,
the head becomes the lower of the two addresses and the loop goes on at order `o+1`
(or ends, when `o` is `MAX_ORDER`); otherwise the block is inserted into `free_area[o]`
and the loop stops. -/
theorem buddy_search_exact (s : State) (fuel addr index order : Nat) :
    (buddy_found s (BUDDY_ADDR addr order) (s.free_area order) ≠ none ↔
      ∃ e ∈ s.free_area order, (s.g_pages e).address = BUDDY_ADDR addr order) ∧
    ((∃ e ∈ s.free_area order, (s.g_pages e).address = BUDDY_ADDR addr order) →
      ∃ t l1 l2, s.free_area order = l1 ++ t :: l2 ∧
        (s.g_pages t).address = BUDDY_ADDR addr order ∧
        (∀ e ∈ l1, (s.g_pages e).address ≠ BUDDY_ADDR addr order) ∧
        (list_del t order s).free_area order = l1 ++ l2 ∧
        buddy_free_loop (fuel + 1) s addr index order =
          if order + 1 ≤ MAX_ORDER then
            buddy_free_loop fuel (list_del t order s) (min addr (BUDDY_ADDR addr order))
              (if addr > BUDDY_ADDR addr order then ADDR_TO_PAGE (BUDDY_ADDR addr order)
                else index) (order + 1)
          else Res.ok (list_del t order s)) ∧
    ((¬ ∃ e ∈ s.free_area order, (s.g_pages e).address = BUDDY_ADDR addr order) →
      buddy_free_loop (fuel + 1) s addr index order =
        if index < N_PAGES then Res.ok (list_add index order (set_order order (-1) s))
        else Res.undef) := by
  refine ⟨?_, ?_, ?_⟩
  · rw [Ne, buddy_found_eq_none]
    constructor
    · intro h
      by_contra hc
      exact h (fun e he hea => hc ⟨e, he, hea⟩)
    · rintro ⟨e, he, hea⟩ h
      exact h e he hea
  · intro hex
    obtain ⟨l1, t, l2, h1, h2, h3⟩ := first_match_split s _ _ hex
    have hf : buddy_found s (BUDDY_ADDR addr order) (s.free_area order) = some t :=
      (buddy_found_eq_some s _ _ t).2 ⟨l1, l2, h1, h2, h3⟩
    have hnot : t ∉ l1 := fun hm => h3 t hm h2
    refine ⟨t, l1, l2, h1, h2, h3, ?_, ?_⟩
    · simp only [list_del_free_area, if_true, h1]
      rw [List.erase_append_right _ hnot, List.erase_cons_head]
    · simp only [buddy_free_loop, hf, h2]
      by_cases hgt : addr > BUDDY_ADDR addr order
      · have hm : min addr (BUDDY_ADDR addr order) = BUDDY_ADDR addr order := by omega
        simp only [hgt, if_true, hm]
      · have hm : min addr (BUDDY_ADDR addr order) = addr := by omega
        simp only [hgt, if_false, hm]
  · intro hno
    have hf : buddy_found s (BUDDY_ADDR addr order) (s.free_area order) = none := by
      rw [buddy_found_eq_none]
      intro e he hea
      exact hno ⟨e, he, hea⟩
    simp only [buddy_free_loop, hf]

/-- An instance of C15: freeing page 0 after two calls `buddy_alloc(1)`; the order-12
list is empty, so no buddy is found and page 0 is inserted. -/
theorem buddy_search_exact_witness :
    buddy_free_loop (0 + 1) (alloc_one after_one) 0 0 12 =
      if 0 < N_PAGES then
        Res.ok (list_add 0 12 (set_order 12 (-1) (alloc_one after_one)))
      else Res.undef :=
  (buddy_search_exact (alloc_one after_one) 0 0 0 12).2.2 (by decide)


/-- C16. No block overlaps another: in every state reachable from `buddy_init` by
successful calls of `buddy_alloc` and calls of `buddy_free` on head addresses of live
blocks whose page record holds the order of the block, the page ranges
`[p, p + 2^(o-12))` of all free blocks and of all live blocks are pairwise disjoint,
cover all pages 0..255 and hold no other page; in particular no page record is twice in
one free list or in two free lists, and the head of no live block is in a free list. -/
theorem blocks_partition (s : State) (live : List (Nat × Nat))
    (h : Reachable_held s live) :
    (all_blocks s live).Pairwise apart ∧
    (∀ i, i < 256 → ∃ b ∈ all_blocks s live, in_block b i) ∧
    (∀ b ∈ all_blocks s live, ∀ i, in_block b i → i < 256) ∧
    (∀ o, 12 ≤ o → o ≤ 20 → (s.free_area o).Nodup) ∧
    (∀ o1 o2 p, 12 ≤ o1 → o1 ≤ 20 → 12 ≤ o2 → o2 ≤ 20 →
      p ∈ s.free_area o1 → p ∈ s.free_area o2 → o1 = o2) ∧
    (∀ b ∈ live, ∀ o, 12 ≤ o → o ≤ 20 → ADDR_TO_PAGE b.1 ∉ s.free_area o) := by
  have hc := reachable_held_holders s live h
  have hle : ∀ i, holders (all_blocks s live) i ≤ 1 := by
    intro i
    rw [hc i]
    split_ifs <;> omega
  have hpw := pairwise_apart _ hle
  refine ⟨hpw, ?_, ?_, ?_, ?_, ?_⟩
  · intro i hi
    apply mem_of_holders_pos
    rw [hc i, n_pages_eq]
    simp [hi]
  · intro b hb i hi
    have hpos := holders_pos_of_mem _ b i hb hi
    rw [hc i, n_pages_eq] at hpos
    by_contra hn
    simp [hn] at hpos
  · intro o h1 h2
    rw [List.nodup_iff_count_le_one]
    intro p
    have h3 := count_le_row_holders (s.free_area o) o p
    have h4 := row_holders_le s o p h1 h2
    have h5 := hle p
    simp only [all_blocks, holders_append] at h5
    omega
  · intro o1 o2 p h1 h2 h3 h4 hp1 hp2
    by_contra hne
    have hm1 : (p, o1) ∈ all_blocks s live :=
      List.mem_append_left _ (mem_free_blocks s p o1 h1 h2 hp1)
    have hm2 : (p, o2) ∈ all_blocks s live :=
      List.mem_append_left _ (mem_free_blocks s p o2 h3 h4 hp2)
    have hap := hpw.forall apart_symm hm1 hm2 (by simpa using hne)
    exact hap p ⟨in_block_head (p, o1), in_block_head (p, o2)⟩
  · intro b hb o h1 h2 hp
    have hm1 : (ADDR_TO_PAGE b.1, o) ∈ free_blocks s := mem_free_blocks s _ o h1 h2 hp
    have hm2 : (ADDR_TO_PAGE b.1, b.2) ∈ live_blocks live :=
      List.mem_map.2 ⟨b, hb, rfl⟩
    have hap := (List.pairwise_append.1 hpw).2.2 _ hm1 _ hm2
    exact hap (ADDR_TO_PAGE b.1)
      ⟨in_block_head (ADDR_TO_PAGE b.1, o), in_block_head (ADDR_TO_PAGE b.1, b.2)⟩

/-- An instance of C16: the state after `buddy_init` and one call `buddy_alloc(1)`. -/
theorem blocks_partition_witness :
    (all_blocks after_one [(0, find_order 1)]).Pairwise apart ∧
    (∀ i, i < 256 → ∃ b ∈ all_blocks after_one [(0, find_order 1)], in_block b i) ∧
    (∀ b ∈ all_blocks after_one [(0, find_order 1)], ∀ i, in_block b i → i < 256) ∧
    (∀ o, 12 ≤ o → o ≤ 20 → (after_one.free_area o).Nodup) ∧
    (∀ o1 o2 p, 12 ≤ o1 → o1 ≤ 20 → 12 ≤ o2 → o2 ≤ 20 →
      p ∈ after_one.free_area o1 → p ∈ after_one.free_area o2 → o1 = o2) ∧
    (∀ b ∈ [(0, find_order 1)], ∀ o, 12 ≤ o → o ≤ 20 →
      ADDR_TO_PAGE b.1 ∉ after_one.free_area o) :=
  blocks_partition after_one [(0, find_order 1)] reachable_held_after_one

/-- C17. Buddy arithmetic: for every page index `i` in 0..255 and every order `o` in
12..19, `ADDR_TO_PAGE(PAGE_TO_ADDR(i)) = i` and
`ADDR_TO_PAGE(BUDDY_ADDR(PAGE_TO_ADDR(i), o)) = i XOR 2^(o-12)`, the buddy is again a
page of the arena, and taking the buddy twice at the same order gives the original
address; for `o = 20` the buddy offset of any address inside the arena is at least
`2^20`, so it is the address of no page. -/
theorem buddy_arithmetic :
    (∀ i o, i < 256 → 12 ≤ o → o ≤ 19 →
      ADDR_TO_PAGE (PAGE_TO_ADDR i) = i ∧
      ADDR_TO_PAGE (BUDDY_ADDR (PAGE_TO_ADDR i) o) = i ^^^ 2 ^ (o - 12) ∧
      i ^^^ 2 ^ (o - 12) < 256 ∧
      BUDDY_ADDR (BUDDY_ADDR (PAGE_TO_ADDR i) o) o = PAGE_TO_ADDR i) ∧
    (∀ addr, addr < 2 ^ 20 → 2 ^ 20 ≤ BUDDY_ADDR addr 20 ∧
      ∀ j, j < 256 → BUDDY_ADDR addr 20 ≠ PAGE_TO_ADDR j) := by
  constructor
  · intro i o hi h1 h2
    have hb := buddy_addr_page i o h1
    simp only [MIN_ORDER] at hb
    refine ⟨addr_to_page_to_addr i, ?_, ?_, ?_⟩
    · rw [hb, addr_to_page_to_addr]
    · exact Nat.xor_lt_two_pow (n := 8) (by omega)
        (Nat.pow_lt_pow_right (by decide) (by omega))
    · simp only [BUDDY_ADDR]
      exact Nat.xor_cancel_right _ _
  · intro addr ha
    have h := buddy_addr_top addr ha
    simp only [MAX_ORDER] at h
    refine ⟨h, ?_⟩
    intro j hj hc
    have := page_to_addr_lt j (by rw [n_pages_eq]; exact hj)
    omega

/-- An instance of C17: page 5 and order 13, and the address of page 7 at order 20. -/
theorem buddy_arithmetic_witness :
    (ADDR_TO_PAGE (PAGE_TO_ADDR 5) = 5 ∧
      ADDR_TO_PAGE (BUDDY_ADDR (PAGE_TO_ADDR 5) 13) = 5 ^^^ 2 ^ (13 - 12) ∧
      5 ^^^ 2 ^ (13 - 12) < 256 ∧
      BUDDY_ADDR (BUDDY_ADDR (PAGE_TO_ADDR 5) 13) 13 = PAGE_TO_ADDR 5) ∧
    (2 ^ 20 ≤ BUDDY_ADDR 28672 20 ∧ ∀ j, j < 256 → BUDDY_ADDR 28672 20 ≠ PAGE_TO_ADDR j) :=
  ⟨buddy_arithmetic.1 5 13 (by decide) (by decide) (by decide),
   buddy_arithmetic.2 28672 (by decide)⟩

/-- C18, as the specification states it, fails. In the state `stray_state` the call
`buddy_alloc(1)` takes the split branch (`free_area[12]` is empty, `free_area[13]` is
not); the nested call `buddy_alloc(2^13)` returns the address of page 255, and the index
of the right half, `255 + 2^(12-12) = 256`, is not below 256. -/
theorem split_safe_counterexample :
    find_order 1 = 12 ∧ stray_state.free_area 12 = [] ∧ stray_state.free_area 13 = [255] ∧
    ret_of (buddy_alloc stray_state ((ORDER_SIZE (1 + 12) : Nat) : Int)) =
      some (some (PAGE_TO_ADDR 255)) ∧
    ¬ ((state_of zero_state
        (buddy_alloc stray_state ((ORDER_SIZE (1 + 12) : Nat) : Int))).g_pages 255).index +
      ORDER_SIZE 12 / PAGE_SIZE < N_PAGES ∧
    is_undef (buddy_alloc stray_state 1) = true := by
  refine ⟨by decide, by decide, by decide, by decide, by decide, by decide⟩

/-- C18, amended. The split recursion is safe and terminates: in every state whose page
records hold their own index and address, whenever `buddy_alloc(size)` takes the split
branch (`size >= 1`, `free_area[o..i-1]` empty and `free_area[i]` non-empty for some `i`
with `o < i <= 20`, `o = find_order(size)`) and the first entry `p` of `free_area[i]` is a
page index below 256 that is a multiple of `2^(i-12)` (as in every reachable state), the
nested call `buddy_alloc(2^(o+1))` returns the address of page `p`, which is not `NULL`
and whose page is in 0..255, the right-half index `p + 2^(o-12)` is below 256, and the
chain of nested calls ends after exactly `i - o` levels: `i - o + 1` levels of calls
return a result and `i - o` levels do not. -/
theorem split_safe (s : State) (size : Int) (i p : Nat) (l : List Nat)
    (hsize : 1 ≤ size) (hi1 : find_order size < i) (hi2 : i ≤ MAX_ORDER)
    (hempty : ∀ j, find_order size ≤ j → j < i → s.free_area j = [])
    (hi : s.free_area i = p :: l)
    (hpages : pages_ok s) (hp : p < N_PAGES) (hal : 2 ^ (i - MIN_ORDER) ∣ p) :
    (∀ fuel, i - find_order size ≤ fuel →
      ∃ s1, buddy_alloc_fuel fuel s ((ORDER_SIZE (1 + find_order size) : Nat) : Int) =
          Res.ok (some (PAGE_TO_ADDR p), s1) ∧
        ADDR_TO_PAGE (PAGE_TO_ADDR p) < N_PAGES ∧
        (s1.g_pages (ADDR_TO_PAGE (PAGE_TO_ADDR p))).index = p ∧
        (s1.g_pages (ADDR_TO_PAGE (PAGE_TO_ADDR p))).index +
          ORDER_SIZE (find_order size) / PAGE_SIZE < N_PAGES) ∧
    p + 2 ^ (find_order size - MIN_ORDER) < N_PAGES ∧
    (∃ s', buddy_alloc_fuel (i - find_order size + 1) s size =
      Res.ok (some (PAGE_TO_ADDR p), s')) ∧
    buddy_alloc_fuel (i - find_order size) s size = Res.nofuel := by
  have hs : ¬ size < 1 := by omega
  have hge := find_order_ge size
  have hscan : scan s (MAX_ORDER + 1 - find_order size) (find_order size) = some i := by
    rw [scan_eq_some]
    exact ⟨by omega, by omega, by rw [hi]; simp, hempty⟩
  have hfo := find_order_order_size (find_order size) hge (by omega)
  have hsize' : ¬ ((ORDER_SIZE (1 + find_order size) : Nat) : Int) < 1 := by
    have : 0 < ORDER_SIZE (1 + find_order size) := by
      simp only [ORDER_SIZE, Nat.one_shiftLeft]
      exact Nat.two_pow_pos _
    omega
  have hscan' : scan s (MAX_ORDER + 1 -
      find_order ((ORDER_SIZE (1 + find_order size) : Nat) : Int))
      (find_order ((ORDER_SIZE (1 + find_order size) : Nat) : Int)) = some i := by
    rw [hfo, scan_eq_some]
    exact ⟨by omega, by omega, by rw [hi]; simp, fun j h1 h2 => hempty j (by omega) h2⟩
  have hright := right_half_fits p i (find_order size) hp hal hge hi1 hi2
  refine ⟨?_, hright, ?_, ?_⟩
  · intro fuel hfuel
    obtain ⟨s1, hr, -, -, -, h1p⟩ :=
      buddy_alloc_fuel_split fuel s _ i p l hsize' hscan' hi (by rw [hfo]; omega)
        hpages hp hal
    have hidx : (s1.g_pages p).index = p := by
      rw [h1p p]; simpa using (hpages p hp).2
    refine ⟨s1, hr, ?_, ?_, ?_⟩
    · rw [addr_to_page_to_addr]; exact hp
    · rw [addr_to_page_to_addr]; exact hidx
    · rw [addr_to_page_to_addr, hidx, order_pages _ hge]; exact hright
  · obtain ⟨s', hr, -⟩ :=
      buddy_alloc_fuel_split (i - find_order size + 1) s size i p l hs hscan hi
        (by omega) hpages hp hal
    exact ⟨s', hr⟩
  · exact buddy_alloc_fuel_short _ s size i hs hscan (le_refl _)

/-- An instance of C18, amended: a request of one byte right after `buddy_init`, where
`i = 20` and `p = 0`. -/
theorem split_safe_witness :
    (∀ fuel, 20 - find_order 1 ≤ fuel →
      ∃ s1, buddy_alloc_fuel fuel init0 ((ORDER_SIZE (1 + find_order 1) : Nat) : Int) =
          Res.ok (some (PAGE_TO_ADDR 0), s1) ∧
        ADDR_TO_PAGE (PAGE_TO_ADDR 0) < N_PAGES ∧
        (s1.g_pages (ADDR_TO_PAGE (PAGE_TO_ADDR 0))).index = 0 ∧
        (s1.g_pages (ADDR_TO_PAGE (PAGE_TO_ADDR 0))).index +
          ORDER_SIZE (find_order 1) / PAGE_SIZE < N_PAGES) ∧
    0 + 2 ^ (find_order 1 - MIN_ORDER) < N_PAGES ∧
    (∃ s', buddy_alloc_fuel (20 - find_order 1 + 1) init0 1 =
      Res.ok (some (PAGE_TO_ADDR 0), s')) ∧
    buddy_alloc_fuel (20 - find_order 1) init0 1 = Res.nofuel :=
  split_safe init0 1 20 0 [] (by decide) (by decide) (by decide)
    (by
      intro j h1 h2
      have h1' : 12 ≤ j := h1
      interval_cases j <;> decide)
    (by decide) (well_formed_init zero_state).1 (by decide) (by decide)

/-- C19. No unmerged free buddies: in every state reachable from `buddy_init` by
successful calls of `buddy_alloc` and calls of `buddy_free` on head addresses of live
blocks whose page record holds the order of the block, no free list `free_area[o]` with
`12 <= o <= 19` holds two entries whose page indices differ exactly by XOR with
`2^(o-12)`. -/
theorem no_unmerged_buddies (s : State) (live : List (Nat × Nat))
    (h : Reachable_held s live) :
    ∀ o, 12 ≤ o → o ≤ 19 → ∀ p ∈ s.free_area o, ∀ q ∈ s.free_area o,
      q ≠ p ^^^ 2 ^ (o - 12) := by
  obtain ⟨hw, -⟩ := reachable_well_formed s live (reachable_of_held s live h)
  intro o h1 h2 p hp q hq hc
  have hq' := (hw.2.1 o h1 (by simp only [MAX_ORDER]; omega) q hq).1
  have hnb := hw.2.2.2 o h1 (by simp only [MAX_ORDER]; omega) p hp q hq
  rw [(hw.1 q hq').1, buddy_addr_page p o h1] at hnb
  apply hnb
  rw [hc]
  rfl


/-- An instance of C19: after `buddy_init`, four calls `buddy_alloc(1)` and the calls
`buddy_free` on page 0 and on page 2, the order-12 list holds the two distinct free
pages 2 and 0, with pages 1 and 3 live; page 0 is not the buddy of page 2. -/
theorem no_unmerged_buddies_witness :
    two_freed.free_area 12 = [2, 0] ∧ (0 : Nat) ≠ 2 ^^^ 2 ^ (12 - 12) :=
  ⟨by decide,
   no_unmerged_buddies two_freed
     [(PAGE_TO_ADDR 3, find_order 1), (PAGE_TO_ADDR 1, find_order 1)]
     reachable_held_two_freed 12 (by decide) (by decide) 2 (by decide) 0 (by decide)⟩

/-- C20. Blocks are naturally aligned: in every state reachable from `buddy_init` by
successful calls of `buddy_alloc` and calls of `buddy_free` on head addresses of live
blocks whose page record holds the order of the block, every entry of `free_area[o]`
is a page index that is a multiple of `2^(o-12)`, and every address returned by
`buddy_alloc` for a request of order `o` is the address of a page whose index is a
multiple of `2^(o-12)`. -/
theorem blocks_aligned (s : State) (live : List (Nat × Nat)) (h : Reachable_held s live) :
    (∀ o, 12 ≤ o → o ≤ 20 → ∀ p ∈ s.free_area o, p < 256 ∧ 2 ^ (o - 12) ∣ p) ∧
    (∀ size a s', buddy_alloc s size = Res.ok (some a, s') →
      a = PAGE_TO_ADDR (ADDR_TO_PAGE a) ∧ ADDR_TO_PAGE a < 256 ∧
      2 ^ (find_order size - 12) ∣ ADDR_TO_PAGE a) := by
  obtain ⟨hw, -⟩ := reachable_well_formed s live (reachable_of_held s live h)
  constructor
  · intro o h1 h2 p hp
    have := hw.2.1 o h1 h2 p hp
    rw [n_pages_eq] at this
    exact this
  · intro size a s' ha
    obtain ⟨p, hp, hap, hal, -⟩ := (buddy_alloc_well_formed s s' size (some a) hw ha).2 a rfl
    subst hap
    rw [addr_to_page_to_addr]
    rw [n_pages_eq] at hp
    exact ⟨rfl, hp, hal⟩

/-- An instance of C20: the state after `buddy_init` and one call `buddy_alloc(1)`. -/
theorem blocks_aligned_witness :
    (∀ o, 12 ≤ o → o ≤ 20 → ∀ p ∈ after_one.free_area o, p < 256 ∧ 2 ^ (o - 12) ∣ p) ∧
    (∀ size a s', buddy_alloc after_one size = Res.ok (some a, s') →
      a = PAGE_TO_ADDR (ADDR_TO_PAGE a) ∧ ADDR_TO_PAGE a < 256 ∧
      2 ^ (find_order size - 12) ∣ ADDR_TO_PAGE a) :=
  blocks_aligned after_one [(0, find_order 1)] reachable_held_after_one

end Buddy
